import Mathlib

/-! # Stages (Audible Instruments): grouping, loop arbitration and buttons

A shallow embedding of `src/Stages.cpp`.

* C arrays are total maps from the index to the cell (`Nat → α`); a store
  `a[i] = v` is `setAt a i v`. That the indices the code uses stay below
  `NUM_CHANNELS` is proved separately.
* `size_t` and `int` values are `Nat` and `Int`: the channel indices and the
  group sizes the code computes are at most `NUM_CHANNELS`, and the prior
  content of `groupSize` is only compared, never added to.
* The timer `float pressedTime` of a button is binary32: a finite value `x` is
  the integer `x * 2^149` and every sum is rounded to nearest, ties to even.
  Envelope values, which the code only copies and scales, and the oscillator
  phase are rationals.
* The enum `stages::segment::Type` is the signed 32-bit integer the field
  holds; a cast keeps the low 32 bits.
* The segment generators, the gate flags and the host parameters are not under
  `src/`; what the code needs of them is a parameter or is modelled from the
  spec, and says so.
-/

namespace AudibleInstruments

/-- Store `v` in cell `i` of the array `a`. -/
def setAt {α : Type} (a : Nat → α) (i : Nat) (v : α) : Nat → α :=
  fun k => if k = i then v else a k

/-- `static const int NUM_CHANNELS = 6;` -/
def NUM_CHANNELS : Nat := 6

/-- `static const int BLOCK_SIZE = 8;` -/
def BLOCK_SIZE : Nat := 8

/-- `enum InputIds`: `LEVEL_INPUTS` occupy `0..5`, `GATE_INPUTS` start at 6. -/
def GATE_INPUTS : Nat := 6

/-! ## GroupBuilder -/

/-- `struct GroupBuilder`: `size_t groupSize[NUM_CHANNELS]; bool isPatched`. -/
structure GroupBuilder where
  groupSize : Nat → Nat
  isPatched : Bool

/-- The constructor `GroupBuilder()`: every size is 0, `isPatched = false`. -/
def GroupBuilder.init : GroupBuilder :=
  { groupSize := fun _ => 0, isPatched := false }

/-- The body of `for (int i = count - 1; i >= 0; i -= 1)` in `buildGroups`.
The first argument is `i + 1`, so channel `i` is handled before the channels
below it. `inputs k` is `(*inputs)[k].active`. Returns the builder and `changed`. -/
def buildGroupsLoop (inputs : Nat → Bool) (first : Nat) :
    Nat → GroupBuilder → Bool → Nat → GroupBuilder × Bool
  | 0, gb, changed, _ => (gb, changed)
  | i + 1, gb, changed, activeGroup =>
    let patched := inputs (first + i)
    let activeGroup := activeGroup + 1
    if !patched then
      buildGroupsLoop inputs first i
        { gb with groupSize := setAt gb.groupSize i 0 }
        (changed || (gb.groupSize i != 0)) activeGroup
    else
      buildGroupsLoop inputs first i
        { groupSize := setAt gb.groupSize i activeGroup, isPatched := true }
        (changed || (gb.groupSize i != activeGroup)) 0

/-- `bool buildGroups(std::vector<Input> *inputs, size_t first, size_t count)`. -/
def GroupBuilder.buildGroups (gb : GroupBuilder) (inputs : Nat → Bool) (first count : Nat) :
    GroupBuilder × Bool :=
  buildGroupsLoop inputs first count { gb with isPatched := false } false 0

/-- The body of `for (int i = 0; i < NUM_CHANNELS; i++)` in `groupForSegment`.
The first argument is the number of iterations still to run, `NUM_CHANNELS - i`;
when none is left the function falls through to `return segment`. -/
def groupForSegmentLoop (groupSize : Nat → Nat) (segment : Int) :
    Nat → Nat → Int → Int → Int
  | 0, _, _, _ => segment
  | n + 1, i, group, currentGroupSize =>
    let currentGroupSize1 : Int :=
      if currentGroupSize ≤ 0 then max 1 (groupSize i : Int) else currentGroupSize
    let group1 : Int := if currentGroupSize ≤ 0 then (i : Int) else group
    if segment = (i : Int) then group1
    else groupForSegmentLoop groupSize segment n (i + 1) group1 (currentGroupSize1 - 1)

/-- `int groupForSegment(int segment)`. -/
def GroupBuilder.groupForSegment (gb : GroupBuilder) (segment : Int) : Int :=
  groupForSegmentLoop gb.groupSize segment NUM_CHANNELS 0 0 0

/-! ## binary32 arithmetic -/

/-- `1.f`. A finite binary32 value `x` is kept as the integer `x * 2^149`:
every finite binary32 value is a multiple of `2^-149`. This is `2^149`. -/
def float32One : Int := 713623846352979940529142984724747568191373312

/-- Round `s` to the nearest multiple of `2^sh`, a tie to the multiple with
an even quotient. -/
def float32RoundAt (sh s : Nat) : Nat :=
  let q := s / 2 ^ sh
  let rem := s % 2 ^ sh
  (if 2 ^ sh < 2 * rem ∨ (2 * rem = 2 ^ sh ∧ q % 2 = 1) then q + 1 else q) * 2 ^ sh

/-- The least `sh` from `sh` on with `s < 2^(24 + sh)`: the spacing `2^sh` of
the binary32 values around `s`, whose significand has 24 bits. The first
argument bounds the search. -/
def float32Shift : Nat → Nat → Nat → Nat
  | 0, _, sh => sh
  | fuel + 1, s, sh => if s < 2 ^ (24 + sh) then sh else float32Shift fuel s (sh + 1)

/-- The binary32 value nearest to the magnitude `s`, ties to even. All finite
binary32 magnitudes are below `2^277`, so 254 steps reach every spacing. -/
def float32RoundNat (s : Nat) : Nat :=
  float32RoundAt (float32Shift 254 s 0) s

/-- The binary32 value nearest to `s`, ties to even. -/
def float32Round (s : Int) : Int :=
  if 0 ≤ s then (float32RoundNat s.toNat : Int) else -(float32RoundNat (-s).toNat : Int)

/-- The sum `x + y` of two finite binary32 values as the processor computes it:
the exact sum, rounded once. An overflow to infinity is not modelled; it does
not arise in the timer, which is below 1 before every addition. -/
def float32Add (x y : Int) : Int :=
  float32Round (x + y)

/-- `pressedTime` after `k` pressed samples from `t`: `k` times
`pressedTime += dt`. -/
def float32Accumulate (dt : Int) : Nat → Int → Int
  | 0, t => t
  | k + 1, t => float32Accumulate dt k (float32Add t dt)

/-- The rational number that a binary32 value, kept as an integer, stands for. -/
def float32Value (x : Int) : ℚ :=
  (x : ℚ) / 2 ^ 149

/-- From the timer value `x`, `k` pressed samples take the timer to `y`, and
the timer is below `1.f` before each of them. -/
def TimerRun (dt x : Int) (k : Nat) (y : Int) : Prop :=
  float32Accumulate dt k x = y ∧ ∀ j, j < k → float32Accumulate dt j x < float32One

/-- The sample time at 48 kHz: the binary32 value nearest to `1/48000`, times
`2^149`. -/
def sampleTime48k : Int := 14867163306456645099289098240163686907904

/-- The sample time at 44.1 kHz: the binary32 value nearest to `1/44100`, times
`2^149`. -/
def sampleTime44k : Int := 16181946332381117081730333459656141176832

/-! ## LongPressButton -/

/-- Modelled from the spec: `BooleanTrigger` (host header `dsp/digital.hpp`) is
not under `src/`. The spec calls it "a rising/falling discrete trigger": it
remembers the last input and fires on a change from false to true. -/
structure BooleanTrigger where
  lastState : Bool

/-- Modelled from the spec: `BooleanTrigger::process(bool state)`, fires exactly
when `state` is true and the previous input was false. -/
def BooleanTrigger.process (t : BooleanTrigger) (state : Bool) : BooleanTrigger × Bool :=
  ({ lastState := state }, state && !t.lastState)

/-- `enum Events` of `LongPressButton`. -/
inductive Events where
  | NO_PRESS
  | SHORT_PRESS
  | LONG_PRESS
  deriving DecidableEq

/-- `struct LongPressButton`: `float pressedTime; BooleanTrigger trigger`. The
binary32 value `pressedTime` is kept as the integer `pressedTime * 2^149`. -/
structure LongPressButton where
  pressedTime : Int
  trigger : BooleanTrigger

/-- `Events step(Param &param)`. `sampleTime` is the binary32 value that
`engineGetSampleTime()` returns, as the integer `sampleTime * 2^149`, and
`value` is `param.value`, of which only the sign is read. -/
def LongPressButton.step (b : LongPressButton) (sampleTime : Int) (value : ℚ) :
    LongPressButton × Events :=
  let pressed : Bool := decide (value > 0)
  let r1 : Int × Events :=
    if pressed && decide (b.pressedTime ≥ 0) then
      if float32Add b.pressedTime sampleTime ≥ float32One then
        (-float32One, Events.LONG_PRESS)
      else (float32Add b.pressedTime sampleTime, Events.NO_PRESS)
    else (b.pressedTime, Events.NO_PRESS)
  let t := b.trigger.process (!pressed)
  if t.2 then
    ({ pressedTime := 0, trigger := t.1 },
      if r1.1 ≥ 0 then Events.SHORT_PRESS else r1.2)
  else
    ({ pressedTime := r1.1, trigger := t.1 }, r1.2)

/-- Feed the button one `param.value` per sample, collecting the events. -/
def LongPressButton.run (sampleTime : Int) :
    LongPressButton → List ℚ → LongPressButton × List Events
  | b, [] => (b, [])
  | b, v :: vs =>
    let r := b.step sampleTime v
    let rest := LongPressButton.run sampleTime r.1 vs
    (rest.1, r.2 :: rest.2)

/-! ## The module state -/

/-- The value of a 32-bit `int` that a conversion from a wider integer leaves:
the low 32 bits, read in two's complement. -/
def wrapInt32 (n : Int) : Int :=
  (n + 2147483648) % 4294967296 - 2147483648

/-- The C operator `%` on `int` with a positive divisor: the quotient is
truncated toward zero, so the remainder has the sign of the dividend. -/
def cRem (a b : Int) : Int :=
  if 0 ≤ a then a % b else -((-a) % b)

/-- `enum stages::segment::Type` (`TYPE_RAMP = 0`, `TYPE_STEP = 1`,
`TYPE_HOLD = 2`), kept as the 32-bit signed integer that the field holds: a
cast can store an integer that is none of the three. -/
structure SegmentType where
  val : Int
  inRange : -2147483648 ≤ val ∧ val < 2147483648
  deriving DecidableEq

/-- The cast `(stages::segment::Type) n` of an integer. -/
def SegmentType.ofInt (n : Int) : SegmentType :=
  ⟨wrapInt32 n, by unfold wrapInt32; omega⟩

/-- `stages::segment::Configuration`. -/
structure Configuration where
  type : SegmentType
  loop : Bool
  deriving DecidableEq

/-- `stages::segment::TYPE_RAMP`. -/
def TYPE_RAMP : SegmentType := SegmentType.ofInt 0

/-- `stages::SegmentGenerator::Output`. -/
structure Output where
  value : ℚ
  phase : ℚ
  segment : Int

/-- One recorded call `segment_generator[generator].Configure(has_trigger,
&configurations[generator], num_segments)`; `configs` are the `num_segments`
records behind the pointer at the time of the call. -/
structure ConfigureCall where
  generator : Nat
  has_trigger : Bool
  configs : List Configuration
  num_segments : Nat
  deriving DecidableEq

/-- The fields of `struct Stages` that the mode, loop and block logic uses.
`num_segments i` is what `segment_generator[i].num_segments()` returns and
`configureCalls` records the calls of `Configure`, oldest first. -/
structure Stages where
  configurations : Nat → Configuration
  configuration_changed : Nat → Bool
  num_segments : Nat → Nat
  configureCalls : List ConfigureCall
  abLoop : Bool
  envelopeBuffer : Nat → Nat → ℚ
  groupBuilder : GroupBuilder

/-- Modelled from the spec: `SegmentGenerator::Configure` is not under `src/`.
By the interface contract `num_segments()` is the "current configured group
size", so a call sets it to `count`; the call is recorded. -/
def Stages.Configure (s : Stages) (i : Nat) (has_trigger : Bool) (count : Nat) : Stages :=
  { s with
    num_segments := setAt s.num_segments i count
    configureCalls := s.configureCalls ++
      [{ generator := i, has_trigger := has_trigger,
         configs := (List.range count).map (fun j => s.configurations (i + j)),
         num_segments := count }] }

/-- The body of `for (size_t i = 0; i < NUM_CHANNELS; ++i)` in `onReset`; the
first argument is the number of iterations done. `initSegments i` stands for
`num_segments()` of generator `i` after `Init()`, which is not under `src/`. -/
def onResetLoop (initSegments : Nat → Nat) : Nat → Stages → Stages
  | 0, s => s
  | i + 1, s =>
    let s1 := onResetLoop initSegments i s
    { s1 with
      num_segments := setAt s1.num_segments i (initSegments i)
      configurations := setAt s1.configurations i { type := TYPE_RAMP, loop := false }
      configuration_changed := setAt s1.configuration_changed i true }

/-- `void onReset()`. The closing `onSampleRateChange()` only reaches the
generators and is left out. -/
def Stages.onReset (s : Stages) (initSegments : Nat → Nat) : Stages :=
  onResetLoop initSegments NUM_CHANNELS { s with abLoop := false }

/-- `void toggleMode(int i)`. The sum `type + 1` and the remainder are `int`
arithmetic; the result is cast back to the enum. -/
def Stages.toggleMode (s : Stages) (i : Nat) : Stages :=
  let s1 := { s with
    configurations := setAt s.configurations i
      { s.configurations i with
        type := SegmentType.ofInt (cRem (wrapInt32 ((s.configurations i).type.val + 1)) 3) } }
  { s1 with configuration_changed := setAt s1.configuration_changed i true }

/-- The counting loop `for (j = 0; j < n; j++) loopitems += configurations[group + j].loop ? 1 : 0`
after `n` iterations. -/
def countLoopsLoop (configurations : Nat → Configuration) (group : Nat) : Nat → Nat
  | 0 => 0
  | j + 1 =>
    countLoopsLoop configurations group j + (if (configurations (group + j)).loop then 1 else 0)

/-- The loop `for (j = 0; j < n; j++) configurations[group + j].loop = (group + (int)j) == i`
of `toggleLoop` after `n` iterations. -/
def keepOnlyLoop (group i : Nat) : Nat → (Nat → Configuration) → (Nat → Configuration)
  | 0, configurations => configurations
  | j + 1, configurations =>
    let c := keepOnlyLoop group i j configurations
    setAt c (group + j) { c (group + j) with loop := decide (group + j = i) }

/-- `void toggleLoop(int i)`. `groupForSegment` returns an `int`; for `i ≥ 0`
it is a loop index or `i` itself, so `toNat` does not change it. -/
def Stages.toggleLoop (s : Stages) (i : Nat) : Stages :=
  let s1 := { s with configuration_changed := setAt s.configuration_changed i true }
  let s2 := { s1 with
    configurations := setAt s1.configurations i
      { s1.configurations i with loop := !(s1.configurations i).loop } }
  if (s2.configurations i).loop then
    let group : Nat := (s2.groupBuilder.groupForSegment (i : Int)).toNat
    let loopitems := countLoopsLoop s2.configurations group (s2.groupBuilder.groupSize group)
    let r : Stages × Nat :=
      if (s2.abLoop && decide (loopitems > 2)) || (!s2.abLoop && decide (loopitems > 1)) then
        ({ s2 with
            configurations :=
              keepOnlyLoop group i (s2.groupBuilder.groupSize group) s2.configurations }, 1)
      else (s2, loopitems)
    if r.2 ≥ 2 then { r.1 with abLoop := false } else r.1
  else s2

/-- `ABLoopItem::onAction`: `module->abLoop = true`. -/
def Stages.setABLoop (s : Stages) : Stages :=
  { s with abLoop := true }

/-! ## stepBlock -/

/-- The first inner loop of `stepBlock` after `j` iterations, for the group
starting at `i`: the state, `segment_changed` and `numberOfLoops`. -/
def scanGroupLoop (i : Nat) (groups_changed : Bool) (s : Stages) : Nat → Stages × Bool × Nat
  | 0 => (s, groups_changed, 0)
  | j + 1 =>
    let r := scanGroupLoop i groups_changed s j
    ({ r.1 with configuration_changed := setAt r.1.configuration_changed (i + j) false },
      r.2.1 || r.1.configuration_changed (i + j),
      r.2.2 + (if (r.1.configurations (i + j)).loop then 1 else 0))

/-- The loop `for (j = 0; j < n; j++) configurations[i + j].loop = false` after
`n` iterations. -/
def clearLoopsLoop (i : Nat) : Nat → (Nat → Configuration) → (Nat → Configuration)
  | 0, configurations => configurations
  | j + 1, configurations =>
    let c := clearLoopsLoop i j configurations
    setAt c (i + j) { c (i + j) with loop := false }

/-- The loop `for (int k = 1; k < num_segments(); k++) envelopeBuffer[i + k][j] = ...`
after `m` iterations (`k = 1, ..., m`). -/
def writeFollowersLoop (i j : Nat) (o : Output) :
    Nat → (Nat → Nat → ℚ) → (Nat → Nat → ℚ)
  | 0, buf => buf
  | m + 1, buf =>
    let b := writeFollowersLoop i j o m buf
    setAt b (i + (m + 1))
      (setAt (b (i + (m + 1))) j (if ((m + 1 : Nat) : Int) = o.segment then 1 - o.phase else 0))

/-- The loop `for (int j = 0; j < BLOCK_SIZE; j++)` that assembles the outputs
of the group starting at `i`, after `n` iterations. `out j` is `out[j]`. -/
def writeBlockLoop (i numSegments : Nat) (out : Nat → Output) :
    Nat → (Nat → Nat → ℚ) → (Nat → Nat → ℚ)
  | 0, buf => buf
  | j + 1, buf =>
    let b := writeBlockLoop i numSegments out j buf
    let b1 := writeFollowersLoop i j (out j) (numSegments - 1) b
    setAt b1 i (setAt (b1 i) j (out j).value)

/-- One pass of the body of `for (int i = 0; i < NUM_CHANNELS;)` in `stepBlock`,
up to but not including `i += num_segments()`. `out` is the block that
`Process` of generator `i` writes. The parameter snapshot only reaches the
generator, which is not under `src/`, and is left out. -/
def stepBlockGroup (groups_changed : Bool) (out : Nat → Output) (s : Stages) (i : Nat) : Stages :=
  let r := scanGroupLoop i groups_changed s (max 1 (s.groupBuilder.groupSize i))
  let s1 := r.1
  let s2 :=
    if r.2.1 then
      let s3 :=
        if r.2.2 > 2 then
          { s1 with
            configurations :=
              clearLoopsLoop i (max 1 (s1.groupBuilder.groupSize i)) s1.configurations }
        else s1
      s3.Configure i (decide (s3.groupBuilder.groupSize i > 0))
        (max 1 (s3.groupBuilder.groupSize i))
    else s1
  { s2 with
    envelopeBuffer := writeBlockLoop i (s2.num_segments i) out BLOCK_SIZE s2.envelopeBuffer }

/-- The loop `for (int i = 0; i < NUM_CHANNELS;)` of `stepBlock`. The loop has
no bound of its own: it stops advancing when `num_segments()` is 0. `fuel`
bounds the number of passes; `none` means the fuel ran out. -/
def stepBlockLoop (groups_changed : Bool) (outs : Nat → Nat → Output) :
    Nat → Nat → Stages → Option Stages
  | 0, i, s => if i < NUM_CHANNELS then none else some s
  | fuel + 1, i, s =>
    if i < NUM_CHANNELS then
      let s1 := stepBlockGroup groups_changed (outs i) s i
      stepBlockLoop groups_changed outs fuel (i + s1.num_segments i) s1
    else some s

/-- The passes of the same loop as a list: for each pass the channel `i` it
handles and the stride `num_segments()` by which `i += ...` then advances. -/
def stepBlockStops (groups_changed : Bool) (outs : Nat → Nat → Output) :
    Nat → Nat → Stages → List (Nat × Nat)
  | 0, _, _ => []
  | fuel + 1, i, s =>
    if i < NUM_CHANNELS then
      let s1 := stepBlockGroup groups_changed (outs i) s i
      (i, s1.num_segments i) ::
        stepBlockStops groups_changed outs fuel (i + s1.num_segments i) s1
    else []

/-- `void stepBlock()`. `inputs k` is `inputs[k].active` and `outs i` is the
block written by `segment_generator[i].Process`. Every pass that returns
advances by at least one channel, so `NUM_CHANNELS` passes of fuel are enough
whenever the source loop terminates. -/
def Stages.stepBlock (s : Stages) (inputs : Nat → Bool) (outs : Nat → Nat → Output) :
    Option Stages :=
  let r := s.groupBuilder.buildGroups inputs GATE_INPUTS NUM_CHANNELS
  stepBlockLoop r.2 outs NUM_CHANNELS 0 { s with groupBuilder := r.1 }

/-- The constructor `Stages()`: zeroed buffers, a fresh `GroupBuilder`, then
`onReset()`. -/
def Stages.new (initSegments : Nat → Nat) : Stages :=
  Stages.onReset
    { configurations := fun _ => { type := TYPE_RAMP, loop := false }
      configuration_changed := fun _ => false
      num_segments := initSegments
      configureCalls := []
      abLoop := false
      envelopeBuffer := fun _ _ => 0
      groupBuilder := GroupBuilder.init } initSegments

/-- The connection pattern given by the list of `active` flags of the gate
inputs; gate input `i` is `inputs[GATE_INPUTS + i]`. -/
def patternOf (l : List Bool) : Nat → Bool :=
  fun k => decide (GATE_INPUTS ≤ k) && l.getD (k - GATE_INPUTS) false

/-- The group sizes a fresh builder stores for the pattern `l`. -/
def sizesOf (l : List Bool) : Nat → Nat :=
  (GroupBuilder.init.buildGroups (patternOf l) GATE_INPUTS NUM_CHANNELS).1.groupSize

/-- The `active` flags that `buildGroups(inputs, first, NUM_CHANNELS)` reads. -/
def bitsOf (inputs : Nat → Bool) (first : Nat) : List Bool :=
  (List.range NUM_CHANNELS).map (fun k => inputs (first + k))

/-- The channel that `groupForSegment` returns for channel `s`, as an index. -/
def leaderOf (groupSize : Nat → Nat) (s : Nat) : Nat :=
  (groupForSegmentLoop groupSize (s : Int) NUM_CHANNELS 0 0 0).toNat

/-- The walk `for (i = 0; i < NUM_CHANNELS; i += max(1, groupSize[i]))`: the
channels at which it stops, in order. The first argument bounds the passes. -/
def groupStartsLoop (groupSize : Nat → Nat) : Nat → Nat → List Nat
  | 0, _ => []
  | fuel + 1, i =>
    if i < NUM_CHANNELS then
      i :: groupStartsLoop groupSize fuel (i + max 1 (groupSize i))
    else []

/-- The group starts of the walk from channel 0. -/
def groupStarts (groupSize : Nat → Nat) : List Nat :=
  groupStartsLoop groupSize NUM_CHANNELS 0

/-- The leader of the group that holds channel `i`, by `groupForSegment`. -/
def Stages.groupOf (s : Stages) (i : Nat) : Nat :=
  (s.groupBuilder.groupForSegment (i : Int)).toNat

/-- The number of loop-enabled channels in the run `[g, g + max(1, groupSize[g]))`,
the group led by `g`. -/
def Stages.loopsInGroup (s : Stages) (g : Nat) : Nat :=
  countLoopsLoop s.configurations g (max 1 (s.groupBuilder.groupSize g))

/-- What the loop logic needs of the stored sizes: every channel lies in the
run of its leader, the run ends at or before channel 6, and all channels of a
run have the same leader. -/
structure GroupsOK (groupSize : Nat → Nat) : Prop where
  le : ∀ i, i < NUM_CHANNELS → leaderOf groupSize i ≤ i
  lt : ∀ i, i < NUM_CHANNELS →
    i < leaderOf groupSize i + max 1 (groupSize (leaderOf groupSize i))
  fits : ∀ i, i < NUM_CHANNELS →
    leaderOf groupSize i + max 1 (groupSize (leaderOf groupSize i)) ≤ NUM_CHANNELS
  same : ∀ i, i < NUM_CHANNELS → ∀ k, k < NUM_CHANNELS → leaderOf groupSize i ≤ k →
    k < leaderOf groupSize i + max 1 (groupSize (leaderOf groupSize i)) →
    leaderOf groupSize k = leaderOf groupSize i

/-- An action of the loop logic while the patching stays as it is: a long
press on channel `i` (`toggleLoop(i)`) or the menu item that arms A/B loop
mode. -/
inductive LoopAction where
  | toggleLoop (i : Fin NUM_CHANNELS)
  | setABLoop

/-- Apply one action. -/
def Stages.act (s : Stages) : LoopAction → Stages
  | LoopAction.toggleLoop i => s.toggleLoop i.val
  | LoopAction.setABLoop => s.setABLoop

/-- Apply a sequence of actions, first to last. -/
def Stages.runActions (s : Stages) (acts : List LoopAction) : Stages :=
  acts.foldl Stages.act s

/-- The invariant of the loop logic: the sizes have the group structure and no
group holds more than 2 loop-enabled channels. -/
def LoopInv (s : Stages) : Prop :=
  GroupsOK s.groupBuilder.groupSize ∧
    ∀ k, k < NUM_CHANNELS → s.loopsInGroup (s.groupOf k) ≤ 2

/-- An idle button: no time accumulated and the release trigger has last seen
"released". -/
def LongPressButton.idle : LongPressButton :=
  { pressedTime := 0, trigger := { lastState := true } }

/-- A freshly constructed module whose builder has scanned the connection
pattern yes, no, no, no, no, no: the six channels form one chain led by
channel 0. -/
def chainOfSix : Stages :=
  { Stages.new (fun _ => 0) with
    groupBuilder :=
      (GroupBuilder.init.buildGroups (patternOf [true, false, false, false, false, false])
        GATE_INPUTS NUM_CHANNELS).1 }

/-- Arm A/B loop mode, then long-press channel 0 and channel 1. -/
def armThenTwoLoops : List LoopAction :=
  [LoopAction.setABLoop, LoopAction.toggleLoop ⟨0, by decide⟩,
    LoopAction.toggleLoop ⟨1, by decide⟩]

/-- The group led by `g` has been handled by the block step: at most 2 loop
points, no dirty flag left, and its generator configured for the size of the
run. -/
def GroupDone (s : Stages) (g : Nat) : Prop :=
  s.loopsInGroup g ≤ 2 ∧
    (∀ j, j < max 1 (s.groupBuilder.groupSize g) → s.configuration_changed (g + j) = false) ∧
    s.num_segments g = max 1 (s.groupBuilder.groupSize g)

/-- The group led by `g` is fit for the next block step: either every group is
about to be reconfigured (`ch`), or it holds at most 2 loop points and is
dirty or has its generator configured for the size of the run. -/
def GroupTodo (ch : Bool) (s : Stages) (g : Nat) : Prop :=
  ch = true ∨
    (s.loopsInGroup g ≤ 2 ∧
      ((∃ j, j < max 1 (s.groupBuilder.groupSize g) ∧ s.configuration_changed (g + j) = true) ∨
        s.num_segments g = max 1 (s.groupBuilder.groupSize g)))

/-- The invariant of the walk of `stepBlock` when it stands at channel `i`:
`i` is a group start or the end, the groups before `i` are done and the
groups from `i` on are still to do. -/
structure WalkInv (ch : Bool) (i : Nat) (s : Stages) : Prop where
  ok : GroupsOK s.groupBuilder.groupSize
  head : i = NUM_CHANNELS ∨ (i < NUM_CHANNELS ∧ leaderOf s.groupBuilder.groupSize i = i)
  done : ∀ k, k < NUM_CHANNELS → leaderOf s.groupBuilder.groupSize k < i →
    GroupDone s (leaderOf s.groupBuilder.groupSize k)
  todo : ∀ k, k < NUM_CHANNELS → i ≤ leaderOf s.groupBuilder.groupSize k →
    GroupTodo ch s (leaderOf s.groupBuilder.groupSize k)

/-- The invariant between block steps: the sizes have the group structure and
every group holds at most 2 loop points and is dirty or has its generator
configured for the size of its run. -/
def BlockInv (s : Stages) : Prop :=
  GroupsOK s.groupBuilder.groupSize ∧
    ∀ k, k < NUM_CHANNELS → GroupTodo false s (leaderOf s.groupBuilder.groupSize k)

/-- The states the module can be in: constructed (which resets it), or
reached from such a state by a reset, a long or short press on a channel,
arming A/B loop mode, or a block step that returns, whatever the patching
and the generator output at that time. -/
inductive Reachable : Stages → Prop where
  | new (initSegments : Nat → Nat) : Reachable (Stages.new initSegments)
  | onReset {s : Stages} (initSegments : Nat → Nat) :
      Reachable s → Reachable (s.onReset initSegments)
  | toggleLoop {s : Stages} (i : Nat) :
      i < NUM_CHANNELS → Reachable s → Reachable (s.toggleLoop i)
  | toggleMode {s : Stages} (i : Nat) :
      i < NUM_CHANNELS → Reachable s → Reachable (s.toggleMode i)
  | setABLoop {s : Stages} : Reachable s → Reachable s.setABLoop
  | stepBlock {s s2 : Stages} (inputs : Nat → Bool) (outs : Nat → Nat → Output) :
      Reachable s → s.stepBlock inputs outs = some s2 → Reachable s2

/-- A new module after its first block step with only gate 0 patched: the six
channels form one chain. (The fallback is never taken, see `firstBlock_eq`.) -/
def firstBlock : Stages :=
  ((Stages.new (fun _ => 0)).stepBlock
      (patternOf [true, false, false, false, false, false])
      (fun _ _ => { value := 0, phase := 0, segment := 0 })).getD
    (Stages.new (fun _ => 0))

/-- After that block step: arm A/B loop mode, long-press channel 0, then
channel 1. -/
def abUsedUp : Stages :=
  ((firstBlock.setABLoop).toggleLoop 0).toggleLoop 1

/-! ## Persistence -/

/-- Modelled from the spec: the JSON values of the host (`json_t`, library
`jansson`) are not under `src/`. The persisted schema is a list of records
`{type: int, loop: bool}`; values are null, booleans, integers, strings, arrays
and objects with one value per key. A `json_t *` that may be `NULL` is an
`Option Json`. -/
inductive Json where
  | null
  | boolean (b : Bool)
  | integer (n : Int)
  | string (s : String)
  | array (items : List Json)
  | object (fields : List (String × Json))

/-- Modelled from the spec: `json_object_get(json, key)`, the value stored under
`key`, `NULL` when `json` is `NULL` or not an object or has no such key. -/
def json_object_get (json : Option Json) (key : String) : Option Json :=
  match json with
  | some (Json.object fields) => (fields.find? (fun f => f.1 == key)).map (fun f => f.2)
  | _ => none

/-- Modelled from the spec: `json_array_get(json, index)`, the element at
`index`, `NULL` when `json` is `NULL` or not an array or `index` is out of range. -/
def json_array_get (json : Option Json) (index : Nat) : Option Json :=
  match json with
  | some (Json.array items) => items.get? index
  | _ => none

/-- Modelled from the spec: `json_integer_value(json)`, the integer of an
integer value and 0 for any other value. -/
def json_integer_value (json : Json) : Int :=
  match json with
  | Json.integer n => n
  | _ => 0

/-- Modelled from the spec: `json_boolean_value(json)`, true exactly for the
JSON value `true`. -/
def json_boolean_value (json : Json) : Bool :=
  match json with
  | Json.boolean b => b
  | _ => false

/-- Modelled from the spec: `json_object_set_new(object, key, value)` stores
`value` under `key`, replacing the value the key had. -/
def json_object_set_new (object : Json) (key : String) (value : Json) : Json :=
  match object with
  | Json.object fields =>
    Json.object (fields.filter (fun f => !(f.1 == key)) ++ [(key, value)])
  | other => other

/-- Modelled from the spec: `json_array_insert_new(array, index, value)` inserts
`value` before position `index`; it fails and leaves the array as it is when
`index` is beyond the end. -/
def json_array_insert_new (array : Json) (index : Nat) (value : Json) : Json :=
  match array with
  | Json.array items =>
    if index ≤ items.length then Json.array (items.take index ++ value :: items.drop index)
    else Json.array items
  | other => other

/-- The body of `for (int i = 0; i < NUM_CHANNELS; i++)` in `toJson`: the array
`configurationsJ` after `n` iterations. -/
def toJsonLoop (s : Stages) : Nat → Json
  | 0 => Json.array []
  | i + 1 =>
    let configurationsJ := toJsonLoop s i
    let configurationJ := json_object_set_new (Json.object []) "type"
      (Json.integer (s.configurations i).type.val)
    let configurationJ := json_object_set_new configurationJ "loop"
      (Json.boolean (s.configurations i).loop)
    json_array_insert_new configurationsJ i configurationJ

/-- `json_t *toJson()`. -/
def Stages.toJson (s : Stages) : Json :=
  json_object_set_new (Json.object []) "configurations" (toJsonLoop s NUM_CHANNELS)

/-- The body of `for (int i = 0; i < NUM_CHANNELS; i++)` in `fromJson` after `n`
iterations. The cast `(stages::segment::Type)` keeps the low 32 bits of the
integer read. -/
def fromJsonLoop (configurationsJ : Option Json) : Nat → Stages → Stages
  | 0, s => s
  | i + 1, s =>
    let s1 := fromJsonLoop configurationsJ i s
    match json_array_get configurationsJ i with
    | none => s1
    | some configurationJ =>
      let s2 :=
        match json_object_get (some configurationJ) "type" with
        | none => s1
        | some typeJ =>
          { s1 with
            configurations := setAt s1.configurations i
              { s1.configurations i with
                type := SegmentType.ofInt (json_integer_value typeJ) } }
      match json_object_get (some configurationJ) "loop" with
      | none => s2
      | some loopJ =>
        { s2 with
          configurations := setAt s2.configurations i
            { s2.configurations i with loop := json_boolean_value loopJ } }

/-- `void fromJson(json_t *rootJ)`. -/
def Stages.fromJson (s : Stages) (rootJ : Option Json) : Stages :=
  fromJsonLoop (json_object_get rootJ "configurations") NUM_CHANNELS s

/-- A new module after two short presses and one long press on channel 0:
channel 0 is HOLD with its loop flag on. -/
def holdAndLoop : Stages :=
  (((Stages.new (fun _ => 0)).toggleMode 0).toggleMode 0).toggleLoop 0

/-- The value of `segment_changed` after the first inner loop of the pass of
`stepBlock` at the group start `g`: the groups changed (`ch`) or a channel of
the run of `g` is dirty. -/
def segmentChanged (ch : Bool) (s : Stages) (g : Nat) : Prop :=
  ch = true ∨
    ∃ j, j < max 1 (s.groupBuilder.groupSize g) ∧ s.configuration_changed (g + j) = true

/-- What the walk of `stepBlock` has done when it stands at channel `i`, having
started from `s0` (the state right after `buildGroups`): the groups below `i`
have been handled and nothing else has been touched. `ch` is `groups_changed`
and `outs g` the block that `Process` of generator `g` writes. -/
structure BlockSpec (ch : Bool) (outs : Nat → Nat → Output) (s0 : Stages) (i : Nat)
    (s : Stages) : Prop where
  gb : s.groupBuilder = s0.groupBuilder
  ab : s.abLoop = s0.abLoop
  type : ∀ x, (s.configurations x).type = (s0.configurations x).type
  loop_clear : ∀ x, x < i → segmentChanged ch s0 (leaderOf s0.groupBuilder.groupSize x) →
    2 < s0.loopsInGroup (leaderOf s0.groupBuilder.groupSize x) →
    (s.configurations x).loop = false
  loop_keep : ∀ x,
    (i ≤ x ∨ ¬ segmentChanged ch s0 (leaderOf s0.groupBuilder.groupSize x) ∨
      s0.loopsInGroup (leaderOf s0.groupBuilder.groupSize x) ≤ 2) →
    (s.configurations x).loop = (s0.configurations x).loop
  dirty_done : ∀ x, x < i → s.configuration_changed x = false
  dirty_keep : ∀ x, i ≤ x → s.configuration_changed x = s0.configuration_changed x
  segs_done : ∀ g, g < i → leaderOf s0.groupBuilder.groupSize g = g →
    s.num_segments g = max 1 (s0.groupBuilder.groupSize g)
  segs_keep : ∀ g, (i ≤ g ∨ leaderOf s0.groupBuilder.groupSize g ≠ g) →
    s.num_segments g = s0.num_segments g
  calls : ∃ added : List ConfigureCall,
    s.configureCalls = s0.configureCalls ++ added ∧
    (added.map ConfigureCall.generator).Pairwise (fun a b => a < b) ∧
    (∀ g, g ∈ added.map ConfigureCall.generator ↔
      (g < i ∧ leaderOf s0.groupBuilder.groupSize g = g ∧ segmentChanged ch s0 g)) ∧
    (∀ c, c ∈ added →
      c.num_segments = max 1 (s0.groupBuilder.groupSize c.generator) ∧
      c.has_trigger = decide (0 < s0.groupBuilder.groupSize c.generator) ∧
      c.configs = (List.range c.num_segments).map
        (fun j => s.configurations (c.generator + j)))
  env_done : ∀ x j, x < i → j < BLOCK_SIZE →
    s.envelopeBuffer x j =
      if leaderOf s0.groupBuilder.groupSize x = x then (outs x j).value
      else if ((x - leaderOf s0.groupBuilder.groupSize x : Nat) : Int) =
          (outs (leaderOf s0.groupBuilder.groupSize x) j).segment then
        1 - (outs (leaderOf s0.groupBuilder.groupSize x) j).phase
      else 0
  env_keep : ∀ x j, (i ≤ x ∨ BLOCK_SIZE ≤ j) → s.envelopeBuffer x j = s0.envelopeBuffer x j

/-- The invariant on the generators between block steps: the sizes have the
group structure and every group is dirty or has its generator configured for
the size of its run. It says nothing on the loop flags. -/
def GenInv (s : Stages) : Prop :=
  GroupsOK s.groupBuilder.groupSize ∧
    ∀ k, k < NUM_CHANNELS →
      segmentChanged false s (leaderOf s.groupBuilder.groupSize k) ∨
        s.num_segments (leaderOf s.groupBuilder.groupSize k) =
          max 1 (s.groupBuilder.groupSize (leaderOf s.groupBuilder.groupSize k))

/-- The states the module can be in when configurations may also be loaded:
as `Reachable`, with `fromJson` of any document as one more step. -/
inductive ReachableWithLoad : Stages → Prop where
  | new (initSegments : Nat → Nat) : ReachableWithLoad (Stages.new initSegments)
  | onReset {s : Stages} (initSegments : Nat → Nat) :
      ReachableWithLoad s → ReachableWithLoad (s.onReset initSegments)
  | toggleLoop {s : Stages} (i : Nat) :
      i < NUM_CHANNELS → ReachableWithLoad s → ReachableWithLoad (s.toggleLoop i)
  | toggleMode {s : Stages} (i : Nat) :
      i < NUM_CHANNELS → ReachableWithLoad s → ReachableWithLoad (s.toggleMode i)
  | setABLoop {s : Stages} : ReachableWithLoad s → ReachableWithLoad s.setABLoop
  | fromJson {s : Stages} (rootJ : Option Json) :
      ReachableWithLoad s → ReachableWithLoad (s.fromJson rootJ)
  | stepBlock {s s2 : Stages} (inputs : Nat → Bool) (outs : Nat → Nat → Output) :
      ReachableWithLoad s → s.stepBlock inputs outs = some s2 → ReachableWithLoad s2

/-- A generator output block of zeros, for the examples. -/
def zeroOuts : Nat → Nat → Output := fun _ _ => { value := 0, phase := 0, segment := 0 }

/-- A new module after its first block step with every gate patched: six
groups of one channel. (The fallback is never taken, see `sixSingles_eq`.) -/
def sixSingles : Stages :=
  ((Stages.new (fun _ => 0)).stepBlock
      (patternOf [true, true, true, true, true, true]) zeroOuts).getD
    (Stages.new (fun _ => 0))

/-- The next block step after the cable of gate 5 is pulled: channel 5 joins
the group of channel 4, the groups of channels 0 to 3 stay as they are. -/
def sixSinglesBlock : Stages :=
  (sixSingles.stepBlock (patternOf [true, true, true, true, true, false]) zeroOuts).getD
    sixSingles

/-- The block step after the two long presses of `abUsedUp`, with the patching
as it was. -/
def abUsedUpBlock : Stages :=
  (abUsedUp.stepBlock (patternOf [true, false, false, false, false, false]) zeroOuts).getD
    abUsedUp

/-- A saved document whose first three records have their loop flag on. -/
def threeLoopsDoc : Json :=
  Json.object [("configurations", Json.array [
    Json.object [("type", Json.integer 0), ("loop", Json.boolean true)],
    Json.object [("type", Json.integer 0), ("loop", Json.boolean true)],
    Json.object [("type", Json.integer 0), ("loop", Json.boolean true)]])]

/-- The chain of six after loading `threeLoopsDoc` and one short press on
channel 0: its one group holds 3 loop points and is dirty. -/
def loadedThreeLoops : Stages :=
  (firstBlock.fromJson (some threeLoopsDoc)).toggleMode 0

/-- The block step of the loaded chain with 3 loop points, with the patching as
it was. (The fallback is never taken, see `loadedThreeLoopsBlock_eq`.) -/
def loadedThreeLoopsBlock : Stages :=
  (loadedThreeLoops.stepBlock (patternOf [true, false, false, false, false, false])
    zeroOuts).getD loadedThreeLoops

/-! ## The sample step -/

/-- `struct SineOscillator`: `float phase = 0.f`. -/
structure SineOscillator where
  phase : ℚ

/-- `float step(float offset)`. `sampleTime` is `engineGetSampleTime()`. The
phase is accumulated and wrapped as in the source. The source returns
`sinf(2π (phase + offset))`; the value returned here is the angle
`phase + offset` in cycles, before the sine is taken. -/
def SineOscillator.step (o : SineOscillator) (sampleTime offset : ℚ) : SineOscillator × ℚ :=
  let phase1 : ℚ := o.phase + (1 / 2) * sampleTime
  let phase2 : ℚ := if phase1 ≥ 1 then phase1 - 1 else phase1
  ({ phase := phase2 }, phase2 + offset)

/-- What one call of `step` reads from outside the module: the sample time of
the engine, `params[TYPE_PARAMS + i].value`, `inputs[k].active`, and the blocks
that `Process` of each generator writes if this call runs `stepBlock`. -/
structure StepInput where
  sampleTime : Int
  typeParams : Nat → ℚ
  active : Nat → Bool
  outs : Nat → Nat → Output

/-- The module as `step` sees it: the state of the block logic (`stages`) with
the fields `typeButtons`, `oscillator`, `blockIndex` and
`outputs[ENVELOPE_OUTPUTS + i].value`. Two fields are records kept for the
proofs and read by no code: `oscillatorSteps` lists every call
`oscillator[i].step(offset)` as `(i, offset)` in order, and `blocksRun` counts
the calls of `stepBlock`. The gate flag buffer only reaches `Process`, and the
lights only reach the panel; both are left out. -/
structure Module where
  stages : Stages
  typeButtons : Nat → LongPressButton
  oscillator : Nat → SineOscillator
  blockIndex : Nat
  outputs : Nat → ℚ
  oscillatorSteps : List (Nat × ℚ)
  blocksRun : Nat

/-- The loop `// Buttons` of `step` after `n` iterations. -/
def stepButtonsLoop (inp : StepInput) : Nat → Module → Module
  | 0, m => m
  | n + 1, m =>
    let m1 := stepButtonsLoop inp n m
    let r := (m1.typeButtons n).step inp.sampleTime (inp.typeParams n)
    let m2 := { m1 with typeButtons := setAt m1.typeButtons n r.1 }
    match r.2 with
    | Events.NO_PRESS => m2
    | Events.SHORT_PRESS => { m2 with stages := m2.stages.toggleMode n }
    | Events.LONG_PRESS => { m2 with stages := m2.stages.toggleLoop n }

/-- The loop `// Output` of `step` after `n` iterations, with the locals
`currentGroupSize` and `loopcount`. -/
def stepOutputLoop (sampleTime : ℚ) : Nat → Module → Module × Int × Int
  | 0, m => (m, 0, 0)
  | i + 1, m =>
    let r := stepOutputLoop sampleTime i m
    let m1 := r.1
    let envelope := m1.stages.envelopeBuffer i m1.blockIndex
    let m2 := { m1 with outputs := setAt m1.outputs i (envelope * 8) }
    let currentGroupSize1 : Int :=
      if r.2.1 ≤ 0 then max 1 (m2.stages.groupBuilder.groupSize i : Int) else r.2.1
    let loopcount1 : Int := if r.2.1 ≤ 0 then 0 else r.2.2
    let currentGroupSize2 : Int := currentGroupSize1 - 1
    let loopcount2 : Int := loopcount1 + (if (m2.stages.configurations i).loop then 1 else 0)
    let offset : ℚ :=
      if !(m2.stages.configurations i).loop then 0
      else if (m2.stages.configurations i).loop && decide (loopcount2 = 1) then 0
      else 1 / 4
    ({ m2 with
        oscillator := setAt m2.oscillator i ((m2.oscillator i).step sampleTime offset).1
        oscillatorSteps := m2.oscillatorSteps ++ [(i, offset)] },
      currentGroupSize2, loopcount2)

/-- `void step()`. It returns whenever the `stepBlock` it may call does. -/
def Module.step (m : Module) (inp : StepInput) : Option Module :=
  let m1 := stepButtonsLoop inp NUM_CHANNELS m
  let blockIndex := m1.blockIndex + 1
  let m2 : Option Module :=
    if blockIndex ≥ BLOCK_SIZE then
      match m1.stages.stepBlock inp.active inp.outs with
      | some st => some { m1 with blockIndex := 0, stages := st, blocksRun := m1.blocksRun + 1 }
      | none => none
    else some { m1 with blockIndex := blockIndex }
  match m2 with
  | some m3 => some (stepOutputLoop (float32Value inp.sampleTime) NUM_CHANNELS m3).1
  | none => none

/-- Consecutive calls of `step`, one per sample. -/
def Module.run : Module → List StepInput → Option Module
  | m, [] => some m
  | m, inp :: rest =>
    match m.step inp with
    | some m1 => m1.run rest
    | none => none

/-- A module as constructed: `Stages()`, idle buttons, oscillators at phase 0,
`blockIndex = 0`. -/
def Module.new (initSegments : Nat → Nat) : Module :=
  { stages := Stages.new initSegments
    typeButtons := fun _ => LongPressButton.idle
    oscillator := fun _ => { phase := 0 }
    blockIndex := 0
    outputs := fun _ => 0
    oscillatorSteps := []
    blocksRun := 0 }

/-- The indicator offset of channel `i` by position: 0 with the loop flag off
or with no loop-enabled channel before `i` in its group, 0.25 otherwise. -/
def indicatorOffset (s : Stages) (i : Nat) : ℚ :=
  if (s.configurations i).loop then
    (if countLoopsLoop s.configurations (leaderOf s.groupBuilder.groupSize i)
        (i - leaderOf s.groupBuilder.groupSize i) = 0 then 0 else 1 / 4)
  else 0

/-- A sample with no button pressed, gate 0 patched and a zero block. -/
def quietInput : StepInput :=
  { sampleTime := sampleTime44k
    typeParams := fun _ => 0
    active := patternOf [true, false, false, false, false, false]
    outs := zeroOuts }

/-- A module whose block state is the example with loop points on channels 0
and 1 of the chain of six. -/
def abUsedUpModule : Module :=
  { Module.new (fun _ => 0) with stages := abUsedUp }

/-- A document whose first two records carry types outside the enum: -1 and
`2^32 + 1`. -/
def outOfEnumDoc : Json :=
  Json.object [("configurations", Json.array [
    Json.object [("type", Json.integer (-1))],
    Json.object [("type", Json.integer 4294967297)]])]

/-! ## Array lemmas -/

@[simp] theorem setAt_same {α : Type} (a : Nat → α) (i : Nat) (v : α) : setAt a i v i = v := by
  simp [setAt]

theorem setAt_ne {α : Type} (a : Nat → α) {i k : Nat} (v : α) (h : k ≠ i) :
    setAt a i v k = a k := by
  simp [setAt, h]

theorem setAt_apply {α : Type} (a : Nat → α) (i k : Nat) (v : α) :
    setAt a i v k = if k = i then v else a k := rfl

/-! ## buildGroups: the loop -/

theorem buildGroupsLoop_patched (inputs : Nat → Bool) (first n : Nat) (gb : GroupBuilder)
    (ch : Bool) (a : Nat) (h : inputs (first + n) = true) :
    buildGroupsLoop inputs first (n + 1) gb ch a =
      buildGroupsLoop inputs first n
        { groupSize := setAt gb.groupSize n (a + 1), isPatched := true }
        (ch || (gb.groupSize n != a + 1)) 0 := by
  simp [buildGroupsLoop, h]

theorem buildGroupsLoop_unpatched (inputs : Nat → Bool) (first n : Nat) (gb : GroupBuilder)
    (ch : Bool) (a : Nat) (h : inputs (first + n) = false) :
    buildGroupsLoop inputs first (n + 1) gb ch a =
      buildGroupsLoop inputs first n
        { gb with groupSize := setAt gb.groupSize n 0 }
        (ch || (gb.groupSize n != 0)) (a + 1) := by
  simp [buildGroupsLoop, h]

/-- The reverse scan started at `n` writes no cell at or above `n`. -/
theorem buildGroupsLoop_size_ge (inputs : Nat → Bool) (first : Nat) :
    ∀ (n : Nat) (gb : GroupBuilder) (ch : Bool) (a k : Nat), n ≤ k →
      (buildGroupsLoop inputs first n gb ch a).1.groupSize k = gb.groupSize k := by
  intro n
  induction n with
  | zero => intro gb ch a k _; rfl
  | succ n ih =>
    intro gb ch a k hk
    have hne : k ≠ n := by omega
    cases hp : inputs (first + n) with
    | true =>
      rw [buildGroupsLoop_patched _ _ _ _ _ _ hp, ih _ _ _ k (by omega)]
      exact setAt_ne _ _ hne
    | false =>
      rw [buildGroupsLoop_unpatched _ _ _ _ _ _ hp, ih _ _ _ k (by omega)]
      exact setAt_ne _ _ hne

/-- Below `n` the sizes written by the scan do not depend on the prior content
of the builder nor on the `changed` flag so far. -/
theorem buildGroupsLoop_size_lt (inputs : Nat → Bool) (first : Nat) :
    ∀ (n : Nat) (gb gb2 : GroupBuilder) (ch ch2 : Bool) (a k : Nat), k < n →
      (buildGroupsLoop inputs first n gb ch a).1.groupSize k =
        (buildGroupsLoop inputs first n gb2 ch2 a).1.groupSize k := by
  intro n
  induction n with
  | zero => intro gb gb2 ch ch2 a k hk; omega
  | succ n ih =>
    intro gb gb2 ch ch2 a k hk
    cases hp : inputs (first + n) with
    | true =>
      rw [buildGroupsLoop_patched _ _ _ _ _ _ hp, buildGroupsLoop_patched _ _ _ _ _ _ hp]
      by_cases hkn : k < n
      · exact ih _ _ _ _ _ k hkn
      · have : k = n := by omega
        subst this
        rw [buildGroupsLoop_size_ge _ _ _ _ _ _ _ (le_refl _),
          buildGroupsLoop_size_ge _ _ _ _ _ _ _ (le_refl _)]
        simp
    | false =>
      rw [buildGroupsLoop_unpatched _ _ _ _ _ _ hp, buildGroupsLoop_unpatched _ _ _ _ _ _ hp]
      by_cases hkn : k < n
      · exact ih _ _ _ _ _ k hkn
      · have : k = n := by omega
        subst this
        rw [buildGroupsLoop_size_ge _ _ _ _ _ _ _ (le_refl _),
          buildGroupsLoop_size_ge _ _ _ _ _ _ _ (le_refl _)]
        simp

/-- The scan reads the connection flags of the channels below `n` only. -/
theorem buildGroupsLoop_congr (inputs inputs2 : Nat → Bool) (first first2 : Nat) :
    ∀ (n : Nat) (gb : GroupBuilder) (ch : Bool) (a : Nat),
      (∀ k, k < n → inputs (first + k) = inputs2 (first2 + k)) →
      buildGroupsLoop inputs first n gb ch a = buildGroupsLoop inputs2 first2 n gb ch a := by
  intro n
  induction n with
  | zero => intro gb ch a _; rfl
  | succ n ih =>
    intro gb ch a h
    have hn := h n (by omega)
    have h2 : ∀ k, k < n → inputs (first + k) = inputs2 (first2 + k) :=
      fun k hk => h k (by omega)
    cases hp : inputs (first + n) with
    | true =>
      rw [buildGroupsLoop_patched _ _ _ _ _ _ hp,
        buildGroupsLoop_patched _ _ _ _ _ _ (hn ▸ hp)]
      exact ih _ _ _ h2
    | false =>
      rw [buildGroupsLoop_unpatched _ _ _ _ _ _ hp,
        buildGroupsLoop_unpatched _ _ _ _ _ _ (hn ▸ hp)]
      exact ih _ _ _ h2

/-- The scan reports a change exactly when one was pending or a cell below `n`
received a value other than the one it held. -/
theorem buildGroupsLoop_changed (inputs : Nat → Bool) (first : Nat) :
    ∀ (n : Nat) (gb : GroupBuilder) (ch : Bool) (a : Nat),
      (buildGroupsLoop inputs first n gb ch a).2 = true ↔
        (ch = true ∨ ∃ i, i < n ∧
          (buildGroupsLoop inputs first n gb ch a).1.groupSize i ≠ gb.groupSize i) := by
  intro n
  induction n with
  | zero =>
    intro gb ch a
    simp [buildGroupsLoop]
  | succ n ih =>
    intro gb ch a
    cases hp : inputs (first + n) with
    | true =>
      rw [buildGroupsLoop_patched _ _ _ _ _ _ hp, ih]
      constructor
      · rintro (h | ⟨i, hi, hne⟩)
        · simp only [Bool.or_eq_true, bne_iff_ne, ne_eq] at h
          rcases h with h | h
          · exact Or.inl h
          · refine Or.inr ⟨n, by omega, ?_⟩
            rw [buildGroupsLoop_size_ge _ _ _ _ _ _ _ (le_refl _)]
            simpa using fun e => h e.symm
        · refine Or.inr ⟨i, by omega, ?_⟩
          simpa [setAt_ne _ _ (show i ≠ n by omega)] using hne
      · rintro (h | ⟨i, hi, hne⟩)
        · exact Or.inl (by simp [h])
        · by_cases hin : i < n
          · refine Or.inr ⟨i, hin, ?_⟩
            simpa [setAt_ne _ _ (show i ≠ n by omega)] using hne
          · have : i = n := by omega
            subst this
            rw [buildGroupsLoop_size_ge _ _ _ _ _ _ _ (le_refl _)] at hne
            simp only [setAt_same] at hne
            left
            simp only [Bool.or_eq_true, bne_iff_ne, ne_eq]
            right
            simpa using fun e => hne e.symm
    | false =>
      rw [buildGroupsLoop_unpatched _ _ _ _ _ _ hp, ih]
      constructor
      · rintro (h | ⟨i, hi, hne⟩)
        · simp only [Bool.or_eq_true, bne_iff_ne, ne_eq] at h
          rcases h with h | h
          · exact Or.inl h
          · refine Or.inr ⟨n, by omega, ?_⟩
            rw [buildGroupsLoop_size_ge _ _ _ _ _ _ _ (le_refl _)]
            simpa using fun e => h e.symm
        · refine Or.inr ⟨i, by omega, ?_⟩
          simpa [setAt_ne _ _ (show i ≠ n by omega)] using hne
      · rintro (h | ⟨i, hi, hne⟩)
        · exact Or.inl (by simp [h])
        · by_cases hin : i < n
          · refine Or.inr ⟨i, hin, ?_⟩
            simpa [setAt_ne _ _ (show i ≠ n by omega)] using hne
          · have : i = n := by omega
            subst this
            rw [buildGroupsLoop_size_ge _ _ _ _ _ _ _ (le_refl _)] at hne
            simp only [setAt_same] at hne
            left
            simp only [Bool.or_eq_true, bne_iff_ne, ne_eq]
            right
            simpa using fun e => hne e.symm

/-! ## buildGroups: reduction to the 64 connection patterns -/

theorem bitsOf_getD (inputs : Nat → Bool) (first k : Nat) (hk : k < NUM_CHANNELS) :
    (bitsOf inputs first).getD k false = inputs (first + k) := by
  have h6 : k < 6 := hk
  interval_cases k <;> rfl

theorem patternOf_gate (l : List Bool) (k : Nat) :
    patternOf l (GATE_INPUTS + k) = l.getD k false := by
  simp [patternOf]

/-- Whatever the builder held and wherever the gate inputs start, the sizes of
the six channels are those of a fresh builder on the six flags read. -/
theorem buildGroups_size_eq (gb : GroupBuilder) (inputs : Nat → Bool) (first k : Nat)
    (hk : k < NUM_CHANNELS) :
    (gb.buildGroups inputs first NUM_CHANNELS).1.groupSize k =
      sizesOf (bitsOf inputs first) k := by
  unfold GroupBuilder.buildGroups sizesOf GroupBuilder.buildGroups
  rw [buildGroupsLoop_size_lt inputs first NUM_CHANNELS _
    { GroupBuilder.init with isPatched := false } false false 0 k hk]
  rw [buildGroupsLoop_congr inputs (patternOf (bitsOf inputs first)) first GATE_INPUTS]
  intro j hj
  rw [patternOf_gate, bitsOf_getD _ _ _ hj]

theorem buildGroups_size_out (gb : GroupBuilder) (inputs : Nat → Bool) (first k : Nat)
    (hk : NUM_CHANNELS ≤ k) :
    (gb.buildGroups inputs first NUM_CHANNELS).1.groupSize k = gb.groupSize k := by
  unfold GroupBuilder.buildGroups
  rw [buildGroupsLoop_size_ge _ _ _ _ _ _ _ hk]

/-- A property of all six-flag patterns holds for the flags `buildGroups` reads. -/
theorem bitsOf_cases (Q : List Bool → Prop)
    (h : ∀ b0 b1 b2 b3 b4 b5 : Bool, Q [b0, b1, b2, b3, b4, b5])
    (inputs : Nat → Bool) (first : Nat) : Q (bitsOf inputs first) :=
  h _ _ _ _ _ _

/-! ## groupForSegment and the group structure -/

/-- `groupForSegment` reads the sizes of the six channels only. -/
theorem groupForSegmentLoop_congr (gs gs2 : Nat → Nat) (segment : Int)
    (h : ∀ k, k < NUM_CHANNELS → gs k = gs2 k) :
    ∀ (n i : Nat) (group c : Int), i + n ≤ NUM_CHANNELS →
      groupForSegmentLoop gs segment n i group c =
        groupForSegmentLoop gs2 segment n i group c := by
  intro n
  induction n with
  | zero => intro i group c _; rfl
  | succ n ih =>
    intro i group c hin
    simp only [groupForSegmentLoop]
    rw [h i (by omega), ih (i + 1) _ _ (by omega)]

theorem leaderOf_congr (gs gs2 : Nat → Nat) (h : ∀ k, k < NUM_CHANNELS → gs k = gs2 k)
    (s : Nat) : leaderOf gs s = leaderOf gs2 s := by
  unfold leaderOf
  rw [groupForSegmentLoop_congr gs gs2 _ h _ _ _ _ (by omega)]

theorem groupStartsLoop_congr (gs gs2 : Nat → Nat)
    (h : ∀ k, k < NUM_CHANNELS → gs k = gs2 k) :
    ∀ (fuel i : Nat), groupStartsLoop gs fuel i = groupStartsLoop gs2 fuel i := by
  intro fuel
  induction fuel with
  | zero => intro i; rfl
  | succ n ih =>
    intro i
    simp only [groupStartsLoop]
    by_cases hi : i < NUM_CHANNELS
    · simp only [hi, if_true]
      rw [h i hi, ih]
    · simp only [hi, if_false]

theorem groupsOK_congr {gs gs2 : Nat → Nat} (h : ∀ k, k < NUM_CHANNELS → gs k = gs2 k)
    (ok : GroupsOK gs2) : GroupsOK gs := by
  have hl : ∀ s, leaderOf gs s = leaderOf gs2 s := leaderOf_congr gs gs2 h
  have hs : ∀ i, i < NUM_CHANNELS → gs (leaderOf gs2 i) = gs2 (leaderOf gs2 i) := by
    intro i hi
    exact h _ (lt_of_le_of_lt (ok.le i hi) hi)
  constructor
  · intro i hi; rw [hl]; exact ok.le i hi
  · intro i hi; rw [hl, hs i hi]; exact ok.lt i hi
  · intro i hi; rw [hl, hs i hi]; exact ok.fits i hi
  · intro i hi k hk; rw [hl, hl, hs i hi]; exact ok.same i hi k hk

set_option synthInstance.maxSize 2000 in
/-- The group structure holds for each of the 64 connection patterns. -/
theorem sizesOf_groupsOK (b0 b1 b2 b3 b4 b5 : Bool) :
    GroupsOK (sizesOf [b0, b1, b2, b3, b4, b5]) := by
  constructor <;>
    (cases b0 <;> cases b1 <;> cases b2 <;> cases b3 <;> cases b4 <;> cases b5 <;> decide)

/-- The sizes stored by `buildGroups` always have the group structure. -/
theorem buildGroups_groupsOK (gb : GroupBuilder) (inputs : Nat → Bool) (first : Nat) :
    GroupsOK (gb.buildGroups inputs first NUM_CHANNELS).1.groupSize :=
  groupsOK_congr (fun k hk => buildGroups_size_eq gb inputs first k hk)
    (bitsOf_cases (fun l => GroupsOK (sizesOf l)) sizesOf_groupsOK inputs first)

/-- The sizes of a fresh builder (all 0) have the group structure. -/
theorem init_groupsOK : GroupsOK GroupBuilder.init.groupSize := by
  constructor <;> decide

/-! ## Claims on buildGroups -/

/-- `changed` is true exactly when a stored size differs from its old value. -/
theorem buildGroups_changed_iff (gb : GroupBuilder) (inputs : Nat → Bool) (first : Nat) :
    ((gb.buildGroups inputs first NUM_CHANNELS).2 = true ↔
      ∃ i, i < NUM_CHANNELS ∧
        (gb.buildGroups inputs first NUM_CHANNELS).1.groupSize i ≠ gb.groupSize i) := by
  unfold GroupBuilder.buildGroups
  rw [buildGroupsLoop_changed]
  simp

/-- A second run on the same flags stores the same sizes. -/
theorem buildGroups_twice_size (gb : GroupBuilder) (inputs : Nat → Bool) (first i : Nat) :
    ((gb.buildGroups inputs first NUM_CHANNELS).1.buildGroups inputs first
        NUM_CHANNELS).1.groupSize i =
      (gb.buildGroups inputs first NUM_CHANNELS).1.groupSize i := by
  by_cases hi : i < NUM_CHANNELS
  · rw [buildGroups_size_eq _ _ _ _ hi, buildGroups_size_eq _ _ _ _ hi]
  · rw [buildGroups_size_out _ _ _ _ (by omega)]

/-- C8 (grouping determinism). `buildGroups` returns true exactly when the
stored size of some channel after the call differs from its value before the
call; run a second time on the same connection flags it returns false and
leaves every stored size as it was. -/
theorem buildGroups_reports_change (gb : GroupBuilder) (inputs : Nat → Bool) (first : Nat) :
    ((gb.buildGroups inputs first NUM_CHANNELS).2 = true ↔
      ∃ i, i < NUM_CHANNELS ∧
        (gb.buildGroups inputs first NUM_CHANNELS).1.groupSize i ≠ gb.groupSize i) ∧
    ((gb.buildGroups inputs first NUM_CHANNELS).1.buildGroups inputs first NUM_CHANNELS).2
      = false ∧
    (∀ i, ((gb.buildGroups inputs first NUM_CHANNELS).1.buildGroups inputs first
        NUM_CHANNELS).1.groupSize i =
      (gb.buildGroups inputs first NUM_CHANNELS).1.groupSize i) := by
  refine ⟨buildGroups_changed_iff gb inputs first, ?_, buildGroups_twice_size gb inputs first⟩
  cases h : ((gb.buildGroups inputs first NUM_CHANNELS).1.buildGroups inputs first
      NUM_CHANNELS).2 with
  | false => rfl
  | true =>
    obtain ⟨i, _, hne⟩ := (buildGroups_changed_iff _ inputs first).1 h
    exact absurd (buildGroups_twice_size gb inputs first i) hne

set_option synthInstance.maxSize 2000 in
/-- The sizes on each of the 64 connection patterns. -/
theorem sizesOf_spec (b0 b1 b2 b3 b4 b5 : Bool) :
    ∀ i, i < 6 →
      ([b0, b1, b2, b3, b4, b5].getD i false = false →
        sizesOf [b0, b1, b2, b3, b4, b5] i = 0) ∧
      ([b0, b1, b2, b3, b4, b5].getD i false = true →
        ∃ m, m < 6 ∧ sizesOf [b0, b1, b2, b3, b4, b5] i = 1 + m ∧ i + m < 6 ∧
          (∀ k, k < 6 → i < k → k ≤ i + m → [b0, b1, b2, b3, b4, b5].getD k false = false) ∧
          (i + m + 1 < 6 → [b0, b1, b2, b3, b4, b5].getD (i + m + 1) false = true)) := by
  cases b0 <;> cases b1 <;> cases b2 <;> cases b3 <;> cases b4 <;> cases b5 <;> decide

/-- C3 (group sizes). Whatever the builder held before, after `buildGroups`
an unpatched channel has size 0 and a patched channel `i` has size `1 + m`,
where the `m` channels after `i` are unpatched and the run stops at channel 5
or at the next patched channel. The pattern no, no, yes, no, yes, yes gives the
sizes 0, 0, 2, 0, 1, 1. -/
theorem buildGroups_sizes (gb : GroupBuilder) (inputs : Nat → Bool) (first : Nat) :
    (∀ i, i < NUM_CHANNELS → inputs (first + i) = false →
      (gb.buildGroups inputs first NUM_CHANNELS).1.groupSize i = 0) ∧
    (∀ i, i < NUM_CHANNELS → inputs (first + i) = true →
      ∃ m, (gb.buildGroups inputs first NUM_CHANNELS).1.groupSize i = 1 + m ∧
        i + m < NUM_CHANNELS ∧
        (∀ k, i < k → k ≤ i + m → inputs (first + k) = false) ∧
        (i + m + 1 < NUM_CHANNELS → inputs (first + (i + m + 1)) = true)) ∧
    (List.range NUM_CHANNELS).map
        (gb.buildGroups (patternOf [false, false, true, false, true, true])
          GATE_INPUTS NUM_CHANNELS).1.groupSize = [0, 0, 2, 0, 1, 1] := by
  have key := bitsOf_cases (fun l => ∀ i, i < 6 →
      (l.getD i false = false → sizesOf l i = 0) ∧
      (l.getD i false = true →
        ∃ m, m < 6 ∧ sizesOf l i = 1 + m ∧ i + m < 6 ∧
          (∀ k, k < 6 → i < k → k ≤ i + m → l.getD k false = false) ∧
          (i + m + 1 < 6 → l.getD (i + m + 1) false = true))) sizesOf_spec inputs first
  refine ⟨?_, ?_, ?_⟩
  · intro i hi hp
    rw [buildGroups_size_eq _ _ _ _ hi]
    exact (key i hi).1 (by rw [bitsOf_getD _ _ _ hi]; exact hp)
  · intro i hi hp
    obtain ⟨m, _, hm, hlt, hrun, hend⟩ := (key i hi).2 (by rw [bitsOf_getD _ _ _ hi]; exact hp)
    refine ⟨m, ?_, hlt, ?_, ?_⟩
    · rw [buildGroups_size_eq _ _ _ _ hi]; exact hm
    · intro k hik hkm
      have hk : k < NUM_CHANNELS := lt_of_le_of_lt hkm hlt
      rw [← bitsOf_getD inputs first k hk]
      exact hrun k hk hik hkm
    · intro h
      rw [← bitsOf_getD inputs first _ h]
      exact hend h
  · have h : ∀ k, k < NUM_CHANNELS →
        (gb.buildGroups (patternOf [false, false, true, false, true, true])
          GATE_INPUTS NUM_CHANNELS).1.groupSize k =
        sizesOf [false, false, true, false, true, true] k := by
      intro k hk
      rw [buildGroups_size_eq _ _ _ _ hk]
      rfl
    simp only [NUM_CHANNELS, List.range, List.range.loop, List.map] at *
    rw [h 0 (by decide), h 1 (by decide), h 2 (by decide), h 3 (by decide), h 4 (by decide),
      h 5 (by decide)]
    decide

/-! ## Claims on groupForSegment -/

/-- A segment that no pass of the loop matches falls through to `return segment`. -/
theorem groupForSegmentLoop_nomatch (gs : Nat → Nat) (segment : Int) :
    ∀ (n i : Nat) (group c : Int), (∀ k : Nat, i ≤ k → k < i + n → segment ≠ (k : Int)) →
      groupForSegmentLoop gs segment n i group c = segment := by
  intro n
  induction n with
  | zero => intro i group c _; rfl
  | succ n ih =>
    intro i group c h
    simp only [groupForSegmentLoop]
    rw [if_neg (h i (le_refl _) (by omega))]
    exact ih (i + 1) _ _ (fun k hk1 hk2 => h k (by omega) (by omega))

/-- On the sizes stored by `buildGroups` the lookup is that of the six flags read. -/
theorem buildGroups_groupForSegment (gb : GroupBuilder) (inputs : Nat → Bool) (first : Nat)
    (segment : Int) :
    (gb.buildGroups inputs first NUM_CHANNELS).1.groupForSegment segment =
      groupForSegmentLoop (sizesOf (bitsOf inputs first)) segment NUM_CHANNELS 0 0 0 := by
  unfold GroupBuilder.groupForSegment
  exact groupForSegmentLoop_congr _ _ _ (fun k hk => buildGroups_size_eq gb inputs first k hk)
    _ _ _ _ (by omega)

set_option synthInstance.maxSize 2000 in
/-- The leader lookup on each of the 64 connection patterns. -/
theorem sizesOf_leader (b0 b1 b2 b3 b4 b5 : Bool) :
    ∀ s, s < 6 →
      (∀ p, p < 6 → p ≤ s → [b0, b1, b2, b3, b4, b5].getD p false = true →
        (∀ k, k < 6 → p < k → k ≤ s → [b0, b1, b2, b3, b4, b5].getD k false = false) →
        groupForSegmentLoop (sizesOf [b0, b1, b2, b3, b4, b5]) (s : Int) 6 0 0 0 = (p : Int)) ∧
      ((∀ k, k < 6 → k ≤ s → [b0, b1, b2, b3, b4, b5].getD k false = false) →
        groupForSegmentLoop (sizesOf [b0, b1, b2, b3, b4, b5]) (s : Int) 6 0 0 0 = (s : Int)) ∧
      (∃ g : Nat, g < 6 ∧
        groupForSegmentLoop (sizesOf [b0, b1, b2, b3, b4, b5]) (s : Int) 6 0 0 0 = (g : Int) ∧
        g ≤ s ∧ s < g + max 1 (sizesOf [b0, b1, b2, b3, b4, b5] g)) := by
  cases b0 <;> cases b1 <;> cases b2 <;> cases b3 <;> cases b4 <;> cases b5 <;> decide

/-- C5 (leader lookup). On the sizes stored by `buildGroups`, for a channel
`s` below 6 `groupForSegment` returns the nearest patched channel `p ≤ s` (all
channels after `p` up to `s` being unpatched) when there is one, and `s`
itself when no channel up to `s` is patched; the result `g` satisfies
`g ≤ s < g + max(1, groupSize[g])`. For `s` outside `[0, 6)` it returns `s`. -/
theorem groupForSegment_leader (gb : GroupBuilder) (inputs : Nat → Bool) (first : Nat) :
    (∀ s p : Nat, s < NUM_CHANNELS → p ≤ s → inputs (first + p) = true →
      (∀ k, p < k → k ≤ s → inputs (first + k) = false) →
      (gb.buildGroups inputs first NUM_CHANNELS).1.groupForSegment (s : Int) = (p : Int)) ∧
    (∀ s : Nat, s < NUM_CHANNELS → (∀ k, k ≤ s → inputs (first + k) = false) →
      (gb.buildGroups inputs first NUM_CHANNELS).1.groupForSegment (s : Int) = (s : Int)) ∧
    (∀ s : Nat, s < NUM_CHANNELS → ∃ g : Nat,
      (gb.buildGroups inputs first NUM_CHANNELS).1.groupForSegment (s : Int) = (g : Int) ∧
      g ≤ s ∧ s < g + max 1 ((gb.buildGroups inputs first NUM_CHANNELS).1.groupSize g)) ∧
    (∀ s : Int, s < 0 ∨ (NUM_CHANNELS : Int) ≤ s →
      (gb.buildGroups inputs first NUM_CHANNELS).1.groupForSegment s = s) := by
  have key := bitsOf_cases (fun l => ∀ s, s < 6 →
      (∀ p, p < 6 → p ≤ s → l.getD p false = true →
        (∀ k, k < 6 → p < k → k ≤ s → l.getD k false = false) →
        groupForSegmentLoop (sizesOf l) (s : Int) 6 0 0 0 = (p : Int)) ∧
      ((∀ k, k < 6 → k ≤ s → l.getD k false = false) →
        groupForSegmentLoop (sizesOf l) (s : Int) 6 0 0 0 = (s : Int)) ∧
      (∃ g : Nat, g < 6 ∧ groupForSegmentLoop (sizesOf l) (s : Int) 6 0 0 0 = (g : Int) ∧
        g ≤ s ∧ s < g + max 1 (sizesOf l g))) sizesOf_leader inputs first
  refine ⟨?_, ?_, ?_, ?_⟩
  · intro s p hs hps hp hrun
    rw [buildGroups_groupForSegment]
    have hp6 : p < NUM_CHANNELS := lt_of_le_of_lt hps hs
    refine (key s hs).1 p hp6 hps ?_ ?_
    · rw [bitsOf_getD inputs first p hp6]; exact hp
    · intro k hk hpk hks
      rw [bitsOf_getD inputs first k hk]; exact hrun k hpk hks
  · intro s hs hrun
    rw [buildGroups_groupForSegment]
    refine (key s hs).2.1 ?_
    intro k hk hks
    rw [bitsOf_getD inputs first k hk]; exact hrun k hks
  · intro s hs
    obtain ⟨g, hg, hgs, hle, hlt⟩ := (key s hs).2.2
    refine ⟨g, ?_, hle, ?_⟩
    · rw [buildGroups_groupForSegment]; exact hgs
    · rw [buildGroups_size_eq _ _ _ _ hg]; exact hlt
  · intro s hs
    unfold GroupBuilder.groupForSegment
    apply groupForSegmentLoop_nomatch
    intro k _ hk
    simp only [NUM_CHANNELS] at hk hs
    omega

/-! ## The walk over the group starts -/

/-- The walk only stops at channels below 6. -/
theorem mem_groupStartsLoop_lt (gs : Nat → Nat) :
    ∀ (fuel i g : Nat), g ∈ groupStartsLoop gs fuel i → g < NUM_CHANNELS := by
  intro fuel
  induction fuel with
  | zero => intro i g h; simp [groupStartsLoop] at h
  | succ n ih =>
    intro i g h
    simp only [groupStartsLoop] at h
    by_cases hi : i < NUM_CHANNELS
    · simp only [hi, if_true, List.mem_cons] at h
      rcases h with h | h
      · omega
      · exact ih _ _ h
    · simp [hi] at h

/-- On the sizes stored by `buildGroups` the walk is that of the six flags read. -/
theorem buildGroups_groupStarts (gb : GroupBuilder) (inputs : Nat → Bool) (first : Nat) :
    groupStarts (gb.buildGroups inputs first NUM_CHANNELS).1.groupSize =
      groupStarts (sizesOf (bitsOf inputs first)) :=
  groupStartsLoop_congr _ _ (fun k hk => buildGroups_size_eq gb inputs first k hk) _ _

/-- On the sizes stored by `buildGroups` the leader is that of the six flags read. -/
theorem buildGroups_leaderOf (gb : GroupBuilder) (inputs : Nat → Bool) (first s : Nat) :
    leaderOf (gb.buildGroups inputs first NUM_CHANNELS).1.groupSize s =
      leaderOf (sizesOf (bitsOf inputs first)) s :=
  leaderOf_congr _ _ (fun k hk => buildGroups_size_eq gb inputs first k hk) s

set_option synthInstance.maxSize 4000 in
/-- The walk on each of the 64 connection patterns. -/
theorem sizesOf_partition (b0 b1 b2 b3 b4 b5 : Bool) :
    (∀ i, i < 6 → i + max 1 (sizesOf [b0, b1, b2, b3, b4, b5] i) ≤ 6) ∧
    (∀ i, i < 6 → (i ∈ groupStarts (sizesOf [b0, b1, b2, b3, b4, b5]) ↔
      ([b0, b1, b2, b3, b4, b5].getD i false = true ∨
        ∀ k, k < 6 → k < i → [b0, b1, b2, b3, b4, b5].getD k false = false))) ∧
    (∀ k, k < 6 → ∃ g, g < 6 ∧ g ∈ groupStarts (sizesOf [b0, b1, b2, b3, b4, b5]) ∧
      g ≤ k ∧ k < g + max 1 (sizesOf [b0, b1, b2, b3, b4, b5] g)) ∧
    (∀ g, g < 6 → ∀ g2, g2 < 6 → g ∈ groupStarts (sizesOf [b0, b1, b2, b3, b4, b5]) →
      g2 ∈ groupStarts (sizesOf [b0, b1, b2, b3, b4, b5]) → g < g2 →
      g + max 1 (sizesOf [b0, b1, b2, b3, b4, b5] g) ≤ g2) ∧
    (∃ g, g < 6 ∧ g ∈ groupStarts (sizesOf [b0, b1, b2, b3, b4, b5]) ∧
      g + max 1 (sizesOf [b0, b1, b2, b3, b4, b5] g) = 6) := by
  cases b0 <;> cases b1 <;> cases b2 <;> cases b3 <;> cases b4 <;> cases b5 <;> decide

/-! ## Counting and clearing loop flags -/

theorem countLoopsLoop_congr (c c2 : Nat → Configuration) (g : Nat) :
    ∀ n, (∀ j, j < n → (c (g + j)).loop = (c2 (g + j)).loop) →
      countLoopsLoop c g n = countLoopsLoop c2 g n := by
  intro n
  induction n with
  | zero => intro _; rfl
  | succ n ih =>
    intro h
    simp only [countLoopsLoop]
    rw [ih (fun j hj => h j (by omega)), h n (by omega)]

theorem countLoopsLoop_le (c : Nat → Configuration) (g : Nat) :
    ∀ n, countLoopsLoop c g n ≤ n := by
  intro n
  induction n with
  | zero => simp [countLoopsLoop]
  | succ n ih =>
    simp only [countLoopsLoop]
    split <;> omega

/-- Storing a record inside the counted run moves the count by the change of
that record's flag. -/
theorem countLoopsLoop_setAt (c : Nat → Configuration) (g i : Nat) (v : Configuration) :
    ∀ n, g ≤ i → i < g + n →
      countLoopsLoop (setAt c i v) g n + (if (c i).loop then 1 else 0) =
        countLoopsLoop c g n + (if v.loop then 1 else 0) := by
  intro n
  induction n with
  | zero => intro h1 h2; omega
  | succ n ih =>
    intro h1 h2
    simp only [countLoopsLoop]
    by_cases hin : i < g + n
    · have := ih h1 hin
      rw [setAt_ne _ _ (show g + n ≠ i by omega)]
      omega
    · have hi : i = g + n := by omega
      subst hi
      rw [setAt_same]
      have : countLoopsLoop (setAt c (g + n) v) g n = countLoopsLoop c g n :=
        countLoopsLoop_congr _ _ _ _ (fun j hj => by
          rw [setAt_ne _ _ (show g + j ≠ g + n by omega)])
      omega

theorem countLoopsLoop_setAt_out (c : Nat → Configuration) (g i n : Nat) (v : Configuration)
    (h : i < g ∨ g + n ≤ i) :
    countLoopsLoop (setAt c i v) g n = countLoopsLoop c g n :=
  countLoopsLoop_congr _ _ _ _ (fun j hj => by
    rw [setAt_ne _ _ (show g + j ≠ i by omega)])

/-- A run in which only channel `i` may be loop-enabled counts it once. -/
theorem countLoopsLoop_only (c : Nat → Configuration) (g i : Nat) :
    ∀ n, (∀ j, j < n → (c (g + j)).loop = decide (g + j = i)) →
      countLoopsLoop c g n = if g ≤ i ∧ i < g + n then 1 else 0 := by
  intro n
  induction n with
  | zero => intro _; rw [if_neg (by omega)]; rfl
  | succ n ih =>
    intro h
    simp only [countLoopsLoop]
    rw [ih (fun j hj => h j (by omega)), h n (by omega)]
    by_cases h1 : g + n = i
    · subst h1; simp
    · simp only [h1, decide_False, Bool.false_eq_true, if_false, Nat.add_zero]
      by_cases h2 : g ≤ i ∧ i < g + n
      · rw [if_pos h2, if_pos ⟨h2.1, by omega⟩]
      · rw [if_neg h2, if_neg (by omega)]

theorem countLoopsLoop_zero (c : Nat → Configuration) (g : Nat) :
    ∀ n, (∀ j, j < n → (c (g + j)).loop = false) → countLoopsLoop c g n = 0 := by
  intro n
  induction n with
  | zero => intro _; rfl
  | succ n ih =>
    intro h
    simp only [countLoopsLoop]
    rw [ih (fun j hj => h j (by omega)), h n (by omega)]
    simp

theorem keepOnlyLoop_apply (g i : Nat) (c : Nat → Configuration) :
    ∀ n k, keepOnlyLoop g i n c k =
      if g ≤ k ∧ k < g + n then ⟨(c k).type, decide (k = i)⟩ else c k := by
  intro n
  induction n with
  | zero => intro k; rw [if_neg (by omega)]; rfl
  | succ n ih =>
    intro k
    simp only [keepOnlyLoop]
    by_cases hk : k = g + n
    · subst hk
      rw [setAt_same, ih]
      simp
    · rw [setAt_ne _ _ hk, ih]
      by_cases h2 : g ≤ k ∧ k < g + n
      · rw [if_pos h2, if_pos ⟨h2.1, by omega⟩]
      · rw [if_neg h2, if_neg (by omega)]

theorem clearLoopsLoop_apply (i : Nat) (c : Nat → Configuration) :
    ∀ n k, clearLoopsLoop i n c k =
      if i ≤ k ∧ k < i + n then ⟨(c k).type, false⟩ else c k := by
  intro n
  induction n with
  | zero => intro k; rw [if_neg (by omega)]; rfl
  | succ n ih =>
    intro k
    simp only [clearLoopsLoop]
    by_cases hk : k = i + n
    · subst hk
      rw [setAt_same, ih]
      simp
    · rw [setAt_ne _ _ hk, ih]
      by_cases h2 : i ≤ k ∧ k < i + n
      · rw [if_pos h2, if_pos ⟨h2.1, by omega⟩]
      · rw [if_neg h2, if_neg (by omega)]

/-! ## toggleLoop, case by case -/

theorem toggleLoop_groupBuilder (s : Stages) (i : Nat) :
    (s.toggleLoop i).groupBuilder = s.groupBuilder := by
  unfold Stages.toggleLoop
  simp only
  split
  · split <;> split <;> rfl
  · rfl

theorem toggleLoop_changed (s : Stages) (i : Nat) :
    (s.toggleLoop i).configuration_changed = setAt s.configuration_changed i true := by
  unfold Stages.toggleLoop
  simp only
  split
  · split <;> split <;> rfl
  · rfl

theorem toggleLoop_num_segments (s : Stages) (i : Nat) :
    (s.toggleLoop i).num_segments = s.num_segments := by
  unfold Stages.toggleLoop
  simp only
  split
  · split <;> split <;> rfl
  · rfl

/-- Turning a loop flag off changes that flag only. -/
theorem toggleLoop_off (s : Stages) (i : Nat) (h : (s.configurations i).loop = true) :
    (s.toggleLoop i).configurations =
        setAt s.configurations i ⟨(s.configurations i).type, false⟩ ∧
      (s.toggleLoop i).abLoop = s.abLoop := by
  unfold Stages.toggleLoop
  simp [h]

/-- Turning a loop flag on when the count stays within the limit. -/
theorem toggleLoop_on_keep (s : Stages) (i : Nat) (h : (s.configurations i).loop = false)
    (hc : countLoopsLoop (setAt s.configurations i ⟨(s.configurations i).type, true⟩)
        (s.groupOf i) (s.groupBuilder.groupSize (s.groupOf i)) ≤ if s.abLoop then 2 else 1) :
    (s.toggleLoop i).configurations =
        setAt s.configurations i ⟨(s.configurations i).type, true⟩ ∧
      (s.toggleLoop i).abLoop = (s.abLoop && decide
        (countLoopsLoop (setAt s.configurations i ⟨(s.configurations i).type, true⟩)
          (s.groupOf i) (s.groupBuilder.groupSize (s.groupOf i)) < 2)) := by
  unfold Stages.groupOf at hc ⊢
  unfold Stages.toggleLoop
  simp only [h, Bool.not_false, setAt_same, if_true]
  generalize countLoopsLoop _ _ _ = cnt at hc ⊢
  cases hab : s.abLoop
  · simp only [hab, Bool.false_eq_true, if_false] at hc
    have h1 : ¬ cnt > 1 := by omega
    have h2 : ¬ cnt ≥ 2 := by omega
    have h3 : cnt < 2 := by omega
    simp [h1, h2, h3, hab]
  · simp only [hab, if_true] at hc
    have h1 : ¬ cnt > 2 := by omega
    by_cases h2 : cnt ≥ 2
    · have h3 : ¬ cnt < 2 := by omega
      simp [h1, h2, h3]
    · have h3 : cnt < 2 := by omega
      simp [h1, h2, h3, hab]

/-- Turning a loop flag on when the count exceeds the limit. -/
theorem toggleLoop_on_clear (s : Stages) (i : Nat) (h : (s.configurations i).loop = false)
    (hc : (if s.abLoop then 2 else 1) <
      countLoopsLoop (setAt s.configurations i ⟨(s.configurations i).type, true⟩)
        (s.groupOf i) (s.groupBuilder.groupSize (s.groupOf i))) :
    (s.toggleLoop i).configurations =
        keepOnlyLoop (s.groupOf i) i (s.groupBuilder.groupSize (s.groupOf i))
          (setAt s.configurations i ⟨(s.configurations i).type, true⟩) ∧
      (s.toggleLoop i).abLoop = s.abLoop := by
  unfold Stages.groupOf at hc ⊢
  unfold Stages.toggleLoop
  simp only [h, Bool.not_false, setAt_same, if_true]
  generalize countLoopsLoop _ _ _ = cnt at hc ⊢
  cases hab : s.abLoop
  · simp only [hab, Bool.false_eq_true, if_false] at hc
    have h1 : cnt > 1 := by omega
    simp [h1, hab]
  · simp only [hab, if_true] at hc
    have h1 : cnt > 2 := by omega
    simp [h1, hab]

theorem groupOf_eq_leaderOf (s : Stages) (i : Nat) :
    s.groupOf i = leaderOf s.groupBuilder.groupSize i := rfl

theorem toggleLoop_groupOf (s : Stages) (i k : Nat) :
    (s.toggleLoop i).groupOf k = s.groupOf k := by
  unfold Stages.groupOf
  rw [toggleLoop_groupBuilder]

/-- `toggleLoop(i)` leaves the records outside the run of `i`'s group alone. -/
theorem toggleLoop_outside (s : Stages) (i : Nat) (hok : GroupsOK s.groupBuilder.groupSize)
    (hi : i < NUM_CHANNELS) (x : Nat)
    (hx : ¬ (s.groupOf i ≤ x ∧
      x < s.groupOf i + max 1 (s.groupBuilder.groupSize (s.groupOf i)))) :
    (s.toggleLoop i).configurations x = s.configurations x := by
  have hle := hok.le i hi
  have hlt := hok.lt i hi
  rw [← groupOf_eq_leaderOf] at hle hlt
  have hxi : x ≠ i := by
    intro e; subst e; exact hx ⟨hle, hlt⟩
  have hmax : s.groupBuilder.groupSize (s.groupOf i) ≤
      max 1 (s.groupBuilder.groupSize (s.groupOf i)) := le_max_right _ _
  cases hl : (s.configurations i).loop with
  | true =>
    rw [(toggleLoop_off s i hl).1, setAt_ne _ _ hxi]
  | false =>
    by_cases hc : countLoopsLoop
        (setAt s.configurations i ⟨(s.configurations i).type, true⟩)
        (s.groupOf i) (s.groupBuilder.groupSize (s.groupOf i)) ≤ if s.abLoop then 2 else 1
    · rw [(toggleLoop_on_keep s i hl hc).1, setAt_ne _ _ hxi]
    · rw [(toggleLoop_on_clear s i hl (by omega)).1, keepOnlyLoop_apply,
        if_neg (by omega), setAt_ne _ _ hxi]

/-- After `toggleLoop(i)` the group of `i` holds at most 2 loop-enabled
channels if `abLoop` was on and at most 1 if it was off, provided it held at
most 2 before. -/
theorem toggleLoop_group_bound (s : Stages) (i : Nat)
    (hok : GroupsOK s.groupBuilder.groupSize) (hi : i < NUM_CHANNELS)
    (hinv : s.loopsInGroup (s.groupOf i) ≤ 2) :
    (s.toggleLoop i).loopsInGroup (s.groupOf i) ≤ if s.abLoop then 2 else 1 := by
  have hle := hok.le i hi
  have hlt := hok.lt i hi
  rw [← groupOf_eq_leaderOf] at hle hlt
  have hlim : 1 ≤ (if s.abLoop then 2 else 1) := by split <;> omega
  unfold Stages.loopsInGroup at hinv ⊢
  rw [toggleLoop_groupBuilder]
  cases hl : (s.configurations i).loop with
  | true =>
    rw [(toggleLoop_off s i hl).1]
    have := countLoopsLoop_setAt s.configurations (s.groupOf i) i
      ⟨(s.configurations i).type, false⟩ _ hle hlt
    simp only [hl, if_true, Bool.false_eq_true, if_false] at this
    omega
  | false =>
    have hset := countLoopsLoop_setAt s.configurations (s.groupOf i) i
      ⟨(s.configurations i).type, true⟩ _ hle hlt
    simp only [hl, if_true, Bool.false_eq_true, if_false] at hset
    by_cases hz : s.groupBuilder.groupSize (s.groupOf i) = 0
    · have hc : countLoopsLoop
          (setAt s.configurations i ⟨(s.configurations i).type, true⟩)
          (s.groupOf i) (s.groupBuilder.groupSize (s.groupOf i)) ≤
            if s.abLoop then 2 else 1 := by
        rw [hz]; simp [countLoopsLoop]
      rw [(toggleLoop_on_keep s i hl hc).1]
      rw [hz] at hlt hset ⊢
      have hgi : s.groupOf i = i := by simp at hlt; omega
      simp only [Nat.max_zero, countLoopsLoop, Nat.zero_add, Nat.add_zero, hgi, hl,
        setAt_same] at hset ⊢
      simpa using hlim
    · have hmax : max 1 (s.groupBuilder.groupSize (s.groupOf i)) =
          s.groupBuilder.groupSize (s.groupOf i) := max_eq_right (by omega)
      rw [hmax] at hlt hset hinv ⊢
      by_cases hc : countLoopsLoop
          (setAt s.configurations i ⟨(s.configurations i).type, true⟩)
          (s.groupOf i) (s.groupBuilder.groupSize (s.groupOf i)) ≤ if s.abLoop then 2 else 1
      · rw [(toggleLoop_on_keep s i hl hc).1]
        exact hc
      · rw [(toggleLoop_on_clear s i hl (by omega)).1]
        rw [countLoopsLoop_only _ _ i]
        · split <;> omega
        · intro j hj
          rw [keepOnlyLoop_apply, if_pos ⟨by omega, by omega⟩]

/-- `toggleLoop(i)` does not change the count of any other group. -/
theorem toggleLoop_other_group (s : Stages) (i k : Nat)
    (hok : GroupsOK s.groupBuilder.groupSize) (hi : i < NUM_CHANNELS) (hk : k < NUM_CHANNELS)
    (hne : s.groupOf k ≠ s.groupOf i) :
    (s.toggleLoop i).loopsInGroup (s.groupOf k) = s.loopsInGroup (s.groupOf k) := by
  unfold Stages.loopsInGroup
  rw [toggleLoop_groupBuilder]
  apply countLoopsLoop_congr
  intro j hj
  rw [toggleLoop_outside s i hok hi]
  rintro ⟨h1, h2⟩
  have hfit := hok.fits k hk
  rw [← groupOf_eq_leaderOf] at hfit
  have hx6 : s.groupOf k + j < NUM_CHANNELS := by omega
  have e1 := hok.same k hk (s.groupOf k + j) hx6 (by rw [← groupOf_eq_leaderOf]; omega)
    (by rw [← groupOf_eq_leaderOf]; omega)
  have e2 := hok.same i hi (s.groupOf k + j) hx6 (by rw [← groupOf_eq_leaderOf]; exact h1)
    (by rw [← groupOf_eq_leaderOf]; exact h2)
  rw [← groupOf_eq_leaderOf] at e1 e2
  exact hne (e1.symm.trans e2)

/-! ## Claims on toggleLoop -/

/-- `toggleLoop` keeps the loop invariant. -/
theorem toggleLoop_loopInv (s : Stages) (i : Nat) (hi : i < NUM_CHANNELS) (h : LoopInv s) :
    LoopInv (s.toggleLoop i) := by
  obtain ⟨hok, hcnt⟩ := h
  refine ⟨by rw [toggleLoop_groupBuilder]; exact hok, ?_⟩
  intro k hk
  rw [toggleLoop_groupOf]
  by_cases he : s.groupOf k = s.groupOf i
  · rw [he]
    have := toggleLoop_group_bound s i hok hi (hcnt i hi)
    have hlim : (if s.abLoop then 2 else 1) ≤ 2 := by split <;> omega
    omega
  · rw [toggleLoop_other_group s i k hok hi hk he]
    exact hcnt k hk

/-- Arming A/B loop mode keeps the loop invariant. -/
theorem setABLoop_loopInv (s : Stages) (h : LoopInv s) : LoopInv s.setABLoop := h

/-- Every sequence of actions keeps the loop invariant. -/
theorem runActions_loopInv (acts : List LoopAction) :
    ∀ s : Stages, LoopInv s → LoopInv (s.runActions acts) := by
  induction acts with
  | nil => intro s h; exact h
  | cons a acts ih =>
    intro s h
    unfold Stages.runActions
    rw [List.foldl_cons]
    apply ih
    cases a with
    | toggleLoop i => exact toggleLoop_loopInv s i.val i.isLt h
    | setABLoop => exact setABLoop_loopInv s h

/-- With no loop flag set on the six channels every group counts 0. -/
theorem loopInv_of_no_loops (s : Stages) (hok : GroupsOK s.groupBuilder.groupSize)
    (h0 : ∀ k, k < NUM_CHANNELS → (s.configurations k).loop = false) : LoopInv s := by
  refine ⟨hok, ?_⟩
  intro k hk
  unfold Stages.loopsInGroup
  rw [countLoopsLoop_zero]
  · omega
  · intro j hj
    have := hok.fits k hk
    rw [← groupOf_eq_leaderOf] at this
    exact h0 _ (by omega)

/-- C1 (loop cap). Fix the sizes stored by `buildGroups` for any connection
pattern and start with no loop flag set on the six channels. After any
sequence of `toggleLoop` calls and A/B armings, a further call `toggleLoop(i)`
leaves at most 2 loop-enabled channels in the group of `i` if `abLoop` was
true when the call started and at most 1 if it was false. -/
theorem toggleLoop_loop_cap (gb : GroupBuilder) (inputs : Nat → Bool) (first : Nat)
    (s0 : Stages) (hgs : s0.groupBuilder = (gb.buildGroups inputs first NUM_CHANNELS).1)
    (h0 : ∀ k, k < NUM_CHANNELS → (s0.configurations k).loop = false)
    (acts : List LoopAction) (i : Nat) (hi : i < NUM_CHANNELS) :
    ((s0.runActions acts).toggleLoop i).loopsInGroup
        (((s0.runActions acts).toggleLoop i).groupOf i) ≤
      if (s0.runActions acts).abLoop then 2 else 1 := by
  have hok : GroupsOK s0.groupBuilder.groupSize := by
    rw [hgs]; exact buildGroups_groupsOK gb inputs first
  have hinv := runActions_loopInv acts s0 (loopInv_of_no_loops s0 hok h0)
  rw [toggleLoop_groupOf]
  exact toggleLoop_group_bound _ i hinv.1 hi (hinv.2 i hi)

/-- C2 (A/B one-shot). On sizes stored by `buildGroups`, let channel `i` have
its loop flag off, `abLoop` be true and `e ≠ i` be the one loop-enabled
channel of the group of `i`. Then the group is a patched one and after
`toggleLoop(i)` it holds exactly 2 loop-enabled channels, namely `i` and `e`,
and `abLoop` is false. -/
theorem toggleLoop_ab_second (gb : GroupBuilder) (inputs : Nat → Bool) (first : Nat)
    (s : Stages) (i e : Nat)
    (hgs : s.groupBuilder = (gb.buildGroups inputs first NUM_CHANNELS).1)
    (hi : i < NUM_CHANNELS) (hoff : (s.configurations i).loop = false)
    (hab : s.abLoop = true) (hei : e ≠ i)
    (he1 : s.groupOf i ≤ e)
    (he2 : e < s.groupOf i + max 1 (s.groupBuilder.groupSize (s.groupOf i)))
    (hon : (s.configurations e).loop = true)
    (honly : ∀ k, s.groupOf i ≤ k →
      k < s.groupOf i + max 1 (s.groupBuilder.groupSize (s.groupOf i)) →
      (s.configurations k).loop = true → k = e) :
    0 < s.groupBuilder.groupSize (s.groupOf i) ∧
    (s.toggleLoop i).loopsInGroup ((s.toggleLoop i).groupOf i) = 2 ∧
    (∀ k, s.groupOf i ≤ k →
      k < s.groupOf i + max 1 (s.groupBuilder.groupSize (s.groupOf i)) →
      (((s.toggleLoop i).configurations k).loop = true ↔ (k = i ∨ k = e))) ∧
    (s.toggleLoop i).abLoop = false := by
  have hok : GroupsOK s.groupBuilder.groupSize := by
    rw [hgs]; exact buildGroups_groupsOK gb inputs first
  have hle := hok.le i hi
  have hlt := hok.lt i hi
  rw [← groupOf_eq_leaderOf] at hle hlt
  have hpos : 0 < s.groupBuilder.groupSize (s.groupOf i) := by
    by_contra hz
    have hz0 : s.groupBuilder.groupSize (s.groupOf i) = 0 := by omega
    rw [hz0] at he2 hlt
    simp at he2 hlt
    omega
  have hmax : max 1 (s.groupBuilder.groupSize (s.groupOf i)) =
      s.groupBuilder.groupSize (s.groupOf i) := max_eq_right (by omega)
  rw [hmax] at he2 hlt honly
  have hcnt : countLoopsLoop s.configurations (s.groupOf i)
      (s.groupBuilder.groupSize (s.groupOf i)) = 1 := by
    rw [countLoopsLoop_only _ _ e, if_pos ⟨he1, he2⟩]
    intro j hj
    cases hl : (s.configurations (s.groupOf i + j)).loop with
    | true => simpa using honly _ (by omega) (by omega) hl
    | false =>
      symm
      simp only [decide_eq_false_iff_not]
      intro e2
      rw [e2, hon] at hl
      exact Bool.noConfusion hl
  have hset := countLoopsLoop_setAt s.configurations (s.groupOf i) i
    ⟨(s.configurations i).type, true⟩ _ hle hlt
  simp only [hoff, if_true, Bool.false_eq_true, if_false] at hset
  have hc : countLoopsLoop (setAt s.configurations i ⟨(s.configurations i).type, true⟩)
      (s.groupOf i) (s.groupBuilder.groupSize (s.groupOf i)) ≤ if s.abLoop then 2 else 1 := by
    rw [hab]; simp only [if_true]; omega
  obtain ⟨hcfg, habl⟩ := toggleLoop_on_keep s i hoff hc
  refine ⟨hpos, ?_, ?_, ?_⟩
  · rw [toggleLoop_groupOf]
    unfold Stages.loopsInGroup
    rw [toggleLoop_groupBuilder, hmax, hcfg]
    omega
  · intro k hk1 hk2
    rw [hcfg]
    by_cases hki : k = i
    · subst hki; simp
    · rw [setAt_ne _ _ hki]
      constructor
      · intro h; exact Or.inr (honly k hk1 (by rw [← hmax]; exact hk2) h)
      · rintro (h | h)
        · exact absurd h hki
        · rw [h]; exact hon
  · rw [habl, hab]
    simp only [Bool.true_and, decide_eq_false_iff_not]
    omega

/-- C6 (last toggled wins). On sizes stored by `buildGroups`, let
`toggleLoop(i)` turn the flag of channel `i` on and let the resulting count of
its group (one more than before) exceed the limit, 2 if `abLoop` is true and 1
otherwise. Then the group is a patched one, after the call channel `i` is its
only loop-enabled channel, and `abLoop` is unchanged. -/
theorem toggleLoop_last_wins (gb : GroupBuilder) (inputs : Nat → Bool) (first : Nat)
    (s : Stages) (i : Nat)
    (hgs : s.groupBuilder = (gb.buildGroups inputs first NUM_CHANNELS).1)
    (hi : i < NUM_CHANNELS) (hoff : (s.configurations i).loop = false)
    (hexc : (if s.abLoop then 2 else 1) < s.loopsInGroup (s.groupOf i) + 1) :
    0 < s.groupBuilder.groupSize (s.groupOf i) ∧
    (∀ k, s.groupOf i ≤ k →
      k < s.groupOf i + max 1 (s.groupBuilder.groupSize (s.groupOf i)) →
      (((s.toggleLoop i).configurations k).loop = true ↔ k = i)) ∧
    (s.toggleLoop i).loopsInGroup ((s.toggleLoop i).groupOf i) = 1 ∧
    (s.toggleLoop i).abLoop = s.abLoop := by
  have hok : GroupsOK s.groupBuilder.groupSize := by
    rw [hgs]; exact buildGroups_groupsOK gb inputs first
  have hle := hok.le i hi
  have hlt := hok.lt i hi
  rw [← groupOf_eq_leaderOf] at hle hlt
  have hlim : 1 ≤ (if s.abLoop then 2 else 1) := by split <;> omega
  unfold Stages.loopsInGroup at hexc
  have hpos : 0 < s.groupBuilder.groupSize (s.groupOf i) := by
    by_contra hz
    have hz0 : s.groupBuilder.groupSize (s.groupOf i) = 0 := by omega
    rw [hz0] at hexc hlt
    have hgi : s.groupOf i = i := by simp at hlt; omega
    simp only [Nat.max_zero, countLoopsLoop, Nat.zero_add, Nat.add_zero, hgi, hoff,
      Bool.false_eq_true, if_false] at hexc
    omega
  have hmax : max 1 (s.groupBuilder.groupSize (s.groupOf i)) =
      s.groupBuilder.groupSize (s.groupOf i) := max_eq_right (by omega)
  rw [hmax] at hexc hlt ⊢
  have hset := countLoopsLoop_setAt s.configurations (s.groupOf i) i
    ⟨(s.configurations i).type, true⟩ _ hle hlt
  simp only [hoff, if_true, Bool.false_eq_true, if_false] at hset
  obtain ⟨hcfg, habl⟩ := toggleLoop_on_clear s i hoff (by omega)
  have hflag : ∀ k, s.groupOf i ≤ k →
      k < s.groupOf i + s.groupBuilder.groupSize (s.groupOf i) →
      ((s.toggleLoop i).configurations k).loop = decide (k = i) := by
    intro k hk1 hk2
    rw [hcfg, keepOnlyLoop_apply, if_pos ⟨hk1, hk2⟩]
  refine ⟨hpos, ?_, ?_, habl⟩
  · intro k hk1 hk2
    rw [hflag k hk1 hk2]
    simp
  · rw [toggleLoop_groupOf]
    unfold Stages.loopsInGroup
    rw [toggleLoop_groupBuilder, hmax, countLoopsLoop_only _ _ i, if_pos ⟨hle, hlt⟩]
    intro j hj
    exact hflag _ (by omega) (by omega)

/-! ## Witnesses for the claims on toggleLoop -/

/-- Witness for C1: on one chain of six channels, after arming A/B and two long
presses the mode is used up, and a third long press leaves one loop point. -/
theorem toggleLoop_loop_cap_witness :
    chainOfSix.groupBuilder =
      (GroupBuilder.init.buildGroups (patternOf [true, false, false, false, false, false])
        GATE_INPUTS NUM_CHANNELS).1 ∧
    (∀ k, k < NUM_CHANNELS → (chainOfSix.configurations k).loop = false) ∧
    (chainOfSix.runActions armThenTwoLoops).abLoop = false ∧
    ((chainOfSix.runActions armThenTwoLoops).toggleLoop 2).loopsInGroup 0 = 1 ∧
    ((chainOfSix.runActions armThenTwoLoops).toggleLoop 2).loopsInGroup
        (((chainOfSix.runActions armThenTwoLoops).toggleLoop 2).groupOf 2) ≤
      if (chainOfSix.runActions armThenTwoLoops).abLoop then 2 else 1 :=
  ⟨rfl, by decide, by decide, by decide,
    toggleLoop_loop_cap GroupBuilder.init
      (patternOf [true, false, false, false, false, false]) GATE_INPUTS chainOfSix rfl
      (by decide) armThenTwoLoops 2 (by decide)⟩

/-- Witness for C2: with A/B armed and a loop point on channel 0, a long press
on channel 1 gives the two loop points 0 and 1 and uses the mode up. -/
theorem toggleLoop_ab_second_witness :
    (chainOfSix.setABLoop.toggleLoop 0).abLoop = true ∧
    ((chainOfSix.setABLoop.toggleLoop 0).configurations 0).loop = true ∧
    ((chainOfSix.setABLoop.toggleLoop 0).configurations 1).loop = false ∧
    ((chainOfSix.setABLoop.toggleLoop 0).toggleLoop 1).loopsInGroup
      (((chainOfSix.setABLoop.toggleLoop 0).toggleLoop 1).groupOf 1) = 2 ∧
    ((chainOfSix.setABLoop.toggleLoop 0).toggleLoop 1).abLoop = false :=
  have h := toggleLoop_ab_second GroupBuilder.init
    (patternOf [true, false, false, false, false, false]) GATE_INPUTS
    (chainOfSix.setABLoop.toggleLoop 0) 1 0 rfl (by decide) (by decide) (by decide) (by decide)
    (by decide) (by decide) (by decide)
    (by
      have hg : (chainOfSix.setABLoop.toggleLoop 0).groupOf 1 = 0 := by decide
      have hs : (chainOfSix.setABLoop.toggleLoop 0).groupBuilder.groupSize 0 = 6 := by decide
      intro k _ hk
      rw [hg, hs] at hk
      have hk6 : k < 6 := by simpa using hk
      interval_cases k <;> decide)
  ⟨by decide, by decide, by decide, h.2.1, h.2.2.2⟩

/-- Witness for C6: the group holds the loop points 0 and 1 and `abLoop` is
false; a third long press, on channel 2, leaves channel 2 as the only one. -/
theorem toggleLoop_last_wins_witness :
    (chainOfSix.runActions armThenTwoLoops).abLoop = false ∧
    (chainOfSix.runActions armThenTwoLoops).loopsInGroup
      ((chainOfSix.runActions armThenTwoLoops).groupOf 2) = 2 ∧
    ((chainOfSix.runActions armThenTwoLoops).configurations 2).loop = false ∧
    ((chainOfSix.runActions armThenTwoLoops).toggleLoop 2).loopsInGroup
      (((chainOfSix.runActions armThenTwoLoops).toggleLoop 2).groupOf 2) = 1 ∧
    (((chainOfSix.runActions armThenTwoLoops).toggleLoop 2).configurations 2).loop = true ∧
    ((chainOfSix.runActions armThenTwoLoops).toggleLoop 2).abLoop = false :=
  have h := toggleLoop_last_wins GroupBuilder.init
    (patternOf [true, false, false, false, false, false]) GATE_INPUTS
    (chainOfSix.runActions armThenTwoLoops) 2 rfl (by decide) (by decide) (by decide)
  ⟨by decide, by decide, by decide, h.2.2.1, by decide, h.2.2.2.trans (by decide)⟩

/-! ## binary32 arithmetic: rounding and accumulation -/

theorem float32One_eq : float32One = 2 ^ 149 := by
  unfold float32One
  norm_num

/-- The sum of two values that are not negative is not negative. -/
theorem float32Add_nonneg (x y : Int) (hx : 0 ≤ x) (hy : 0 ≤ y) : 0 ≤ float32Add x y := by
  unfold float32Add float32Round
  rw [if_pos (by omega)]
  exact Int.ofNat_nonneg _

/-- The sum of two values that are not negative, on their magnitudes. -/
theorem float32Add_natCast (x y : Nat) :
    float32Add (x : Int) (y : Int) = ((float32RoundNat (x + y) : Nat) : Int) := by
  unfold float32Add float32Round
  rw [if_pos (by omega)]
  congr 2

/-- The search for the spacing stops at the binade of `s`. -/
theorem float32Shift_eq (s sh : Nat) (hlo : sh = 0 ∨ 2 ^ (23 + sh) ≤ s) (hhi : s < 2 ^ (24 + sh)) :
    ∀ (fuel a : Nat), a ≤ sh → sh ≤ a + fuel → float32Shift fuel s a = sh := by
  intro fuel
  induction fuel with
  | zero => intro a h1 h2; simp only [float32Shift]; omega
  | succ fuel ih =>
    intro a h1 h2
    simp only [float32Shift]
    by_cases ha : a = sh
    · subst ha
      rw [if_pos hhi]
    · have hlt : a < sh := by omega
      have hlo2 : 2 ^ (23 + sh) ≤ s := by
        rcases hlo with h | h
        · omega
        · exact h
      have hpow : 2 ^ (24 + a) ≤ 2 ^ (23 + sh) := Nat.pow_le_pow_right (by decide) (by omega)
      rw [if_neg (by omega)]
      exact ih (a + 1) (by omega) (by omega)

/-- Rounding in the binade of spacing `2^sh`, not at a tie: the remainder `r`
below the spacing is dropped or carried. -/
theorem float32RoundNat_binade (sh m r : Nat) (hsh : sh ≤ 254)
    (hm : 2 ^ 23 ≤ m) (hm2 : m + 1 ≤ 2 ^ 24) (hr : r < 2 ^ sh) (hnt : 2 * r ≠ 2 ^ sh) :
    float32RoundNat (m * 2 ^ sh + r) = (if 2 ^ sh < 2 * r then m + 1 else m) * 2 ^ sh := by
  have hpos : 0 < 2 ^ sh := Nat.two_pow_pos sh
  have hlo : 2 ^ (23 + sh) ≤ m * 2 ^ sh + r := by
    rw [Nat.pow_add]
    exact le_trans (Nat.mul_le_mul_right _ hm) (Nat.le_add_right _ _)
  have hhi : m * 2 ^ sh + r < 2 ^ (24 + sh) := by
    rw [Nat.pow_add]
    calc m * 2 ^ sh + r < m * 2 ^ sh + 2 ^ sh := by omega
      _ = (m + 1) * 2 ^ sh := by ring
      _ ≤ 2 ^ 24 * 2 ^ sh := Nat.mul_le_mul_right _ hm2
  have hshift : float32Shift 254 (m * 2 ^ sh + r) 0 = sh :=
    float32Shift_eq _ sh (Or.inr hlo) hhi 254 0 (Nat.zero_le _) (by omega)
  have hdiv : (m * 2 ^ sh + r) / 2 ^ sh = m := by
    rw [Nat.add_comm, Nat.add_mul_div_right _ _ hpos, Nat.div_eq_of_lt hr, Nat.zero_add]
  have hmod : (m * 2 ^ sh + r) % 2 ^ sh = r := by
    rw [Nat.add_comm, Nat.add_mul_mod_self_right, Nat.mod_eq_of_lt hr]
  unfold float32RoundNat
  rw [hshift]
  unfold float32RoundAt
  simp only [hdiv, hmod]
  by_cases hup : 2 ^ sh < 2 * r
  · rw [if_pos hup, if_pos (Or.inl hup)]
  · rw [if_neg hup, if_neg]
    rintro (h | ⟨h, _⟩)
    · exact hup h
    · exact hnt h

/-- The last of `k + 1` additions. -/
theorem float32Accumulate_succ (dt : Int) :
    ∀ (k : Nat) (t : Int),
      float32Accumulate dt (k + 1) t = float32Add (float32Accumulate dt k t) dt := by
  intro k
  induction k with
  | zero => intro t; rfl
  | succ k ih =>
    intro t
    rw [float32Accumulate, ih (float32Add t dt)]
    rfl

/-- Additions one run after the other. -/
theorem float32Accumulate_add (dt : Int) :
    ∀ (a b : Nat) (t : Int),
      float32Accumulate dt (a + b) t = float32Accumulate dt b (float32Accumulate dt a t) := by
  intro a
  induction a with
  | zero => intro b t; rw [Nat.zero_add]; rfl
  | succ a ih =>
    intro b t
    have e : a + 1 + b = (a + b) + 1 := by omega
    rw [e, float32Accumulate, ih b (float32Add t dt)]
    rfl

/-- A run of additions inside one binade, none at a tie: every sum is the
start plus a multiple of the rounded increment `cp`. -/
theorem float32Accumulate_binade (sh q c r cp k : Nat) (hsh : sh ≤ 254)
    (hq : 2 ^ 23 ≤ q) (hr : r < 2 ^ sh) (hnt : 2 * r ≠ 2 ^ sh)
    (hcp : cp = if 2 ^ sh < 2 * r then c + 1 else c)
    (hk : q + k * cp + c + 1 ≤ 2 ^ 24 + cp) :
    ∀ j, j ≤ k →
      float32Accumulate ((c * 2 ^ sh + r : Nat) : Int) j ((q * 2 ^ sh : Nat) : Int) =
        (((q + j * cp) * 2 ^ sh : Nat) : Int) := by
  intro j
  induction j with
  | zero => intro _; simp [float32Accumulate]
  | succ j ih =>
    intro hj
    rw [float32Accumulate_succ, ih (by omega), float32Add_natCast]
    have hmul : j * cp + cp ≤ k * cp := by
      have := Nat.mul_le_mul_right cp hj
      rw [Nat.add_mul, Nat.one_mul] at this
      exact this
    have hsum : (q + j * cp) * 2 ^ sh + (c * 2 ^ sh + r) = (q + j * cp + c) * 2 ^ sh + r := by
      ring
    rw [hsum, float32RoundNat_binade sh (q + j * cp + c) r hsh (by omega) (by omega) hr hnt]
    congr 2
    rw [hcp]
    split <;> ring

/-- Two runs of pressed samples, one after the other. -/
theorem TimerRun.trans {dt x y z : Int} {a b : Nat} (h1 : TimerRun dt x a y)
    (h2 : TimerRun dt y b z) : TimerRun dt x (a + b) z := by
  refine ⟨by rw [float32Accumulate_add, h1.1, h2.1], ?_⟩
  intro j hj
  by_cases hja : j < a
  · exact h1.2 j hja
  · have e : j = a + (j - a) := by omega
    rw [e, float32Accumulate_add, h1.1]
    exact h2.2 (j - a) (by omega)

/-- Two runs of pressed samples, with the count given. -/
theorem timerRun_trans {dt x y z : Int} {a b n : Nat} (h1 : TimerRun dt x a y)
    (h2 : TimerRun dt y b z) (hn : n = a + b) : TimerRun dt x n z := by
  subst hn
  exact h1.trans h2

/-- One pressed sample. -/
theorem timerRun_step (dt x y : Int) (hx : x < float32One) (h : float32Add x dt = y) :
    TimerRun dt x 1 y := by
  refine ⟨h, ?_⟩
  intro j hj
  have e : j = 0 := by omega
  subst e
  exact hx

/-- A run of pressed samples inside one binade below `1.f`. -/
theorem timerRun_binade (dt x y : Int) (sh q c r cp k : Nat)
    (hdt : dt = ((c * 2 ^ sh + r : Nat) : Int)) (hx : x = ((q * 2 ^ sh : Nat) : Int))
    (hy : y = (((q + k * cp) * 2 ^ sh : Nat) : Int))
    (hsh : sh ≤ 125) (hq : 2 ^ 23 ≤ q) (hr : r < 2 ^ sh) (hnt : 2 * r ≠ 2 ^ sh)
    (hcp : cp = if 2 ^ sh < 2 * r then c + 1 else c)
    (hk : q + k * cp + c + 1 ≤ 2 ^ 24 + cp) :
    TimerRun dt x k y := by
  have key := float32Accumulate_binade sh q c r cp k (by omega) hq hr hnt hcp hk
  subst hdt hx hy
  refine ⟨key k (le_refl _), ?_⟩
  intro j hj
  rw [key j (by omega), float32One_eq]
  have hmul : j * cp + cp ≤ k * cp := by
    have := Nat.mul_le_mul_right cp (show j + 1 ≤ k by omega)
    rw [Nat.add_mul, Nat.one_mul] at this
    exact this
  have hlt : q + j * cp < 2 ^ 24 := by omega
  have h1 : (q + j * cp) * 2 ^ sh < 2 ^ 24 * 2 ^ sh :=
    Nat.mul_lt_mul_of_pos_right hlt (Nat.two_pow_pos sh)
  have h2 : 2 ^ 24 * 2 ^ sh ≤ 2 ^ 149 := by
    rw [← Nat.pow_add]
    exact Nat.pow_le_pow_right (by decide) (by omega)
  have h3 : (q + j * cp) * 2 ^ sh < 2 ^ 149 := lt_of_lt_of_le h1 h2
  exact_mod_cast h3

/-! ## LongPressButton -/

/-- Running over two lists of samples in a row. -/
theorem run_append (dt : Int) : ∀ (vs ws : List ℚ) (b : LongPressButton),
    LongPressButton.run dt b (vs ++ ws) =
      ((LongPressButton.run dt (LongPressButton.run dt b vs).1 ws).1,
        (LongPressButton.run dt b vs).2 ++ (LongPressButton.run dt (LongPressButton.run dt b vs).1 ws).2) := by
  intro vs
  induction vs with
  | nil => intro ws b; simp [LongPressButton.run]
  | cons v vs ih =>
    intro ws b
    rw [List.cons_append, LongPressButton.run, LongPressButton.run, ih]
    simp

/-- A pressed sample whose sum stays below `1.f` only accumulates time. -/
theorem step_pressed_short (dt : Int) (v : ℚ) (t : Int) (tr : BooleanTrigger) (hv : 0 < v)
    (ht : 0 ≤ t) (hlt : float32Add t dt < float32One) :
    LongPressButton.step { pressedTime := t, trigger := tr } dt v =
      ({ pressedTime := float32Add t dt, trigger := { lastState := false } },
        Events.NO_PRESS) := by
  have h1 : ¬ (float32One ≤ float32Add t dt) := not_le.mpr hlt
  simp [LongPressButton.step, BooleanTrigger.process, hv, ht, h1]

/-- The pressed sample whose sum reaches `1.f` emits `LONG_PRESS`. -/
theorem step_pressed_long (dt : Int) (v : ℚ) (t : Int) (tr : BooleanTrigger) (hv : 0 < v)
    (ht : 0 ≤ t) (hge : float32One ≤ float32Add t dt) :
    LongPressButton.step { pressedTime := t, trigger := tr } dt v =
      ({ pressedTime := -float32One, trigger := { lastState := false } },
        Events.LONG_PRESS) := by
  have hneg : ¬ (0 ≤ -float32One) := by unfold float32One; omega
  simp [LongPressButton.step, BooleanTrigger.process, hv, ht, hge]

/-- After the long press has fired, pressed samples emit nothing. -/
theorem step_pressed_fired (dt : Int) (v : ℚ) (tr : BooleanTrigger) (hv : 0 < v) :
    LongPressButton.step { pressedTime := -float32One, trigger := tr } dt v =
      ({ pressedTime := -float32One, trigger := { lastState := false } },
        Events.NO_PRESS) := by
  have hneg : ¬ (0 ≤ -float32One) := by unfold float32One; omega
  simp [LongPressButton.step, BooleanTrigger.process, hv, hneg]

/-- The release sample after a press. -/
theorem step_release (dt : Int) (r : ℚ) (t : Int) (hr : r ≤ 0) :
    LongPressButton.step { pressedTime := t, trigger := { lastState := false } } dt r =
      ({ pressedTime := 0, trigger := { lastState := true } },
        if 0 ≤ t then Events.SHORT_PRESS else Events.NO_PRESS) := by
  have h1 : ¬ (0 < r) := not_lt.mpr hr
  simp [LongPressButton.step, BooleanTrigger.process, h1]

/-- Pressed samples after the long press has fired. -/
theorem run_fired (dt : Int) : ∀ (vs : List ℚ) (tr : BooleanTrigger),
    (∀ v ∈ vs, 0 < v) → vs ≠ [] →
    LongPressButton.run dt { pressedTime := -float32One, trigger := tr } vs =
      ({ pressedTime := -float32One, trigger := { lastState := false } },
        List.replicate vs.length Events.NO_PRESS) := by
  intro vs
  induction vs with
  | nil => intro tr _ h; exact absurd rfl h
  | cons v vs ih =>
    intro tr hvs _
    have hv : 0 < v := hvs v (List.mem_cons_self _ _)
    simp only [LongPressButton.run, step_pressed_fired dt v tr hv, List.length_cons,
      List.replicate_succ]
    by_cases hnil : vs = []
    · subst hnil; simp [LongPressButton.run]
    · rw [ih _ (fun w hw => hvs w (List.mem_cons_of_mem _ hw)) hnil]

/-- The timer is not negative while it accumulates. -/
theorem float32Accumulate_nonneg (dt : Int) (hdt : 0 ≤ dt) :
    ∀ (k : Nat) (t : Int), 0 ≤ t → 0 ≤ float32Accumulate dt k t := by
  intro k
  induction k with
  | zero => intro t ht; exact ht
  | succ k ih =>
    intro t ht
    exact ih _ (float32Add_nonneg t dt ht hdt)

/-- Pressed samples during which the timer stays below `1.f`. -/
theorem run_short (dt : Int) (hdt : 0 ≤ dt) :
    ∀ (vs : List ℚ) (t : Int) (tr : BooleanTrigger),
    (∀ v ∈ vs, 0 < v) → vs ≠ [] → 0 ≤ t →
    (∀ j, 1 ≤ j → j ≤ vs.length → float32Accumulate dt j t < float32One) →
    LongPressButton.run dt { pressedTime := t, trigger := tr } vs =
      ({ pressedTime := float32Accumulate dt vs.length t, trigger := { lastState := false } },
        List.replicate vs.length Events.NO_PRESS) := by
  intro vs
  induction vs with
  | nil => intro t tr _ h; exact absurd rfl h
  | cons v vs ih =>
    intro t tr hvs _ ht hlt
    have hv : 0 < v := hvs v (List.mem_cons_self _ _)
    have h1 : float32Add t dt < float32One := hlt 1 (le_refl _) (by simp)
    simp only [LongPressButton.run, step_pressed_short dt v t tr hv ht h1, List.length_cons,
      List.replicate_succ, float32Accumulate]
    by_cases hnil : vs = []
    · subst hnil; simp [LongPressButton.run, float32Accumulate]
    · rw [ih (float32Add t dt) _ (fun w hw => hvs w (List.mem_cons_of_mem _ hw)) hnil
        (float32Add_nonneg t dt ht hdt)
        (fun j hj1 hj2 => hlt (j + 1) (by omega) (by simp only [List.length_cons]; omega))]

/-- Pressed samples during which the timer reaches `1.f`, first at sample `k`:
`LONG_PRESS` once, at sample `k`. -/
theorem run_long (dt : Int) (hdt : 0 ≤ dt) :
    ∀ (vs : List ℚ) (t : Int) (tr : BooleanTrigger) (k : Nat),
    (∀ v ∈ vs, 0 < v) → 0 ≤ t → 1 ≤ k → k ≤ vs.length →
    (∀ j, 1 ≤ j → j < k → float32Accumulate dt j t < float32One) →
    float32One ≤ float32Accumulate dt k t →
    LongPressButton.run dt { pressedTime := t, trigger := tr } vs =
      ({ pressedTime := -float32One, trigger := { lastState := false } },
        List.replicate (k - 1) Events.NO_PRESS ++ Events.LONG_PRESS ::
          List.replicate (vs.length - k) Events.NO_PRESS) := by
  intro vs
  induction vs with
  | nil =>
    intro t tr k _ _ hk1 hk2 _ _
    simp only [List.length_nil] at hk2
    omega
  | cons v vs ih =>
    intro t tr k hvs ht hk1 hk2 hbelow hge
    have hv : 0 < v := hvs v (List.mem_cons_self _ _)
    have hvs2 : ∀ w ∈ vs, 0 < w := fun w hw => hvs w (List.mem_cons_of_mem _ hw)
    simp only [List.length_cons] at hk2 ⊢
    by_cases hk : k = 1
    · subst hk
      have h1 : float32One ≤ float32Add t dt := hge
      simp only [LongPressButton.run, step_pressed_long dt v t tr hv ht h1]
      by_cases hnil : vs = []
      · subst hnil; simp [LongPressButton.run]
      · rw [run_fired dt vs _ hvs2 hnil]
        simp
    · obtain ⟨m, rfl⟩ : ∃ m, k = m + 2 := ⟨k - 2, by omega⟩
      have h1 : float32Add t dt < float32One := hbelow 1 (le_refl _) (by omega)
      have hrec := ih (float32Add t dt) { lastState := false } (m + 1) hvs2
        (float32Add_nonneg t dt ht hdt) (by omega) (by omega)
        (fun j hj1 hj2 => by
          have := hbelow (j + 1) (by omega) (by omega)
          rw [float32Accumulate] at this
          exact this)
        (by
          rw [float32Accumulate] at hge
          exact hge)
      simp only [LongPressButton.run, step_pressed_short dt v t tr hv ht h1, hrec]
      have e0 : m + 1 - 1 = m := by omega
      have e1 : m + 2 - 1 = m + 1 := by omega
      have e2 : vs.length + 1 - (m + 2) = vs.length - (m + 1) := by omega
      rw [e0, e1, e2, List.replicate_succ]
      rfl

/-- The search for the spacing stops at or before a bound on `s`. -/
theorem float32Shift_le (s b : Nat) (hs : s < 2 ^ (24 + b)) :
    ∀ (fuel a : Nat), a ≤ b → float32Shift fuel s a ≤ b := by
  intro fuel
  induction fuel with
  | zero => intro a ha; exact ha
  | succ fuel ih =>
    intro a ha
    simp only [float32Shift]
    split
    · exact ha
    · rename_i hge
      apply ih
      by_contra hlt
      have e : a = b := by omega
      subst e
      exact hge hs

/-- A multiple of `2^126` below `2^150` (a multiple of `2^-23` below 2) is a
binary32 value: rounding leaves it as it is. -/
theorem float32RoundNat_exact (s : Nat) (hs : s < 2 ^ 150) (hd : 2 ^ 126 ∣ s) :
    float32RoundNat s = s := by
  have hsh : float32Shift 254 s 0 ≤ 126 := float32Shift_le s 126 hs 254 0 (Nat.zero_le _)
  have hdvd : 2 ^ float32Shift 254 s 0 ∣ s := dvd_trans (pow_dvd_pow 2 hsh) hd
  unfold float32RoundNat float32RoundAt
  have hmod : s % 2 ^ float32Shift 254 s 0 = 0 := Nat.mod_eq_zero_of_dvd hdvd
  have hpos : 0 < 2 ^ float32Shift 254 s 0 := Nat.two_pow_pos _
  simp only [hmod, Nat.mul_zero]
  rw [if_neg]
  · exact Nat.div_mul_cancel hdvd
  · rintro (h | ⟨h, _⟩)
    · omega
    · omega

/-- With a sample time that is a multiple of `2^-23`, the timer is the exact
sum as long as that sum is below 2. -/
theorem float32Accumulate_exact (d : Nat) (hd : 2 ^ 126 ∣ d) :
    ∀ k, k * d < 2 ^ 150 → float32Accumulate (d : Int) k 0 = ((k * d : Nat) : Int) := by
  intro k
  induction k with
  | zero => intro _; simp [float32Accumulate]
  | succ k ih =>
    intro hk
    have hk' : k * d < 2 ^ 150 := lt_of_le_of_lt (Nat.mul_le_mul_right d (Nat.le_succ k)) hk
    rw [float32Accumulate_succ, ih hk', float32Add_natCast]
    have e : k * d + d = (k + 1) * d := by ring
    rw [e, float32RoundNat_exact _ hk (Dvd.dvd.mul_left hd _)]

/-- A press whose timer reaches `1.f` first at sample `k`, then the release:
`LONG_PRESS` at sample `k` and nothing else. -/
theorem run_press_long (dt : Int) (hdt : 0 ≤ dt) (vs : List ℚ) (hvs : ∀ v ∈ vs, 0 < v)
    (r : ℚ) (hr : r ≤ 0) (k : Nat) (hk1 : 1 ≤ k) (hk2 : k ≤ vs.length)
    (hbelow : ∀ j, j < k → float32Accumulate dt j 0 < float32One)
    (hge : float32One ≤ float32Accumulate dt k 0) :
    LongPressButton.run dt LongPressButton.idle (vs ++ [r]) =
      (LongPressButton.idle,
        List.replicate (k - 1) Events.NO_PRESS ++ Events.LONG_PRESS ::
          (List.replicate (vs.length - k) Events.NO_PRESS ++ [Events.NO_PRESS])) := by
  have hrun := run_long dt hdt vs 0 { lastState := true } k hvs (le_refl _) hk1 hk2
    (fun j _ hj => hbelow j hj) hge
  have hneg : ¬ (0 ≤ -float32One) := by unfold float32One; omega
  rw [run_append]
  unfold LongPressButton.idle
  rw [hrun]
  simp only [LongPressButton.run, step_release dt r (-float32One) hr, if_neg hneg]
  simp

/-- A press whose timer stays below `1.f`, then the release: `SHORT_PRESS` at
the release and nothing else. -/
theorem run_press_short (dt : Int) (hdt : 0 ≤ dt) (vs : List ℚ) (hne : vs ≠ [])
    (hvs : ∀ v ∈ vs, 0 < v) (r : ℚ) (hr : r ≤ 0)
    (hbelow : ∀ j, j ≤ vs.length → float32Accumulate dt j 0 < float32One) :
    LongPressButton.run dt LongPressButton.idle (vs ++ [r]) =
      (LongPressButton.idle,
        List.replicate vs.length Events.NO_PRESS ++ [Events.SHORT_PRESS]) := by
  have hrun := run_short dt hdt vs 0 { lastState := true } hvs hne (le_refl _)
    (fun j _ hj => hbelow j hj)
  have hpos : 0 ≤ float32Accumulate dt vs.length 0 :=
    float32Accumulate_nonneg dt hdt _ 0 (le_refl _)
  rw [run_append]
  unfold LongPressButton.idle
  rw [hrun]
  simp only [LongPressButton.run, step_release dt r _ hr, if_pos hpos]

/-! ## Claims on the button and on toggleMode -/

/-- C9, as amended (long and short press exclude each other). The sample time
is a positive binary32 value `dt` and the button is idle; it is held for the
samples `vs` (at least one, all positive) and then released (`r ≤ 0`). The
timer is the sum that the code keeps in `float pressedTime`, rounded to
binary32 at every `+=`. If the timer reaches 1 within the press, `LONG_PRESS`
is emitted exactly once, at the first sample where the timer is at least 1,
and the release emits nothing; otherwise no `LONG_PRESS` is emitted and the
release emits `SHORT_PRESS`. When `dt ≤ 1` is a multiple of `2^-23` no sum is
rounded, and the test is on `n * dt` as in exact arithmetic. Never both
events, and the button is idle again (`pressedTime = 0`) after the release. -/
theorem longPress_exclusive (dt : Int) (hdt : 0 < dt) (vs : List ℚ) (hne : vs ≠ [])
    (hvs : ∀ v ∈ vs, 0 < v) (r : ℚ) (hr : r ≤ 0) :
    ((∃ k, k ≤ vs.length ∧ float32One ≤ float32Accumulate dt k 0) →
      ∃ k : Nat, 1 ≤ k ∧ k ≤ vs.length ∧ float32One ≤ float32Accumulate dt k 0 ∧
        (∀ j, j < k → float32Accumulate dt j 0 < float32One) ∧
        (LongPressButton.run dt LongPressButton.idle (vs ++ [r])).2 =
          List.replicate (k - 1) Events.NO_PRESS ++ Events.LONG_PRESS ::
            (List.replicate (vs.length - k) Events.NO_PRESS ++ [Events.NO_PRESS])) ∧
    ((∀ k, k ≤ vs.length → float32Accumulate dt k 0 < float32One) →
      (LongPressButton.run dt LongPressButton.idle (vs ++ [r])).2 =
        List.replicate vs.length Events.NO_PRESS ++ [Events.SHORT_PRESS]) ∧
    ((2 ^ 126 : Int) ∣ dt → dt ≤ float32One →
      (float32One ≤ (vs.length : Int) * dt →
        ∃ k : Nat, 1 ≤ k ∧ k ≤ vs.length ∧ float32One ≤ (k : Int) * dt ∧
          ((k : Int) - 1) * dt < float32One ∧
          (LongPressButton.run dt LongPressButton.idle (vs ++ [r])).2 =
            List.replicate (k - 1) Events.NO_PRESS ++ Events.LONG_PRESS ::
              (List.replicate (vs.length - k) Events.NO_PRESS ++ [Events.NO_PRESS])) ∧
      ((vs.length : Int) * dt < float32One →
        (LongPressButton.run dt LongPressButton.idle (vs ++ [r])).2 =
          List.replicate vs.length Events.NO_PRESS ++ [Events.SHORT_PRESS])) ∧
    ¬ (Events.LONG_PRESS ∈ (LongPressButton.run dt LongPressButton.idle (vs ++ [r])).2 ∧
        Events.SHORT_PRESS ∈ (LongPressButton.run dt LongPressButton.idle (vs ++ [r])).2) ∧
    (LongPressButton.run dt LongPressButton.idle (vs ++ [r])).1 = LongPressButton.idle := by
  have hdt0 : 0 ≤ dt := le_of_lt hdt
  have hzero : float32Accumulate dt 0 0 < float32One := by
    simp only [float32Accumulate]
    unfold float32One
    omega
  -- the first sample at which the timer reaches 1, if there is one
  have hfirst : (∃ k, k ≤ vs.length ∧ float32One ≤ float32Accumulate dt k 0) →
      ∃ k : Nat, 1 ≤ k ∧ k ≤ vs.length ∧ float32One ≤ float32Accumulate dt k 0 ∧
        (∀ j, j < k → float32Accumulate dt j 0 < float32One) := by
    intro h
    have hex : ∃ k, float32One ≤ float32Accumulate dt k 0 := by
      obtain ⟨k, _, hk⟩ := h
      exact ⟨k, hk⟩
    obtain ⟨k, hkn, hk⟩ := h
    refine ⟨Nat.find hex, ?_, le_trans (Nat.find_min' hex hk) hkn, Nat.find_spec hex, ?_⟩
    · by_contra h0
      have e : Nat.find hex = 0 := by omega
      have := Nat.find_spec hex
      rw [e] at this
      omega
    · intro j hj
      exact not_le.mp (Nat.find_min hex hj)
  have hlong : (∃ k, k ≤ vs.length ∧ float32One ≤ float32Accumulate dt k 0) →
      ∃ k : Nat, 1 ≤ k ∧ k ≤ vs.length ∧ float32One ≤ float32Accumulate dt k 0 ∧
        (∀ j, j < k → float32Accumulate dt j 0 < float32One) ∧
        LongPressButton.run dt LongPressButton.idle (vs ++ [r]) =
          (LongPressButton.idle,
            List.replicate (k - 1) Events.NO_PRESS ++ Events.LONG_PRESS ::
              (List.replicate (vs.length - k) Events.NO_PRESS ++ [Events.NO_PRESS])) := by
    intro h
    obtain ⟨k, hk1, hk2, hk3, hk4⟩ := hfirst h
    exact ⟨k, hk1, hk2, hk3, hk4, run_press_long dt hdt0 vs hvs r hr k hk1 hk2 hk4 hk3⟩
  have hshort : (∀ k, k ≤ vs.length → float32Accumulate dt k 0 < float32One) →
      LongPressButton.run dt LongPressButton.idle (vs ++ [r]) =
        (LongPressButton.idle,
          List.replicate vs.length Events.NO_PRESS ++ [Events.SHORT_PRESS]) :=
    run_press_short dt hdt0 vs hne hvs r hr
  have hcases : (∃ k, k ≤ vs.length ∧ float32One ≤ float32Accumulate dt k 0) ∨
      (∀ k, k ≤ vs.length → float32Accumulate dt k 0 < float32One) := by
    by_cases h : ∃ k, k ≤ vs.length ∧ float32One ≤ float32Accumulate dt k 0
    · exact Or.inl h
    · right
      intro k hk
      by_contra hge
      exact h ⟨k, hk, not_lt.mp hge⟩
  refine ⟨?_, ?_, ?_, ?_, ?_⟩
  · intro h
    obtain ⟨k, hk1, hk2, hk3, hk4, hrun⟩ := hlong h
    exact ⟨k, hk1, hk2, hk3, hk4, by rw [hrun]⟩
  · intro h
    rw [hshort h]
  · intro hdvd hle
    obtain ⟨d, rfl⟩ := Int.eq_ofNat_of_zero_le hdt0
    have hd : 2 ^ 126 ∣ d := by
      have : ((2 ^ 126 : Nat) : Int) ∣ (d : Int) := by
        have e : ((2 ^ 126 : Nat) : Int) = (2 ^ 126 : Int) := by norm_num
        rw [e]
        exact hdvd
      exact Int.natCast_dvd_natCast.mp this
    have hone : float32One = ((2 ^ 149 : Nat) : Int) := by
      rw [float32One_eq]
      norm_num
    have hd1 : d ≤ 2 ^ 149 := by
      rw [hone] at hle
      exact_mod_cast hle
    have hexact := float32Accumulate_exact d hd
    constructor
    · intro hn
      have hnN : 2 ^ 149 ≤ vs.length * d := by
        rw [hone] at hn
        exact_mod_cast hn
      have hex : ∃ k, 2 ^ 149 ≤ k * d := ⟨vs.length, hnN⟩
      have hk0 : 1 ≤ Nat.find hex := by
        by_contra h0
        have e : Nat.find hex = 0 := by omega
        have := Nat.find_spec hex
        rw [e] at this
        simp at this
      have hmin : ∀ j, j < Nat.find hex → j * d < 2 ^ 149 :=
        fun j hj => not_le.mp (Nat.find_min hex hj)
      have hprev : (Nat.find hex - 1) * d < 2 ^ 149 := hmin _ (by omega)
      have hsplit : Nat.find hex * d = (Nat.find hex - 1) * d + d := by
        have e : Nat.find hex = (Nat.find hex - 1) + 1 := by omega
        nth_rewrite 1 [e]
        ring
      have hlt2 : Nat.find hex * d < 2 ^ 150 := by
        rw [hsplit]
        have : (2 : Nat) ^ 150 = 2 ^ 149 + 2 ^ 149 := by norm_num
        omega
      have hbelow : ∀ j, j < Nat.find hex → float32Accumulate (d : Int) j 0 < float32One := by
        intro j hj
        have hj1 := hmin j hj
        rw [hexact j (lt_trans hj1 (by norm_num)), hone]
        exact_mod_cast hj1
      have hge : float32One ≤ float32Accumulate (d : Int) (Nat.find hex) 0 := by
        rw [hexact _ hlt2, hone]
        exact_mod_cast Nat.find_spec hex
      refine ⟨Nat.find hex, hk0, Nat.find_min' hex hnN, ?_, ?_, ?_⟩
      · rw [hone]
        exact_mod_cast Nat.find_spec hex
      · rw [hone]
        have : ((Nat.find hex - 1 : Nat) : Int) * (d : Int) < ((2 ^ 149 : Nat) : Int) := by
          exact_mod_cast hprev
        have e : ((Nat.find hex - 1 : Nat) : Int) = (Nat.find hex : Int) - 1 := by
          omega
        rw [e] at this
        exact this
      · rw [run_press_long (d : Int) hdt0 vs hvs r hr (Nat.find hex) hk0
          (Nat.find_min' hex hnN) hbelow hge]
    · intro hn
      have hnN : vs.length * d < 2 ^ 149 := by
        rw [hone] at hn
        exact_mod_cast hn
      rw [hshort]
      intro k hk
      have hkd : k * d < 2 ^ 149 := lt_of_le_of_lt (Nat.mul_le_mul_right d hk) hnN
      rw [hexact k (lt_trans hkd (by norm_num)), hone]
      exact_mod_cast hkd
  · rcases hcases with h | h
    · obtain ⟨k, _, _, _, _, hrun⟩ := hlong h
      rw [hrun]
      simp [List.mem_replicate]
    · rw [hshort h]
      simp [List.mem_replicate]
  · rcases hcases with h | h
    · obtain ⟨k, _, _, _, _, hrun⟩ := hlong h
      rw [hrun]
    · rw [hshort h]

/-- Witness for C9: with a sample time of `2^-10` s, which is exact, a press of
1024 samples (held 1.0 s) and one of 102 samples (held under 0.1 s). -/
theorem longPress_exclusive_witness :
    (0 : Int) < 2 ^ 139 ∧ (∀ v ∈ List.replicate 1024 (1 : ℚ), 0 < v) ∧ (0 : ℚ) ≤ 0 ∧
    (LongPressButton.run (2 ^ 139) LongPressButton.idle (List.replicate 1024 1 ++ [0])).1 =
      LongPressButton.idle ∧
    (LongPressButton.run (2 ^ 139) LongPressButton.idle (List.replicate 102 1 ++ [0])).2 =
      List.replicate 102 Events.NO_PRESS ++ [Events.SHORT_PRESS] := by
  have hpos : ∀ (n : Nat) (v : ℚ), v ∈ List.replicate n (1 : ℚ) → 0 < v := by
    intro n v hv
    rw [(List.mem_replicate.1 hv).2]
    exact zero_lt_one
  have hne : ∀ n : Nat, 0 < n → List.replicate n (1 : ℚ) ≠ [] := by
    intro n hn e
    have := congrArg List.length e
    rw [List.length_replicate] at this
    simp only [List.length_nil] at this
    omega
  have h1 := longPress_exclusive (2 ^ 139) (by norm_num) (List.replicate 1024 1)
    (hne 1024 (by norm_num)) (hpos 1024) 0 (le_refl _)
  have h2 := ((longPress_exclusive (2 ^ 139) (by norm_num) (List.replicate 102 1)
    (hne 102 (by norm_num)) (hpos 102) 0 (le_refl _)).2.2.1
      (Dvd.intro_left (2 ^ 13) (by norm_num)) (by unfold float32One; norm_num)).2
      (by rw [List.length_replicate]; unfold float32One; norm_num)
  rw [List.length_replicate] at h2
  exact ⟨by norm_num, hpos 1024, le_refl _, h1.2.2.2.2, h2⟩

/-- The two sample times are binary32 values (significands of 24 bits at the
spacing `2^110`), each within half a spacing of the exact quotient. -/
theorem sampleTime_nearest :
    (sampleTime48k = 11453246 * 2 ^ 110 ∧
      48000 * sampleTime48k - float32One ≤ 48000 * 2 ^ 109 ∧
      float32One - 48000 * sampleTime48k ≤ 48000 * 2 ^ 109) ∧
    (sampleTime44k = 12466118 * 2 ^ 110 ∧
      44100 * sampleTime44k - float32One ≤ 44100 * 2 ^ 109 ∧
      float32One - 44100 * sampleTime44k ≤ 44100 * 2 ^ 109) := by
  unfold sampleTime48k sampleTime44k float32One
  norm_num

/-- At 48 kHz the timer reaches `1.f` at sample 47970 and not before. -/
theorem timerRun_48k :
    TimerRun sampleTime48k 0 47970 713637797930023699006144983083652270688043008 := by
  have s0 : TimerRun sampleTime48k 0 1 14867163306456645099289098240163686907904 :=
    timerRun_step _ _ _ (by decide) (by decide!)
  have s1 : TimerRun sampleTime48k 14867163306456645099289098240163686907904 1 29734326612913290198578196480327373815808 :=
    timerRun_step _ _ _ (by decide) (by decide!)
  have s2 : TimerRun sampleTime48k 29734326612913290198578196480327373815808 1 44601487323221506030453480455242896113664 :=
    timerRun_step _ _ _ (by decide) (by decide!)
  have s3 : TimerRun sampleTime48k 44601487323221506030453480455242896113664 1 59468653225826580397156392960654747631616 :=
    timerRun_step _ _ _ (by decide) (by decide!)
  have s4 : TimerRun sampleTime48k 59468653225826580397156392960654747631616 1 74335819128431654763859305466066599149568 :=
    timerRun_step _ _ _ (by decide) (by decide!)
  have s5 : TimerRun sampleTime48k 74335819128431654763859305466066599149568 1 89202985031036729130562217971478450667520 :=
    timerRun_step _ _ _ (by decide) (by decide!)
  have s6 : TimerRun sampleTime48k 89202985031036729130562217971478450667520 5 163538814544062100964076780498537708257280 :=
    timerRun_binade _ _ _ 113 8589935 1431655 7788445287802241442795744493830144 1431656 5 (by decide) (by decide) (by decide)
      (by decide) (by decide) (by decide) (by decide) (by decide) (by decide)
  have s7 : TimerRun sampleTime48k 163538814544062100964076780498537708257280 1 178405970062073458261124435942956901335040 :=
    timerRun_step _ _ _ (by decide) (by decide!)
  have s8 : TimerRun sampleTime48k 178405970062073458261124435942956901335040 11 341944794990729276294856473502487268032512 :=
    timerRun_binade _ _ _ 114 8589935 715827 18173039004871896699856737152270336 715828 11 (by decide) (by decide) (by decide)
      (by decide) (by decide) (by decide) (by decide) (by decide) (by decide)
  have s9 : TimerRun sampleTime48k 341944794990729276294856473502487268032512 1 356811940124146916522248871885913802670080 :=
    timerRun_step _ _ _ (by decide) (by decide!)
  have s10 : TimerRun sampleTime48k 356811940124146916522248871885913802670080 22 683889589981458552589712947004974536065024 :=
    timerRun_binade _ _ _ 115 8589935 357913 38942226439011207213978722469150720 357914 22 (by decide) (by decide) (by decide)
      (by decide) (by decide) (by decide) (by decide) (by decide) (by decide)
  have s11 : TimerRun sampleTime48k 683889589981458552589712947004974536065024 1 698756714345688758677794831266415753822208 :=
    timerRun_step _ _ _ (by decide) (by decide!)
  have s12 : TimerRun sampleTime48k 698756714345688758677794831266415753822208 46 1382646345865522179546128806515360923648000 :=
    timerRun_binade _ _ _ 116 8410978 178956 80480601307289828242222693102911488 178957 46 (by decide) (by decide) (by decide)
      (by decide) (by decide) (by decide) (by decide) (by decide) (by decide)
  have s13 : TimerRun sampleTime48k 1382646345865522179546128806515360923648000 1 1397513428691377517355589662532831507644416 :=
    timerRun_step _ _ _ (by decide) (by decide!)
  have s14 : TimerRun sampleTime48k 1397513428691377517355589662532831507644416 93 2780152131495923933635449272157595819311104 :=
    timerRun_binade _ _ _ 117 8410978 89478 80480601307289828242222693102911488 89478 93 (by decide) (by decide) (by decide)
      (by decide) (by decide) (by decide) (by decide) (by decide) (by decide)
  have s15 : TimerRun sampleTime48k 2780152131495923933635449272157595819311104 1 2795019214321779271444910128175066403307520 :=
    timerRun_step _ _ _ (by decide) (by decide!)
  have s16 : TimerRun sampleTime48k 2795019214321779271444910128175066403307520 187 5575163702756727441814090203442065610637312 :=
    timerRun_binade _ _ _ 118 8410955 44739 80480601307289828242222693102911488 44739 187 (by decide) (by decide) (by decide)
      (by decide) (by decide) (by decide) (by decide) (by decide) (by decide)
  have s17 : TimerRun sampleTime48k 5575163702756727441814090203442065610637312 1 5590031117889581725852519285411301264719872 :=
    timerRun_step _ _ _ (by decide) (by decide!)
  have s18 : TimerRun sampleTime48k 5590031117889581725852519285411301264719872 373 11135576962444229672186566859936200237514752 :=
    timerRun_binade _ _ _ 119 8410944 22369 412787600253518796468174458172997632 22370 373 (by decide) (by decide) (by decide)
      (by decide) (by decide) (by decide) (by decide) (by decide) (by decide)
  have s19 : TimerRun sampleTime48k 11135576962444229672186566859936200237514752 1 11150444377577083956224995941905435891597312 :=
    timerRun_step _ _ _ (by decide) (by decide!)
  have s20 : TimerRun sampleTime48k 11150444377577083956224995941905435891597312 749 22286138312084942701008378336862940799434752 :=
    timerRun_binade _ _ _ 120 8388662 11184 1077401598145976732920077988313169920 11185 749 (by decide) (by decide) (by decide)
      (by decide) (by decide) (by decide) (by decide) (by decide) (by decide)
  have s21 : TimerRun sampleTime48k 22286138312084942701008378336862940799434752 1 22301005727217796985046807418832176453517312 :=
    timerRun_step _ _ _ (by decide) (by decide!)
  have s22 : TimerRun sampleTime48k 22301005727217796985046807418832176453517312 1500 44600134584505545668881074662095237060493312 :=
    timerRun_binade _ _ _ 121 8388706 5592 1077401598145976732920077988313169920 5592 1500 (by decide) (by decide) (by decide)
      (by decide) (by decide) (by decide) (by decide) (by decide) (by decide)
  have s23 : TimerRun sampleTime48k 44600134584505545668881074662095237060493312 1 44615000670410404168003630840257412434231296 :=
    timerRun_step _ _ _ (by decide) (by decide!)
  have s24 : TimerRun sampleTime48k 44615000670410404168003630840257412434231296 2999 89198392299081043036549609148621358274445312 :=
    timerRun_binade _ _ _ 122 8391149 2796 1077401598145976732920077988313169920 2796 2999 (by decide) (by decide) (by decide)
      (by decide) (by decide) (by decide) (by decide) (by decide) (by decide)
  have s25 : TimerRun sampleTime48k 89198392299081043036549609148621358274445312 1 89213263701897884675335656942011774769561600 :=
    timerRun_step _ _ _ (by decide) (by decide!)
  have s26 : TimerRun sampleTime48k 89213263701897884675335656942011774769561600 5999 178394913045144020911550169736901841823727616 :=
    timerRun_binade _ _ _ 123 8389575 1398 1077401598145976732920077988313169920 1398 5999 (by decide) (by decide) (by decide)
      (by decide) (by decide) (by decide) (by decide) (by decide) (by decide)
  have s27 : TimerRun sampleTime48k 178394913045144020911550169736901841823727616 1 178409789764872845689999709145520499440222208 :=
    timerRun_step _ _ _ (by decide) (by decide!)
  have s28 : TimerRun sampleTime48k 178409789764872845689999709145520499440222208 12000 356802820623174835160673847091624984296030208 :=
    timerRun_binade _ _ _ 124 8388788 699 1077401598145976732920077988313169920 699 12000 (by decide) (by decide) (by decide)
      (by decide) (by decide) (by decide) (by decide) (by decide) (by decide)
  have s29 : TimerRun sampleTime48k 356802820623174835160673847091624984296030208 1 356817707976727626218450369730700124155281408 :=
    timerRun_step _ _ _ (by decide) (by decide!)
  have s30 : TimerRun sampleTime48k 356817707976727626218450369730700124155281408 23967 713622910576470907948368460444577130828791808 :=
    timerRun_binade _ _ _ 125 8388744 349 22345049530704630699380990952798683136 350 23967 (by decide) (by decide) (by decide)
      (by decide) (by decide) (by decide) (by decide) (by decide) (by decide)
  have s31 : TimerRun sampleTime48k 713622910576470907948368460444577130828791808 1 713637797930023699006144983083652270688043008 :=
    timerRun_step _ _ _ (by decide) (by decide!)
  have t1 : TimerRun sampleTime48k 0 2 29734326612913290198578196480327373815808 := timerRun_trans s0 s1 (by norm_num)
  have t2 : TimerRun sampleTime48k 0 3 44601487323221506030453480455242896113664 := timerRun_trans t1 s2 (by norm_num)
  have t3 : TimerRun sampleTime48k 0 4 59468653225826580397156392960654747631616 := timerRun_trans t2 s3 (by norm_num)
  have t4 : TimerRun sampleTime48k 0 5 74335819128431654763859305466066599149568 := timerRun_trans t3 s4 (by norm_num)
  have t5 : TimerRun sampleTime48k 0 6 89202985031036729130562217971478450667520 := timerRun_trans t4 s5 (by norm_num)
  have t6 : TimerRun sampleTime48k 0 11 163538814544062100964076780498537708257280 := timerRun_trans t5 s6 (by norm_num)
  have t7 : TimerRun sampleTime48k 0 12 178405970062073458261124435942956901335040 := timerRun_trans t6 s7 (by norm_num)
  have t8 : TimerRun sampleTime48k 0 23 341944794990729276294856473502487268032512 := timerRun_trans t7 s8 (by norm_num)
  have t9 : TimerRun sampleTime48k 0 24 356811940124146916522248871885913802670080 := timerRun_trans t8 s9 (by norm_num)
  have t10 : TimerRun sampleTime48k 0 46 683889589981458552589712947004974536065024 := timerRun_trans t9 s10 (by norm_num)
  have t11 : TimerRun sampleTime48k 0 47 698756714345688758677794831266415753822208 := timerRun_trans t10 s11 (by norm_num)
  have t12 : TimerRun sampleTime48k 0 93 1382646345865522179546128806515360923648000 := timerRun_trans t11 s12 (by norm_num)
  have t13 : TimerRun sampleTime48k 0 94 1397513428691377517355589662532831507644416 := timerRun_trans t12 s13 (by norm_num)
  have t14 : TimerRun sampleTime48k 0 187 2780152131495923933635449272157595819311104 := timerRun_trans t13 s14 (by norm_num)
  have t15 : TimerRun sampleTime48k 0 188 2795019214321779271444910128175066403307520 := timerRun_trans t14 s15 (by norm_num)
  have t16 : TimerRun sampleTime48k 0 375 5575163702756727441814090203442065610637312 := timerRun_trans t15 s16 (by norm_num)
  have t17 : TimerRun sampleTime48k 0 376 5590031117889581725852519285411301264719872 := timerRun_trans t16 s17 (by norm_num)
  have t18 : TimerRun sampleTime48k 0 749 11135576962444229672186566859936200237514752 := timerRun_trans t17 s18 (by norm_num)
  have t19 : TimerRun sampleTime48k 0 750 11150444377577083956224995941905435891597312 := timerRun_trans t18 s19 (by norm_num)
  have t20 : TimerRun sampleTime48k 0 1499 22286138312084942701008378336862940799434752 := timerRun_trans t19 s20 (by norm_num)
  have t21 : TimerRun sampleTime48k 0 1500 22301005727217796985046807418832176453517312 := timerRun_trans t20 s21 (by norm_num)
  have t22 : TimerRun sampleTime48k 0 3000 44600134584505545668881074662095237060493312 := timerRun_trans t21 s22 (by norm_num)
  have t23 : TimerRun sampleTime48k 0 3001 44615000670410404168003630840257412434231296 := timerRun_trans t22 s23 (by norm_num)
  have t24 : TimerRun sampleTime48k 0 6000 89198392299081043036549609148621358274445312 := timerRun_trans t23 s24 (by norm_num)
  have t25 : TimerRun sampleTime48k 0 6001 89213263701897884675335656942011774769561600 := timerRun_trans t24 s25 (by norm_num)
  have t26 : TimerRun sampleTime48k 0 12000 178394913045144020911550169736901841823727616 := timerRun_trans t25 s26 (by norm_num)
  have t27 : TimerRun sampleTime48k 0 12001 178409789764872845689999709145520499440222208 := timerRun_trans t26 s27 (by norm_num)
  have t28 : TimerRun sampleTime48k 0 24001 356802820623174835160673847091624984296030208 := timerRun_trans t27 s28 (by norm_num)
  have t29 : TimerRun sampleTime48k 0 24002 356817707976727626218450369730700124155281408 := timerRun_trans t28 s29 (by norm_num)
  have t30 : TimerRun sampleTime48k 0 47969 713622910576470907948368460444577130828791808 := timerRun_trans t29 s30 (by norm_num)
  have t31 : TimerRun sampleTime48k 0 47970 713637797930023699006144983083652270688043008 := timerRun_trans t30 s31 (by norm_num)
  exact t31

/-- At 44.1 kHz the timer is below `1.f` through 44110 samples. -/
theorem timerRun_44k :
    TimerRun sampleTime44k 0 44110 713415040585578079664500271481262249422618624 := by
  have s0 : TimerRun sampleTime44k 0 1 16181946332381117081730333459656141176832 :=
    timerRun_step _ _ _ (by decide) (by decide!)
  have s1 : TimerRun sampleTime44k 16181946332381117081730333459656141176832 1 32363892664762234163460666919312282353664 :=
    timerRun_step _ _ _ (by decide) (by decide!)
  have s2 : TimerRun sampleTime44k 32363892664762234163460666919312282353664 1 48545836400994921977777186113720258920448 :=
    timerRun_step _ _ _ (by decide) (by decide!)
  have s3 : TimerRun sampleTime44k 48545836400994921977777186113720258920448 1 64727785329524468326921333838624564707328 :=
    timerRun_step _ _ _ (by decide) (by decide!)
  have s4 : TimerRun sampleTime44k 64727785329524468326921333838624564707328 1 80909734258054014676065481563528870494208 :=
    timerRun_step _ _ _ (by decide) (by decide!)
  have s5 : TimerRun sampleTime44k 80909734258054014676065481563528870494208 1 97091683186583561025209629288433176281088 :=
    timerRun_step _ _ _ (by decide) (by decide!)
  have s6 : TimerRun sampleTime44k 97091683186583561025209629288433176281088 4 161819478900701746421786220188050399428608 :=
    timerRun_binade _ _ _ 113 9349589 1558264 7788445287802241442795744493830144 1558265 4 (by decide) (by decide) (by decide)
      (by decide) (by decide) (by decide) (by decide) (by decide) (by decide)
  have s7 : TimerRun sampleTime44k 161819478900701746421786220188050399428608 1 178001427829231292770930367912954705215488 :=
    timerRun_step _ _ _ (by decide) (by decide!)
  have s8 : TimerRun sampleTime44k 178001427829231292770930367912954705215488 10 339820813268589585565819274552071178682368 :=
    timerRun_binade _ _ _ 114 8570457 779132 7788445287802241442795744493830144 779132 10 (by decide) (by decide) (by decide)
      (by decide) (by decide) (by decide) (by decide) (by decide) (by decide)
  have s9 : TimerRun sampleTime44k 339820813268589585565819274552071178682368 1 356002772581712848984618679337968142909440 :=
    timerRun_step _ _ _ (by decide) (by decide!)
  have s10 : TimerRun sampleTime44k 356002772581712848984618679337968142909440 21 695823482004365263853885383280112737189888 :=
    timerRun_binade _ _ _ 115 8570455 389566 7788445287802241442795744493830144 389566 21 (by decide) (by decide) (by decide)
      (by decide) (by decide) (by decide) (by decide) (by decide) (by decide)
  have s11 : TimerRun sampleTime44k 695823482004365263853885383280112737189888 1 712005462086675961411995302187995018297344 :=
    timerRun_step _ _ _ (by decide) (by decide!)
  have s12 : TimerRun sampleTime44k 712005462086675961411995302187995018297344 42 1391646880931980791150528710072284206858240 :=
    timerRun_binade _ _ _ 116 8570454 194783 7788445287802241442795744493830144 194783 42 (by decide) (by decide) (by decide)
      (by decide) (by decide) (by decide) (by decide) (by decide) (by decide)
  have s13 : TimerRun sampleTime44k 1391646880931980791150528710072284206858240 1 1407828902552666356987259657224137121726464 :=
    timerRun_step _ _ _ (by decide) (by decide!)
  have s14 : TimerRun sampleTime44k 1407828902552666356987259657224137121726464 85 2783300740310939453109390165131634885525504 :=
    timerRun_binade _ _ _ 117 8473062 97391 90865195024359483499283685761351680 97392 85 (by decide) (by decide) (by decide)
      (by decide) (by decide) (by decide) (by decide) (by decide) (by decide)
  have s15 : TimerRun sampleTime44k 2783300740310939453109390165131634885525504 1 2799482761931625018946121112283487800393728 :=
    timerRun_step _ _ _ (by decide) (by decide!)
  have s16 : TimerRun sampleTime44k 2799482761931625018946121112283487800393728 171 5566608459068856777027113075250336242860032 :=
    timerRun_binade _ _ _ 118 8424387 48695 257018694497473967612259568296394752 48696 171 (by decide) (by decide) (by decide)
      (by decide) (by decide) (by decide) (by decide) (by decide) (by decide)
  have s17 : TimerRun sampleTime44k 5566608459068856777027113075250336242860032 1 5582790148382543396634875796450424087642112 :=
    timerRun_step _ _ _ (by decide) (by decide!)
  have s18 : TimerRun sampleTime44k 5582790148382543396634875796450424087642112 344 11149405585898378044470321616687826802311168 :=
    timerRun_binade _ _ _ 119 8400049 24347 589325693443702935838211333366480896 24348 344 (by decide) (by decide) (by decide)
      (by decide) (by decide) (by decide) (by decide) (by decide) (by decide)
  have s19 : TimerRun sampleTime44k 11149405585898378044470321616687826802311168 1 11165586942905065717849116111936149577007104 :=
    timerRun_step _ _ _ (by decide) (by decide!)
  have s20 : TimerRun sampleTime44k 11165586942905065717849116111936149577007104 688 22298817817936735013520007752410955006345216 :=
    timerRun_binade _ _ _ 120 8400054 12173 1253939691336160872290114863506653184 12174 688 (by decide) (by decide) (by decide)
      (by decide) (by decide) (by decide) (by decide) (by decide) (by decide)
  have s21 : TimerRun sampleTime44k 22298817817936735013520007752410955006345216 1 22314999839557420579356738699562807921213440 :=
    timerRun_step _ _ _ (by decide) (by decide!)
  have s22 : TimerRun sampleTime44k 22314999839557420579356738699562807921213440 1377 44597643611241444736535252927664271694757888 :=
    timerRun_binade _ _ _ 121 8393970 6086 2583167687121076745193921923786997760 6087 1377 (by decide) (by decide) (by decide)
      (by decide) (by decide) (by decide) (by decide) (by decide) (by decide)
  have s23 : TimerRun sampleTime44k 44597643611241444736535252927664271694757888 1 44613825632862130302371983874816124609626112 :=
    timerRun_step _ _ _ (by decide) (by decide!)
  have s24 : TimerRun sampleTime44k 44613825632862130302371983874816124609626112 2755 89187971151594089296106043301268760372969472 :=
    timerRun_binade _ _ _ 122 8390928 3043 2583167687121076745193921923786997760 3043 2755 (by decide) (by decide) (by decide)
      (by decide) (by decide) (by decide) (by decide) (by decide) (by decide)
  have s25 : TimerRun sampleTime44k 89187971151594089296106043301268760372969472 1 89204150514758783292111028440806492727148544 :=
    timerRun_step _ _ _ (by decide) (by decide!)
  have s26 : TimerRun sampleTime44k 89204150514758783292111028440806492727148544 5511 178397922417326477961086423956086316523847680 :=
    timerRun_binade _ _ _ 123 8388718 1521 7900079670260740236809150164908376064 1522 5511 (by decide) (by decide) (by decide)
      (by decide) (by decide) (by decide) (by decide) (by decide) (by decide)
  have s27 : TimerRun sampleTime44k 178397922417326477961086423956086316523847680 1 178414107097403155096754900710852289999405056 :=
    timerRun_step _ _ _ (by decide) (by decide!)
  have s28 : TimerRun sampleTime44k 178414107097403155096754900710852289999405056 11022 356801650902538544434705691741411937592803328 :=
    timerRun_binade _ _ _ 124 8388991 760 18533903636540067220039606647151132672 761 11022 (by decide) (by decide) (by decide)
      (by decide) (by decide) (by decide) (by decide) (by decide) (by decide)
  have s29 : TimerRun sampleTime44k 356801650902538544434705691741411937592803328 1 356817835582615221570374168496177911068360704 :=
    timerRun_step _ _ _ (by decide) (by decide!)
  have s30 : TimerRun sampleTime44k 356817835582615221570374168496177911068360704 22062 713415040585578079664500271481262249422618624 :=
    timerRun_binade _ _ _ 125 8388747 380 18533903636540067220039606647151132672 380 22062 (by decide) (by decide) (by decide)
      (by decide) (by decide) (by decide) (by decide) (by decide) (by decide)
  have t1 : TimerRun sampleTime44k 0 2 32363892664762234163460666919312282353664 := timerRun_trans s0 s1 (by norm_num)
  have t2 : TimerRun sampleTime44k 0 3 48545836400994921977777186113720258920448 := timerRun_trans t1 s2 (by norm_num)
  have t3 : TimerRun sampleTime44k 0 4 64727785329524468326921333838624564707328 := timerRun_trans t2 s3 (by norm_num)
  have t4 : TimerRun sampleTime44k 0 5 80909734258054014676065481563528870494208 := timerRun_trans t3 s4 (by norm_num)
  have t5 : TimerRun sampleTime44k 0 6 97091683186583561025209629288433176281088 := timerRun_trans t4 s5 (by norm_num)
  have t6 : TimerRun sampleTime44k 0 10 161819478900701746421786220188050399428608 := timerRun_trans t5 s6 (by norm_num)
  have t7 : TimerRun sampleTime44k 0 11 178001427829231292770930367912954705215488 := timerRun_trans t6 s7 (by norm_num)
  have t8 : TimerRun sampleTime44k 0 21 339820813268589585565819274552071178682368 := timerRun_trans t7 s8 (by norm_num)
  have t9 : TimerRun sampleTime44k 0 22 356002772581712848984618679337968142909440 := timerRun_trans t8 s9 (by norm_num)
  have t10 : TimerRun sampleTime44k 0 43 695823482004365263853885383280112737189888 := timerRun_trans t9 s10 (by norm_num)
  have t11 : TimerRun sampleTime44k 0 44 712005462086675961411995302187995018297344 := timerRun_trans t10 s11 (by norm_num)
  have t12 : TimerRun sampleTime44k 0 86 1391646880931980791150528710072284206858240 := timerRun_trans t11 s12 (by norm_num)
  have t13 : TimerRun sampleTime44k 0 87 1407828902552666356987259657224137121726464 := timerRun_trans t12 s13 (by norm_num)
  have t14 : TimerRun sampleTime44k 0 172 2783300740310939453109390165131634885525504 := timerRun_trans t13 s14 (by norm_num)
  have t15 : TimerRun sampleTime44k 0 173 2799482761931625018946121112283487800393728 := timerRun_trans t14 s15 (by norm_num)
  have t16 : TimerRun sampleTime44k 0 344 5566608459068856777027113075250336242860032 := timerRun_trans t15 s16 (by norm_num)
  have t17 : TimerRun sampleTime44k 0 345 5582790148382543396634875796450424087642112 := timerRun_trans t16 s17 (by norm_num)
  have t18 : TimerRun sampleTime44k 0 689 11149405585898378044470321616687826802311168 := timerRun_trans t17 s18 (by norm_num)
  have t19 : TimerRun sampleTime44k 0 690 11165586942905065717849116111936149577007104 := timerRun_trans t18 s19 (by norm_num)
  have t20 : TimerRun sampleTime44k 0 1378 22298817817936735013520007752410955006345216 := timerRun_trans t19 s20 (by norm_num)
  have t21 : TimerRun sampleTime44k 0 1379 22314999839557420579356738699562807921213440 := timerRun_trans t20 s21 (by norm_num)
  have t22 : TimerRun sampleTime44k 0 2756 44597643611241444736535252927664271694757888 := timerRun_trans t21 s22 (by norm_num)
  have t23 : TimerRun sampleTime44k 0 2757 44613825632862130302371983874816124609626112 := timerRun_trans t22 s23 (by norm_num)
  have t24 : TimerRun sampleTime44k 0 5512 89187971151594089296106043301268760372969472 := timerRun_trans t23 s24 (by norm_num)
  have t25 : TimerRun sampleTime44k 0 5513 89204150514758783292111028440806492727148544 := timerRun_trans t24 s25 (by norm_num)
  have t26 : TimerRun sampleTime44k 0 11024 178397922417326477961086423956086316523847680 := timerRun_trans t25 s26 (by norm_num)
  have t27 : TimerRun sampleTime44k 0 11025 178414107097403155096754900710852289999405056 := timerRun_trans t26 s27 (by norm_num)
  have t28 : TimerRun sampleTime44k 0 22047 356801650902538544434705691741411937592803328 := timerRun_trans t27 s28 (by norm_num)
  have t29 : TimerRun sampleTime44k 0 22048 356817835582615221570374168496177911068360704 := timerRun_trans t28 s29 (by norm_num)
  have t30 : TimerRun sampleTime44k 0 44110 713415040585578079664500271481262249422618624 := timerRun_trans t29 s30 (by norm_num)
  exact t30

/-- C9 as stated fails on the timer of the code. At 48 kHz a press of 47980
samples has `n * dt < 1`, yet `LONG_PRESS` is emitted, at sample 47970, and the
release emits nothing. At 44.1 kHz a press of 44110 samples has `n * dt ≥ 1`,
yet no `LONG_PRESS` is emitted and the release emits `SHORT_PRESS`. -/
theorem longPress_rounding :
    ((47980 : Int) * sampleTime48k < float32One ∧
      (LongPressButton.run sampleTime48k LongPressButton.idle
          (List.replicate 47980 1 ++ [0])).2 =
        List.replicate 47969 Events.NO_PRESS ++ Events.LONG_PRESS ::
          (List.replicate 10 Events.NO_PRESS ++ [Events.NO_PRESS])) ∧
    (float32One ≤ (44110 : Int) * sampleTime44k ∧
      (LongPressButton.run sampleTime44k LongPressButton.idle
          (List.replicate 44110 1 ++ [0])).2 =
        List.replicate 44110 Events.NO_PRESS ++ [Events.SHORT_PRESS]) := by
  have hpos : ∀ (n : Nat) (v : ℚ), v ∈ List.replicate n (1 : ℚ) → 0 < v := by
    intro n v hv
    rw [(List.mem_replicate.1 hv).2]
    exact zero_lt_one
  refine ⟨⟨by decide, ?_⟩, ⟨by decide, ?_⟩⟩
  · have h := run_press_long sampleTime48k (by decide) (List.replicate 47980 1)
      (hpos 47980) 0 (le_refl _) 47970 (by decide) (by rw [List.length_replicate]; decide)
      timerRun_48k.2 (by rw [timerRun_48k.1]; decide)
    rw [List.length_replicate] at h
    rw [h]
  · have h := run_press_short sampleTime44k (by decide) (List.replicate 44110 1)
      (by intro e; have := congrArg List.length e; rw [List.length_replicate] at this; cases this)
      (hpos 44110) 0 (le_refl _)
      (by
        rw [List.length_replicate]
        intro j hj
        rcases Nat.lt_or_ge j 44110 with hlt | hge
        · exact timerRun_44k.2 j hlt
        · have e : j = 44110 := by omega
          rw [e, timerRun_44k.1]
          decide)
    rw [List.length_replicate] at h
    rw [h]

/-- A conversion to `int` leaves an integer of the range of `int` as it is. -/
theorem wrapInt32_of_inRange (n : Int) (h : -2147483648 ≤ n ∧ n < 2147483648) :
    wrapInt32 n = n := by
  unfold wrapInt32
  omega

/-- The remainder by 3 lies strictly between -3 and 3. -/
theorem cRem_three_bound (a : Int) : -3 < cRem a 3 ∧ cRem a 3 < 3 := by
  unfold cRem
  split <;> omega

/-- Two segment types with the same integer are equal. -/
theorem SegmentType.eq_of_val {a b : SegmentType} (h : a.val = b.val) : a = b := by
  cases a
  cases b
  simp only at h
  subst h
  rfl

/-- Casting the integer of a segment type gives that type back. -/
theorem SegmentType.ofInt_val (t : SegmentType) : SegmentType.ofInt t.val = t :=
  SegmentType.eq_of_val (wrapInt32_of_inRange t.val t.inRange)

/-- The integer of the type that `toggleMode` stores. -/
theorem toggleMode_type_val (s : Stages) (i : Nat) :
    ((s.toggleMode i).configurations i).type.val =
      cRem (wrapInt32 ((s.configurations i).type.val + 1)) 3 := by
  have hb := cRem_three_bound (wrapInt32 ((s.configurations i).type.val + 1))
  simp only [Stages.toggleMode, setAt_same, SegmentType.ofInt]
  exact wrapInt32_of_inRange _ (by omega)

/-- C10 (frame of `toggleMode`). For every index `i` (the callers pass a
channel), `toggleMode(i)` sets the type of channel `i` to the C value of
`(type + 1) % 3`, which is `(type + 1) mod 3` for every type that is not
negative (and below `INT_MAX`), so RAMP, STEP, HOLD, RAMP on the enum; it sets
the dirty flag of `i`; and it changes nothing else: no loop
flag, not `abLoop`, no record or dirty flag of another channel, nor the
builder, the generators or the buffers. Applied three times to a type of the
enum (`0 ≤ type < 3`) it restores that type. -/
theorem toggleMode_frame (s : Stages) (i : Nat) :
    ((s.toggleMode i).configurations i).type.val =
      cRem (wrapInt32 ((s.configurations i).type.val + 1)) 3 ∧
    (0 ≤ (s.configurations i).type.val → (s.configurations i).type.val < 2147483647 →
      ((s.toggleMode i).configurations i).type.val =
        ((s.configurations i).type.val + 1) % 3) ∧
    (s.toggleMode i).configuration_changed i = true ∧
    (∀ k, ((s.toggleMode i).configurations k).loop = (s.configurations k).loop) ∧
    (s.toggleMode i).abLoop = s.abLoop ∧
    (∀ k, k ≠ i → (s.toggleMode i).configurations k = s.configurations k ∧
      (s.toggleMode i).configuration_changed k = s.configuration_changed k) ∧
    (s.toggleMode i).groupBuilder = s.groupBuilder ∧
    (s.toggleMode i).num_segments = s.num_segments ∧
    (s.toggleMode i).envelopeBuffer = s.envelopeBuffer ∧
    (s.toggleMode i).configureCalls = s.configureCalls ∧
    (0 ≤ (s.configurations i).type.val ∧ (s.configurations i).type.val < 3 →
      ((((s.toggleMode i).toggleMode i).toggleMode i).configurations i).type =
        (s.configurations i).type) := by
  have hmod : ∀ (t : Stages), 0 ≤ (t.configurations i).type.val →
      (t.configurations i).type.val < 2147483647 →
      ((t.toggleMode i).configurations i).type.val =
        ((t.configurations i).type.val + 1) % 3 := by
    intro t h0 h1
    rw [toggleMode_type_val, wrapInt32_of_inRange _ (by omega)]
    unfold cRem
    rw [if_pos (by omega)]
  refine ⟨toggleMode_type_val s i, hmod s, by simp [Stages.toggleMode], ?_, rfl, ?_, rfl, rfl,
    rfl, rfl, ?_⟩
  · intro k
    by_cases hk : k = i
    · subst hk; simp [Stages.toggleMode]
    · simp [Stages.toggleMode, setAt_ne _ _ hk]
  · intro k hk
    simp [Stages.toggleMode, setAt_ne _ _ hk]
  · rintro ⟨h0, h3⟩
    apply SegmentType.eq_of_val
    have e1 := hmod s h0 (by omega)
    have e2 := hmod (s.toggleMode i) (by omega) (by omega)
    have e3 := hmod ((s.toggleMode i).toggleMode i) (by omega) (by omega)
    omega

/-! ## stepBlock: one group -/

/-- The scan of a group changes the dirty flags only. -/
theorem scanGroupLoop_frame (i : Nat) (ch : Bool) (s : Stages) :
    ∀ n, (scanGroupLoop i ch s n).1.configurations = s.configurations ∧
      (scanGroupLoop i ch s n).1.num_segments = s.num_segments ∧
      (scanGroupLoop i ch s n).1.groupBuilder = s.groupBuilder ∧
      (scanGroupLoop i ch s n).1.abLoop = s.abLoop ∧
      (scanGroupLoop i ch s n).1.envelopeBuffer = s.envelopeBuffer ∧
      (scanGroupLoop i ch s n).1.configureCalls = s.configureCalls := by
  intro n
  induction n with
  | zero => exact ⟨rfl, rfl, rfl, rfl, rfl, rfl⟩
  | succ n ih =>
    simp only [scanGroupLoop]
    exact ih

/-- The scan clears the dirty flags of the run and no other. -/
theorem scanGroupLoop_changed (i : Nat) (ch : Bool) (s : Stages) :
    ∀ n x, (scanGroupLoop i ch s n).1.configuration_changed x =
      if i ≤ x ∧ x < i + n then false else s.configuration_changed x := by
  intro n
  induction n with
  | zero => intro x; rw [if_neg (by omega)]; rfl
  | succ n ih =>
    intro x
    simp only [scanGroupLoop]
    by_cases hx : x = i + n
    · subst hx
      rw [setAt_same, if_pos ⟨by omega, by omega⟩]
    · rw [setAt_ne _ _ hx, ih]
      by_cases h2 : i ≤ x ∧ x < i + n
      · rw [if_pos h2, if_pos ⟨h2.1, by omega⟩]
      · rw [if_neg h2, if_neg (by omega)]

/-- `segment_changed` after the scan: the groups changed or a channel of the
run was dirty. -/
theorem scanGroupLoop_flag (i : Nat) (ch : Bool) (s : Stages) :
    ∀ n, ((scanGroupLoop i ch s n).2.1 = true ↔
      (ch = true ∨ ∃ j, j < n ∧ s.configuration_changed (i + j) = true)) := by
  intro n
  induction n with
  | zero => simp [scanGroupLoop]
  | succ n ih =>
    simp only [scanGroupLoop, Bool.or_eq_true]
    rw [ih, scanGroupLoop_changed, if_neg (by omega)]
    constructor
    · rintro ((h | ⟨j, hj, h⟩) | h)
      · exact Or.inl h
      · exact Or.inr ⟨j, by omega, h⟩
      · exact Or.inr ⟨n, by omega, h⟩
    · rintro (h | ⟨j, hj, h⟩)
      · exact Or.inl (Or.inl h)
      · by_cases hjn : j < n
        · exact Or.inl (Or.inr ⟨j, hjn, h⟩)
        · have : j = n := by omega
          subst this
          exact Or.inr h

/-- `numberOfLoops` after the scan is the count of the run. -/
theorem scanGroupLoop_count (i : Nat) (ch : Bool) (s : Stages) :
    ∀ n, (scanGroupLoop i ch s n).2.2 = countLoopsLoop s.configurations i n := by
  intro n
  induction n with
  | zero => rfl
  | succ n ih =>
    simp only [scanGroupLoop, countLoopsLoop]
    rw [ih, (scanGroupLoop_frame i ch s n).1]

/-- A group pass leaves the builder and `abLoop` alone. -/
theorem stepBlockGroup_groupBuilder (ch : Bool) (out : Nat → Output) (s : Stages) (i : Nat) :
    (stepBlockGroup ch out s i).groupBuilder = s.groupBuilder ∧
      (stepBlockGroup ch out s i).abLoop = s.abLoop := by
  unfold stepBlockGroup
  simp only
  have h := scanGroupLoop_frame i ch s (max 1 (s.groupBuilder.groupSize i))
  split
  · split
    · exact ⟨h.2.2.1, h.2.2.2.1⟩
    · exact ⟨h.2.2.1, h.2.2.2.1⟩
  · exact ⟨h.2.2.1, h.2.2.2.1⟩

/-- A group pass clears the dirty flags of its run and no other. -/
theorem stepBlockGroup_changed (ch : Bool) (out : Nat → Output) (s : Stages) (i x : Nat) :
    (stepBlockGroup ch out s i).configuration_changed x =
      if i ≤ x ∧ x < i + max 1 (s.groupBuilder.groupSize i) then false
      else s.configuration_changed x := by
  rw [← scanGroupLoop_changed i ch s]
  unfold stepBlockGroup
  simp only
  split
  · split <;> rfl
  · rfl

/-- The records after one group pass: cleared loop flags when the group is
reconfigured with more than 2 loop points, untouched otherwise. -/
theorem stepBlockGroup_configurations (ch : Bool) (out : Nat → Output) (s : Stages) (i : Nat) :
    (stepBlockGroup ch out s i).configurations =
      if (ch = true ∨ ∃ j, j < max 1 (s.groupBuilder.groupSize i) ∧
            s.configuration_changed (i + j) = true) ∧
          2 < countLoopsLoop s.configurations i (max 1 (s.groupBuilder.groupSize i)) then
        clearLoopsLoop i (max 1 (s.groupBuilder.groupSize i)) s.configurations
      else s.configurations := by
  have hf := scanGroupLoop_frame i ch s (max 1 (s.groupBuilder.groupSize i))
  have hflag := scanGroupLoop_flag i ch s (max 1 (s.groupBuilder.groupSize i))
  have hcnt := scanGroupLoop_count i ch s (max 1 (s.groupBuilder.groupSize i))
  unfold stepBlockGroup
  simp only
  by_cases h1 : (scanGroupLoop i ch s (max 1 (s.groupBuilder.groupSize i))).2.1 = true
  · rw [if_pos h1]
    by_cases h2 : (scanGroupLoop i ch s (max 1 (s.groupBuilder.groupSize i))).2.2 > 2
    · rw [if_pos h2, if_pos ⟨hflag.1 h1, by rw [← hcnt]; exact h2⟩]
      simp only [Stages.Configure, hf.1, hf.2.2.1]
    · rw [if_neg h2, if_neg (by rw [← hcnt]; exact fun h => h2 h.2)]
      simp only [Stages.Configure, hf.1]
  · rw [if_neg h1, if_neg (fun h => h1 (hflag.2 h.1))]
    exact hf.1

/-- `num_segments()` after one group pass: set to the size of the run when the
group is reconfigured, untouched otherwise. -/
theorem stepBlockGroup_num_segments (ch : Bool) (out : Nat → Output) (s : Stages) (i : Nat) :
    (stepBlockGroup ch out s i).num_segments =
      if (ch = true ∨ ∃ j, j < max 1 (s.groupBuilder.groupSize i) ∧
            s.configuration_changed (i + j) = true) then
        setAt s.num_segments i (max 1 (s.groupBuilder.groupSize i))
      else s.num_segments := by
  have hf := scanGroupLoop_frame i ch s (max 1 (s.groupBuilder.groupSize i))
  have hflag := scanGroupLoop_flag i ch s (max 1 (s.groupBuilder.groupSize i))
  unfold stepBlockGroup
  simp only
  by_cases h1 : (scanGroupLoop i ch s (max 1 (s.groupBuilder.groupSize i))).2.1 = true
  · rw [if_pos h1, if_pos (hflag.1 h1)]
    split
    · simp only [Stages.Configure, hf.2.1, hf.2.2.1]
    · simp only [Stages.Configure, hf.2.1, hf.2.2.1]
  · rw [if_neg h1, if_neg (fun h => h1 (hflag.2 h))]
    exact hf.2.1

/-! ## Facts on the group structure -/

/-- A leader is a channel below 6. -/
theorem GroupsOK.leader_lt {gs : Nat → Nat} (ok : GroupsOK gs) {k : Nat}
    (hk : k < NUM_CHANNELS) : leaderOf gs k < NUM_CHANNELS :=
  lt_of_le_of_lt (ok.le k hk) hk

/-- The leader of a leader is itself. -/
theorem GroupsOK.leader_idem {gs : Nat → Nat} (ok : GroupsOK gs) {k : Nat}
    (hk : k < NUM_CHANNELS) : leaderOf gs (leaderOf gs k) = leaderOf gs k := by
  have h1 := ok.lt k hk
  have h2 := ok.le k hk
  exact ok.same k hk (leaderOf gs k) (ok.leader_lt hk) (le_refl _) (by omega)

/-- The run of a leader `i` and the run of another leader do not meet. -/
theorem GroupsOK.disjoint {gs : Nat → Nat} (ok : GroupsOK gs) {i k : Nat}
    (hi : i < NUM_CHANNELS) (hli : leaderOf gs i = i) (hk : k < NUM_CHANNELS)
    (hne : leaderOf gs k ≠ i) (x : Nat) (hx1 : leaderOf gs k ≤ x)
    (hx2 : x < leaderOf gs k + max 1 (gs (leaderOf gs k))) :
    ¬ (i ≤ x ∧ x < i + max 1 (gs i)) := by
  rintro ⟨h1, h2⟩
  have hfit := ok.fits k hk
  have hx6 : x < NUM_CHANNELS := by omega
  have e1 := ok.same k hk x hx6 hx1 hx2
  have e2 := ok.same i hi x hx6 (by rw [hli]; exact h1) (by rw [hli]; exact h2)
  rw [hli] at e2
  exact hne (e1.symm.trans e2)

/-- A leader below the end of the run of the leader `i` is at most `i`. -/
theorem GroupsOK.leader_le_of_lt_end {gs : Nat → Nat} (ok : GroupsOK gs) {i k : Nat}
    (hi : i < NUM_CHANNELS) (hli : leaderOf gs i = i) (hk : k < NUM_CHANNELS)
    (h : leaderOf gs k < i + max 1 (gs i)) : leaderOf gs k ≤ i := by
  by_contra hgt
  have hl6 := ok.leader_lt hk
  have e := ok.same i hi (leaderOf gs k) hl6 (by rw [hli]; omega) (by rw [hli]; exact h)
  rw [ok.leader_idem hk, hli] at e
  omega

/-- The channel after the run of a leader is a leader, unless it is the end. -/
theorem GroupsOK.next_leader {gs : Nat → Nat} (ok : GroupsOK gs) {i : Nat}
    (hi : i < NUM_CHANNELS) (hli : leaderOf gs i = i)
    (h : i + max 1 (gs i) < NUM_CHANNELS) :
    leaderOf gs (i + max 1 (gs i)) = i + max 1 (gs i) := by
  have hle := ok.le _ h
  have hlt := ok.lt _ h
  by_contra hne
  have hl : leaderOf gs (i + max 1 (gs i)) ≤ i :=
    ok.leader_le_of_lt_end hi hli h (by omega)
  have hpos : 1 ≤ max 1 (gs i) := le_max_left _ _
  have e := ok.same _ h i hi hl (by omega)
  rw [hli] at e
  rw [← e] at hlt
  omega

/-- Channel 0 leads its group. -/
theorem GroupsOK.leader_zero {gs : Nat → Nat} (ok : GroupsOK gs) : leaderOf gs 0 = 0 := by
  have := ok.le 0 (by decide)
  omega

/-! ## The block invariant under changes outside a group -/

/-- A done group stays done when its run and its generator are not touched. -/
theorem groupDone_congr {s s1 : Stages} {g : Nat} (h : GroupDone s g)
    (hgb : s1.groupBuilder = s.groupBuilder)
    (hcfg : ∀ j, j < max 1 (s.groupBuilder.groupSize g) →
      (s1.configurations (g + j)).loop = (s.configurations (g + j)).loop)
    (hcc : ∀ j, j < max 1 (s.groupBuilder.groupSize g) →
      s1.configuration_changed (g + j) = s.configuration_changed (g + j))
    (hns : s1.num_segments g = s.num_segments g) : GroupDone s1 g := by
  obtain ⟨h1, h2, h3⟩ := h
  unfold GroupDone Stages.loopsInGroup at *
  rw [hgb, hns]
  refine ⟨?_, ?_, h3⟩
  · rw [countLoopsLoop_congr s1.configurations s.configurations g _ hcfg]
    exact h1
  · intro j hj
    rw [hcc j hj]; exact h2 j hj

/-- A group stays fit when its loop flags and its generator are not touched
and none of its dirty flags is cleared. -/
theorem groupTodo_congr {ch : Bool} {s s1 : Stages} {g : Nat} (h : GroupTodo ch s g)
    (hgb : s1.groupBuilder = s.groupBuilder)
    (hcfg : ∀ j, j < max 1 (s.groupBuilder.groupSize g) →
      (s1.configurations (g + j)).loop = (s.configurations (g + j)).loop)
    (hcc : ∀ j, j < max 1 (s.groupBuilder.groupSize g) →
      s.configuration_changed (g + j) = true → s1.configuration_changed (g + j) = true)
    (hns : s1.num_segments g = s.num_segments g) : GroupTodo ch s1 g := by
  unfold GroupTodo Stages.loopsInGroup at *
  rw [hgb, hns]
  rcases h with h | ⟨h1, h2⟩
  · exact Or.inl h
  · refine Or.inr ⟨?_, ?_⟩
    · rw [countLoopsLoop_congr s1.configurations s.configurations g _ hcfg]
      exact h1
    · rcases h2 with ⟨j, hj, hd⟩ | h2
      · exact Or.inl ⟨j, hj, hcc j hj hd⟩
      · exact Or.inr h2

/-! ## stepBlock: the walk -/

/-- One group pass at a group start `i` configures or finds configured the
generator of `i` for the size of the run, and hands the walk invariant on to
the channel after the run. -/
theorem stepBlockGroup_walk (ch : Bool) (out : Nat → Output) (s : Stages) (i : Nat)
    (hi : i < NUM_CHANNELS) (w : WalkInv ch i s) :
    (stepBlockGroup ch out s i).num_segments i = max 1 (s.groupBuilder.groupSize i) ∧
      WalkInv ch (i + max 1 (s.groupBuilder.groupSize i)) (stepBlockGroup ch out s i) := by
  have hli : leaderOf s.groupBuilder.groupSize i = i := by
    rcases w.head with h | h
    · omega
    · exact h.2
  have hgb := (stepBlockGroup_groupBuilder ch out s i).1
  have hcfg := stepBlockGroup_configurations ch out s i
  have hns := stepBlockGroup_num_segments ch out s i
  have hcc := stepBlockGroup_changed ch out s i
  have htodo := w.todo i hi (by rw [hli])
  rw [hli] at htodo
  have hfit := w.ok.fits i hi
  rw [hli] at hfit
  -- the generator of `i`
  have hnum : (stepBlockGroup ch out s i).num_segments i =
      max 1 (s.groupBuilder.groupSize i) := by
    rw [hns]
    by_cases hflag : ch = true ∨ ∃ j, j < max 1 (s.groupBuilder.groupSize i) ∧
        s.configuration_changed (i + j) = true
    · rw [if_pos hflag, setAt_same]
    · rw [if_neg hflag]
      rcases htodo with h | ⟨_, h | h⟩
      · exact absurd (Or.inl h) hflag
      · exact absurd (Or.inr h) hflag
      · exact h
  -- the loop points of the group of `i`
  have hloops : (stepBlockGroup ch out s i).loopsInGroup i ≤ 2 := by
    unfold Stages.loopsInGroup
    rw [hgb, hcfg]
    by_cases hflag : ch = true ∨ ∃ j, j < max 1 (s.groupBuilder.groupSize i) ∧
        s.configuration_changed (i + j) = true
    · by_cases hc : 2 < countLoopsLoop s.configurations i (max 1 (s.groupBuilder.groupSize i))
      · rw [if_pos ⟨hflag, hc⟩, countLoopsLoop_zero]
        · omega
        · intro j hj
          rw [clearLoopsLoop_apply, if_pos ⟨by omega, by omega⟩]
      · rw [if_neg (fun h => hc h.2)]
        omega
    · rw [if_neg (fun h => hflag h.1)]
      rcases htodo with h | ⟨h, _⟩
      · exact absurd (Or.inl h) hflag
      · exact h
  -- groups other than that of `i` are not touched
  have hother_cfg : ∀ x, ¬ (i ≤ x ∧ x < i + max 1 (s.groupBuilder.groupSize i)) →
      (stepBlockGroup ch out s i).configurations x = s.configurations x := by
    intro x hx
    rw [hcfg]
    split
    · rw [clearLoopsLoop_apply, if_neg hx]
    · rfl
  have hother_ns : ∀ g, g ≠ i → (stepBlockGroup ch out s i).num_segments g = s.num_segments g := by
    intro g hg
    rw [hns]
    split
    · rw [setAt_ne _ _ hg]
    · rfl
  refine ⟨hnum, ?_⟩
  constructor
  · rw [hgb]; exact w.ok
  · rw [hgb]
    by_cases hend : i + max 1 (s.groupBuilder.groupSize i) = NUM_CHANNELS
    · exact Or.inl hend
    · have hlt : i + max 1 (s.groupBuilder.groupSize i) < NUM_CHANNELS := by omega
      exact Or.inr ⟨hlt, w.ok.next_leader hi hli hlt⟩
  · intro k hk hlk
    rw [hgb] at hlk ⊢
    have hle := w.ok.leader_le_of_lt_end hi hli hk hlk
    by_cases heq : leaderOf s.groupBuilder.groupSize k = i
    · rw [heq]
      refine ⟨hloops, ?_, ?_⟩
      · intro j hj
        rw [hgb] at hj
        rw [hcc, if_pos ⟨by omega, by omega⟩]
      · rw [hgb]; exact hnum
    · have hdis := w.ok.disjoint hi hli hk heq
      refine groupDone_congr (w.done k hk (by omega)) hgb ?_ ?_ (hother_ns _ heq)
      · intro j hj
        rw [hother_cfg _ (hdis _ (by omega) (by omega))]
      · intro j hj
        rw [hcc, if_neg (hdis _ (by omega) (by omega))]
  · intro k hk hlk
    rw [hgb] at hlk ⊢
    have hpos : 1 ≤ max 1 (s.groupBuilder.groupSize i) := le_max_left _ _
    have heq : leaderOf s.groupBuilder.groupSize k ≠ i := by omega
    have hdis := w.ok.disjoint hi hli hk heq
    refine groupTodo_congr (w.todo k hk (by omega)) hgb ?_ ?_ (hother_ns _ heq)
    · intro j hj
      rw [hother_cfg _ (hdis _ (by omega) (by omega))]
    · intro j hj hd
      rw [hcc, if_neg (hdis _ (by omega) (by omega))]
      exact hd

/-- From a group start the walk of `stepBlock` returns, within the passes left
to reach channel 6, with every group done. -/
theorem stepBlockLoop_walk (ch : Bool) (outs : Nat → Nat → Output) :
    ∀ (fuel i : Nat) (s : Stages), WalkInv ch i s → NUM_CHANNELS ≤ i + fuel →
      ∃ s2, stepBlockLoop ch outs fuel i s = some s2 ∧ WalkInv ch NUM_CHANNELS s2 ∧
        s2.groupBuilder = s.groupBuilder ∧ s2.abLoop = s.abLoop := by
  intro fuel
  induction fuel with
  | zero =>
    intro i s w hfuel
    have hi : i = NUM_CHANNELS := by
      rcases w.head with h | h
      · exact h
      · omega
    subst hi
    exact ⟨s, by simp [stepBlockLoop], w, rfl, rfl⟩
  | succ fuel ih =>
    intro i s w hfuel
    rcases w.head with h | h
    · subst h
      exact ⟨s, by simp [stepBlockLoop], w, rfl, rfl⟩
    · obtain ⟨hnum, w2⟩ := stepBlockGroup_walk ch (outs i) s i h.1 w
      have hpos : 1 ≤ max 1 (s.groupBuilder.groupSize i) := le_max_left _ _
      obtain ⟨s2, hrun, w3, hgb, hab⟩ :=
        ih (i + max 1 (s.groupBuilder.groupSize i)) _ w2 (by omega)
      refine ⟨s2, ?_, w3, ?_, ?_⟩
      · simp only [stepBlockLoop, h.1, if_true]
        rw [hnum]
        exact hrun
      · rw [hgb]; exact (stepBlockGroup_groupBuilder ch (outs i) s i).1
      · rw [hab]; exact (stepBlockGroup_groupBuilder ch (outs i) s i).2

/-! ## The block invariant is kept by every operation -/

/-- When `buildGroups` reports no change the stored sizes are the old ones. -/
theorem buildGroups_unchanged (gb : GroupBuilder) (inputs : Nat → Bool) (first : Nat)
    (h : (gb.buildGroups inputs first NUM_CHANNELS).2 = false) :
    (gb.buildGroups inputs first NUM_CHANNELS).1.groupSize = gb.groupSize := by
  funext k
  by_cases hk : k < NUM_CHANNELS
  · by_contra hne
    have := (buildGroups_changed_iff gb inputs first).2 ⟨k, hk, hne⟩
    rw [h] at this
    exact Bool.noConfusion this
  · exact buildGroups_size_out gb inputs first k (by omega)

/-- After `buildGroups` the walk of `stepBlock` starts at channel 0 with its
invariant. -/
theorem stepBlock_walkInv (s : Stages) (inputs : Nat → Bool) (h : BlockInv s) :
    WalkInv (s.groupBuilder.buildGroups inputs GATE_INPUTS NUM_CHANNELS).2 0
      { s with groupBuilder := (s.groupBuilder.buildGroups inputs GATE_INPUTS NUM_CHANNELS).1 } := by
  have hok := buildGroups_groupsOK s.groupBuilder inputs GATE_INPUTS
  constructor
  · exact hok
  · exact Or.inr ⟨by decide, hok.leader_zero⟩
  · intro k _ hlt
    omega
  · intro k hk _
    cases hch : (s.groupBuilder.buildGroups inputs GATE_INPUTS NUM_CHANNELS).2 with
    | true => exact Or.inl rfl
    | false =>
      have hgs := buildGroups_unchanged s.groupBuilder inputs GATE_INPUTS hch
      have := h.2 k hk
      unfold GroupTodo Stages.loopsInGroup at this ⊢
      simp only [hgs]
      exact this

/-- A block step from a state with the block invariant returns, and gives a
state with the block invariant and the same `abLoop`. -/
theorem stepBlock_blockInv (s : Stages) (inputs : Nat → Bool) (outs : Nat → Nat → Output)
    (h : BlockInv s) :
    ∃ s2, s.stepBlock inputs outs = some s2 ∧ BlockInv s2 ∧ s2.abLoop = s.abLoop := by
  obtain ⟨s2, hrun, w2, _, hab⟩ :=
    stepBlockLoop_walk _ outs NUM_CHANNELS 0 _ (stepBlock_walkInv s inputs h) (by omega)
  refine ⟨s2, hrun, ⟨w2.ok, ?_⟩, hab⟩
  intro k hk
  obtain ⟨h1, _, h3⟩ := w2.done k hk (w2.ok.leader_lt hk)
  exact Or.inr ⟨h1, Or.inr h3⟩

/-- Under the walk invariant the passes of `stepBlock` are the group starts,
each left with the stride `max(1, groupSize[i])`. -/
theorem stepBlockStops_walk (ch : Bool) (outs : Nat → Nat → Output) :
    ∀ (fuel i : Nat) (s : Stages), WalkInv ch i s →
      stepBlockStops ch outs fuel i s =
        (groupStartsLoop s.groupBuilder.groupSize fuel i).map
          (fun g => (g, max 1 (s.groupBuilder.groupSize g))) := by
  intro fuel
  induction fuel with
  | zero => intro i s _; rfl
  | succ fuel ih =>
    intro i s w
    simp only [stepBlockStops, groupStartsLoop]
    by_cases hi : i < NUM_CHANNELS
    · obtain ⟨hnum, w2⟩ := stepBlockGroup_walk ch (outs i) s i hi w
      simp only [hi, if_true, List.map_cons]
      rw [hnum, ih _ _ w2, (stepBlockGroup_groupBuilder ch (outs i) s i).1]
    · simp only [hi, if_false, List.map_nil]

/-- The block invariant gives the loop invariant. -/
theorem BlockInv.loopInv {s : Stages} (h : BlockInv s) : LoopInv s := by
  refine ⟨h.1, ?_⟩
  intro k hk
  rcases h.2 k hk with h1 | h1
  · exact Bool.noConfusion h1
  · exact h1.1

/-- `toggleLoop` keeps the block invariant. -/
theorem toggleLoop_blockInv (s : Stages) (i : Nat) (hi : i < NUM_CHANNELS) (h : BlockInv s) :
    BlockInv (s.toggleLoop i) := by
  have hl := toggleLoop_loopInv s i hi h.loopInv
  refine ⟨hl.1, ?_⟩
  intro k hk
  refine Or.inr ⟨hl.2 k hk, ?_⟩
  rw [toggleLoop_groupBuilder, toggleLoop_changed, toggleLoop_num_segments]
  rcases h.2 k hk with h1 | ⟨_, ⟨j, hj, hd⟩ | h1⟩
  · exact Bool.noConfusion h1
  · refine Or.inl ⟨j, hj, ?_⟩
    rw [setAt_apply]
    split
    · rfl
    · exact hd
  · exact Or.inr h1

/-- `toggleMode` keeps the block invariant. -/
theorem toggleMode_blockInv (s : Stages) (i : Nat) (h : BlockInv s) :
    BlockInv (s.toggleMode i) := by
  refine ⟨h.1, ?_⟩
  intro k hk
  refine groupTodo_congr (h.2 k hk) rfl ?_ ?_ rfl
  · intro j _
    simp only [Stages.toggleMode, setAt_apply]
    split
    · rename_i e; rw [e]
    · rfl
  · intro j _ hd
    simp only [Stages.toggleMode, setAt_apply]
    split
    · rfl
    · exact hd

/-- Arming A/B loop mode keeps the block invariant. -/
theorem setABLoop_blockInv (s : Stages) (h : BlockInv s) : BlockInv s.setABLoop := h

/-- The records, dirty flags and builder after the loop of `onReset`. -/
theorem onResetLoop_spec (init : Nat → Nat) :
    ∀ (n : Nat) (s : Stages),
      (onResetLoop init n s).groupBuilder = s.groupBuilder ∧
      (∀ k, k < n → (onResetLoop init n s).configurations k =
        { type := TYPE_RAMP, loop := false }) ∧
      (∀ k, k < n → (onResetLoop init n s).configuration_changed k = true) := by
  intro n
  induction n with
  | zero => intro s; exact ⟨rfl, fun k hk => by omega, fun k hk => by omega⟩
  | succ n ih =>
    intro s
    obtain ⟨h1, h2, h3⟩ := ih s
    simp only [onResetLoop]
    refine ⟨h1, ?_, ?_⟩
    · intro k hk
      by_cases hkn : k = n
      · subst hkn; rw [setAt_same]
      · rw [setAt_ne _ _ hkn]; exact h2 k (by omega)
    · intro k hk
      by_cases hkn : k = n
      · subst hkn; rw [setAt_same]
      · rw [setAt_ne _ _ hkn]; exact h3 k (by omega)

/-- After a reset every group is free of loop points and dirty. -/
theorem onReset_blockInv (s : Stages) (init : Nat → Nat)
    (hok : GroupsOK s.groupBuilder.groupSize) : BlockInv (s.onReset init) := by
  obtain ⟨h1, h2, h3⟩ := onResetLoop_spec init NUM_CHANNELS { s with abLoop := false }
  have hgb : (s.onReset init).groupBuilder = s.groupBuilder := h1
  refine ⟨by rw [hgb]; exact hok, ?_⟩
  intro k hk
  rw [hgb]
  have hl6 := hok.leader_lt hk
  have hfit := hok.fits k hk
  refine Or.inr ⟨?_, Or.inl ⟨0, ?_, ?_⟩⟩
  · unfold Stages.loopsInGroup
    rw [hgb, countLoopsLoop_zero]
    · omega
    · intro j hj
      have := h2 (leaderOf s.groupBuilder.groupSize k + j) (by omega)
      unfold Stages.onReset
      rw [this]
  · exact lt_of_lt_of_le Nat.zero_lt_one (le_max_left _ _)
  · exact h3 _ (by omega)

/-- A new module has the block invariant. -/
theorem new_blockInv (init : Nat → Nat) : BlockInv (Stages.new init) :=
  onReset_blockInv _ init init_groupsOK

/-- Every reachable state has the block invariant. -/
theorem Reachable.blockInv {s : Stages} (h : Reachable s) : BlockInv s := by
  induction h with
  | new init => exact new_blockInv init
  | onReset init _ ih => exact onReset_blockInv _ init ih.1
  | toggleLoop i hi _ ih => exact toggleLoop_blockInv _ i hi ih
  | toggleMode i _ _ ih => exact toggleMode_blockInv _ i ih
  | setABLoop _ ih => exact setABLoop_blockInv _ ih
  | stepBlock inputs outs _ hstep ih =>
    obtain ⟨s3, hrun, hinv, _⟩ := stepBlock_blockInv _ inputs outs ih
    rw [hrun] at hstep
    cases hstep
    exact hinv

/-- The first block step of the example returns `firstBlock`. -/
theorem firstBlock_eq :
    (Stages.new (fun _ => 0)).stepBlock
      (patternOf [true, false, false, false, false, false])
      (fun _ _ => { value := 0, phase := 0, segment := 0 }) = some firstBlock := by
  obtain ⟨s2, hrun, _⟩ := stepBlock_blockInv (Stages.new (fun _ => 0))
    (patternOf [true, false, false, false, false, false])
    (fun _ _ => { value := 0, phase := 0, segment := 0 }) (new_blockInv _)
  unfold firstBlock
  rw [hrun]
  rfl

/-- The example state is reachable. -/
theorem abUsedUp_reachable : Reachable abUsedUp :=
  Reachable.toggleLoop 1 (by decide)
    (Reachable.toggleLoop 0 (by decide)
      (Reachable.setABLoop
        (Reachable.stepBlock _ _ (Reachable.new (fun _ => 0)) firstBlock_eq)))

/-! ## Claim on the partition into groups -/

/-- C4 (partition and bounds). On the sizes stored by `buildGroups`:
`i + max(1, groupSize[i]) ≤ 6` for every channel; the walk from channel 0 with
stride `max(1, groupSize[i])` stops exactly at the patched channels and at the
unpatched channels with no patched channel before them; the runs of the
stops cover `[0, 6)`, a later stop lies at or after the end of every earlier
run, and one run ends exactly at 6. Hence the indices `i + j` of `stepBlock`
(`j < max(1, groupSize[i])` at a stop `i`) and `group + j` of `toggleLoop`
(`j < groupSize[group]`, `group = groupForSegment(i)`) are below 6. In every
reachable state the passes of the loop of `stepBlock` are exactly these stops,
each advancing by `num_segments() = max(1, groupSize[i])`. -/
theorem buildGroups_bounds (gb : GroupBuilder) (inputs : Nat → Bool) (first : Nat) :
    (∀ i, i < NUM_CHANNELS →
      i + max 1 ((gb.buildGroups inputs first NUM_CHANNELS).1.groupSize i) ≤ NUM_CHANNELS) ∧
    (∀ i, i ∈ groupStarts (gb.buildGroups inputs first NUM_CHANNELS).1.groupSize ↔
      (i < NUM_CHANNELS ∧
        (inputs (first + i) = true ∨ ∀ k, k < i → inputs (first + k) = false))) ∧
    (∀ k, k < NUM_CHANNELS →
      ∃ g, g ∈ groupStarts (gb.buildGroups inputs first NUM_CHANNELS).1.groupSize ∧
        g ≤ k ∧ k < g + max 1 ((gb.buildGroups inputs first NUM_CHANNELS).1.groupSize g)) ∧
    (∀ g g2, g ∈ groupStarts (gb.buildGroups inputs first NUM_CHANNELS).1.groupSize →
      g2 ∈ groupStarts (gb.buildGroups inputs first NUM_CHANNELS).1.groupSize → g < g2 →
      g + max 1 ((gb.buildGroups inputs first NUM_CHANNELS).1.groupSize g) ≤ g2) ∧
    (∃ g, g ∈ groupStarts (gb.buildGroups inputs first NUM_CHANNELS).1.groupSize ∧
      g + max 1 ((gb.buildGroups inputs first NUM_CHANNELS).1.groupSize g) = NUM_CHANNELS) ∧
    (∀ g j, g ∈ groupStarts (gb.buildGroups inputs first NUM_CHANNELS).1.groupSize →
      j < max 1 ((gb.buildGroups inputs first NUM_CHANNELS).1.groupSize g) →
      g + j < NUM_CHANNELS) ∧
    (∀ i j, i < NUM_CHANNELS →
      j < (gb.buildGroups inputs first NUM_CHANNELS).1.groupSize
        ((gb.buildGroups inputs first NUM_CHANNELS).1.groupForSegment (i : Int)).toNat →
      ((gb.buildGroups inputs first NUM_CHANNELS).1.groupForSegment (i : Int)).toNat + j
        < NUM_CHANNELS) ∧
    (∀ (s : Stages) (outs : Nat → Nat → Output), Reachable s →
      stepBlockStops (s.groupBuilder.buildGroups inputs GATE_INPUTS NUM_CHANNELS).2 outs
          NUM_CHANNELS 0
          { s with
            groupBuilder := (s.groupBuilder.buildGroups inputs GATE_INPUTS NUM_CHANNELS).1 } =
        (groupStarts (s.groupBuilder.buildGroups inputs GATE_INPUTS NUM_CHANNELS).1.groupSize).map
          (fun g => (g, max 1
            ((s.groupBuilder.buildGroups inputs GATE_INPUTS NUM_CHANNELS).1.groupSize g)))) := by
  have key := bitsOf_cases (fun l =>
    (∀ i, i < 6 → i + max 1 (sizesOf l i) ≤ 6) ∧
    (∀ i, i < 6 → (i ∈ groupStarts (sizesOf l) ↔
      (l.getD i false = true ∨ ∀ k, k < 6 → k < i → l.getD k false = false))) ∧
    (∀ k, k < 6 → ∃ g, g < 6 ∧ g ∈ groupStarts (sizesOf l) ∧
      g ≤ k ∧ k < g + max 1 (sizesOf l g)) ∧
    (∀ g, g < 6 → ∀ g2, g2 < 6 → g ∈ groupStarts (sizesOf l) →
      g2 ∈ groupStarts (sizesOf l) → g < g2 → g + max 1 (sizesOf l g) ≤ g2) ∧
    (∃ g, g < 6 ∧ g ∈ groupStarts (sizesOf l) ∧ g + max 1 (sizesOf l g) = 6))
    sizesOf_partition inputs first
  obtain ⟨kb, ks, kc, kd, ke⟩ := key
  have hsz := fun k hk => buildGroups_size_eq gb inputs first k hk
  have hlt := mem_groupStartsLoop_lt (sizesOf (bitsOf inputs first)) NUM_CHANNELS 0
  have hb : ∀ i, i < NUM_CHANNELS →
      i + max 1 ((gb.buildGroups inputs first NUM_CHANNELS).1.groupSize i) ≤ NUM_CHANNELS := by
    intro i hi
    rw [hsz i hi]; exact kb i hi
  rw [buildGroups_groupStarts]
  refine ⟨hb, ?_, ?_, ?_, ?_, ?_, ?_, ?_⟩
  · intro i
    constructor
    · intro hmem
      have hi : i < NUM_CHANNELS := hlt i hmem
      refine ⟨hi, ?_⟩
      rcases (ks i hi).1 hmem with h | h
      · left; rw [← bitsOf_getD inputs first i hi]; exact h
      · right
        intro k hk
        rw [← bitsOf_getD inputs first k (lt_trans hk hi)]
        exact h k (lt_trans hk hi) hk
    · rintro ⟨hi, h⟩
      refine (ks i hi).2 ?_
      rcases h with h | h
      · left; rw [bitsOf_getD inputs first i hi]; exact h
      · right
        intro k hk hki
        rw [bitsOf_getD inputs first k hk]; exact h k hki
  · intro k hk
    obtain ⟨g, hg, hmem, hle, hlt2⟩ := kc k hk
    exact ⟨g, hmem, hle, by rw [hsz g hg]; exact hlt2⟩
  · intro g g2 hg hg2 hlt2
    rw [hsz g (hlt g hg)]
    exact kd g (hlt g hg) g2 (hlt g2 hg2) hg hg2 hlt2
  · obtain ⟨g, hg, hmem, he⟩ := ke
    exact ⟨g, hmem, by rw [hsz g hg]; exact he⟩
  · intro g j hg hj
    have := hb g (hlt g hg)
    omega
  · intro i j hi hj
    have ok := buildGroups_groupsOK gb inputs first
    have h1 := ok.fits i hi
    have h2 : leaderOf (gb.buildGroups inputs first NUM_CHANNELS).1.groupSize i =
        ((gb.buildGroups inputs first NUM_CHANNELS).1.groupForSegment (i : Int)).toNat := rfl
    rw [h2] at h1
    have h3 : ∀ a : Nat, a ≤ max 1 a := fun a => le_max_right 1 a
    have h4 := h3 ((gb.buildGroups inputs first NUM_CHANNELS).1.groupSize
        ((gb.buildGroups inputs first NUM_CHANNELS).1.groupForSegment (i : Int)).toNat)
    omega
  · intro s outs hs
    exact stepBlockStops_walk _ outs NUM_CHANNELS 0 _ (stepBlock_walkInv s inputs hs.blockInv)

/-! ## Claim on the reachable states -/

/-- C7, as amended (state invariant on loop points). In every state reachable
from construction or reset through `toggleLoop`, `toggleMode`, arming A/B loop
mode and block steps, every group holds at most 2 loop-enabled channels,
whether `abLoop` is true or false; and a block step from such a state always
returns. -/
theorem reachable_loops_le_two (s : Stages) (h : Reachable s) :
    (∀ k, k < NUM_CHANNELS → s.loopsInGroup (s.groupOf k) ≤ 2) ∧
    (∀ (inputs : Nat → Bool) (outs : Nat → Nat → Output),
      ∃ s2, s.stepBlock inputs outs = some s2) := by
  refine ⟨h.blockInv.loopInv.2, ?_⟩
  intro inputs outs
  obtain ⟨s2, hrun, _⟩ := stepBlock_blockInv s inputs outs h.blockInv
  exact ⟨s2, hrun⟩

/-- Witness for C7: the reachable example state, whose one group holds 2 loop
points. -/
theorem reachable_loops_le_two_witness :
    Reachable abUsedUp ∧
      (∀ k, k < NUM_CHANNELS → abUsedUp.loopsInGroup (abUsedUp.groupOf k) ≤ 2) :=
  ⟨abUsedUp_reachable, (reachable_loops_le_two abUsedUp abUsedUp_reachable).1⟩

/-- C7 as stated fails: after a first block step with only gate 0 patched,
arming A/B loop mode and long presses on channels 0 and 1, the state has
`abLoop = false` and the group of channel 0 holds 2 loop-enabled channels. -/
theorem reachable_two_loops_abLoop_off :
    Reachable abUsedUp ∧ abUsedUp.abLoop = false ∧
      abUsedUp.loopsInGroup (abUsedUp.groupOf 0) = 2 :=
  ⟨abUsedUp_reachable, by decide, by decide⟩

/-! ## Persistence: toJson and fromJson -/

/-- The record that `toJson` writes for channel `i`. -/
theorem toJsonLoop_eq (s : Stages) :
    ∀ n, toJsonLoop s n = Json.array ((List.range n).map (fun i =>
      Json.object [("type", Json.integer (s.configurations i).type.val),
        ("loop", Json.boolean (s.configurations i).loop)])) := by
  intro n
  induction n with
  | zero => rfl
  | succ n ih =>
    simp only [toJsonLoop, ih, json_array_insert_new, json_object_set_new, List.length_map,
      List.length_range, le_refl, if_true, List.range_succ, List.map_append, List.map_cons,
      List.map_nil]
    congr 1
    have hlen : ((List.range n).map (fun i =>
        Json.object [("type", Json.integer (s.configurations i).type.val),
          ("loop", Json.boolean (s.configurations i).loop)])).length = n := by simp
    rw [List.take_of_length_le (le_of_eq hlen), List.drop_of_length_le (le_of_eq hlen)]
    simp

/-- The fields that `fromJson` reads for channel `k` from the document written by `toJson`. -/
theorem toJson_fields (s : Stages) (k : Nat) (hk : k < NUM_CHANNELS) :
    json_object_get (json_array_get (json_object_get (some s.toJson) "configurations") k) "type"
        = some (Json.integer (s.configurations k).type.val) ∧
      json_object_get (json_array_get (json_object_get (some s.toJson) "configurations") k) "loop"
        = some (Json.boolean (s.configurations k).loop) := by
  have h1 : json_object_get (some s.toJson) "configurations" = some (toJsonLoop s NUM_CHANNELS) := by
    simp [Stages.toJson, json_object_set_new, json_object_get]
  rw [h1, toJsonLoop_eq]
  have h2 : json_array_get (some (Json.array ((List.range NUM_CHANNELS).map (fun i =>
      Json.object [("type", Json.integer (s.configurations i).type.val),
        ("loop", Json.boolean (s.configurations i).loop)])))) k =
      some (Json.object [("type", Json.integer (s.configurations k).type.val),
        ("loop", Json.boolean (s.configurations k).loop)]) := by
    simp [json_array_get, List.get?_eq_getElem?, hk]
  rw [h2]
  constructor
  · simp [json_object_get, List.find?]
  · simp [json_object_get, List.find?]

/-- `fromJson` changes the records only. -/
theorem fromJsonLoop_frame (cJ : Option Json) :
    ∀ (n : Nat) (s : Stages),
      (fromJsonLoop cJ n s).configuration_changed = s.configuration_changed ∧
      (fromJsonLoop cJ n s).num_segments = s.num_segments ∧
      (fromJsonLoop cJ n s).groupBuilder = s.groupBuilder ∧
      (fromJsonLoop cJ n s).abLoop = s.abLoop ∧
      (fromJsonLoop cJ n s).envelopeBuffer = s.envelopeBuffer ∧
      (fromJsonLoop cJ n s).configureCalls = s.configureCalls := by
  intro n
  induction n with
  | zero => intro s; exact ⟨rfl, rfl, rfl, rfl, rfl, rfl⟩
  | succ n ih =>
    intro s
    simp only [fromJsonLoop]
    cases json_array_get cJ n with
    | none => exact ih s
    | some r =>
      simp only
      cases json_object_get (some r) "type" <;> cases json_object_get (some r) "loop" <;>
        exact ih s

/-- The record of channel `k` after `fromJson`: each field is the one read, or
the old one when the document has none. -/
theorem fromJsonLoop_configurations (cJ : Option Json) :
    ∀ (n : Nat) (s : Stages) (k : Nat),
      (fromJsonLoop cJ n s).configurations k =
        if k < n then
          { type := ((json_object_get (json_array_get cJ k) "type").map
                (fun t => SegmentType.ofInt (json_integer_value t))).getD (s.configurations k).type,
            loop := ((json_object_get (json_array_get cJ k) "loop").map
                json_boolean_value).getD (s.configurations k).loop }
        else s.configurations k := by
  intro n
  induction n with
  | zero => intro s k; rw [if_neg (by omega)]; rfl
  | succ n ih =>
    intro s k
    by_cases hk : k = n
    · subst hk
      have hold := ih s k
      rw [if_neg (by omega)] at hold
      rw [if_pos (by omega)]
      simp only [fromJsonLoop]
      cases hr : json_array_get cJ k with
      | none => simp [json_object_get, hold]
      | some r =>
        simp only
        cases ht : json_object_get (some r) "type" <;>
          cases hl : json_object_get (some r) "loop" <;>
          simp [hold]
    · have hrest : (fromJsonLoop cJ (n + 1) s).configurations k =
          (fromJsonLoop cJ n s).configurations k := by
        simp only [fromJsonLoop]
        cases json_array_get cJ n with
        | none => rfl
        | some r =>
          simp only
          cases json_object_get (some r) "type" <;> cases json_object_get (some r) "loop" <;>
            simp [setAt_ne _ _ hk]
      rw [hrest, ih s k]
      by_cases hkn : k < n
      · rw [if_pos hkn, if_pos (by omega)]
      · rw [if_neg hkn, if_neg (by omega)]

/-- C11 (persistence round trip). Whatever the records were before the load,
loading the document that `toJson` writes for the state `s` gives every
channel the `{type, loop}` pair it has in `s`. -/
theorem fromJson_toJson (s s0 : Stages) (k : Nat) (hk : k < NUM_CHANNELS) :
    (s0.fromJson (some s.toJson)).configurations k = s.configurations k := by
  unfold Stages.fromJson
  rw [fromJsonLoop_configurations, if_pos hk, (toJson_fields s k hk).1, (toJson_fields s k hk).2]
  simp [json_integer_value, json_boolean_value, SegmentType.ofInt_val]

/-- Witness for C11: a new module that loads what the example state with two
loop points saved. -/
theorem fromJson_toJson_witness :
    0 < NUM_CHANNELS ∧ (abUsedUp.configurations 0).loop = true ∧
      ((Stages.new (fun _ => 0)).fromJson (some abUsedUp.toJson)).configurations 0 =
        abUsedUp.configurations 0 :=
  ⟨by decide, by decide, fromJson_toJson abUsedUp (Stages.new (fun _ => 0)) 0 (by decide)⟩

/-- C12, as amended (absent fields on load). For every prior state and every
document, a field of a channel's record that is present is taken from the
record (for `type` the integer read, cast to the enum: an integer in the range
of a 32-bit `int` is stored as it is, also when it is negative or no value of
the enum, and a wider one is cut to its low 32 bits; "is true" for `loop`), and
a field that is absent, alone or with the whole record, keeps the value the
channel had before the load; that value is RAMP and false when the load
follows a reset. The load is a total function: it never fails. -/
theorem fromJson_fields (s : Stages) (rootJ : Option Json) :
    (∀ k typeJ, k < NUM_CHANNELS →
      json_object_get (json_array_get (json_object_get rootJ "configurations") k) "type"
        = some typeJ →
      ((s.fromJson rootJ).configurations k).type.val = wrapInt32 (json_integer_value typeJ) ∧
      (-2147483648 ≤ json_integer_value typeJ ∧ json_integer_value typeJ < 2147483648 →
        ((s.fromJson rootJ).configurations k).type.val = json_integer_value typeJ)) ∧
    (∀ k loopJ, k < NUM_CHANNELS →
      json_object_get (json_array_get (json_object_get rootJ "configurations") k) "loop"
        = some loopJ →
      ((s.fromJson rootJ).configurations k).loop = json_boolean_value loopJ) ∧
    (∀ k, k < NUM_CHANNELS →
      json_object_get (json_array_get (json_object_get rootJ "configurations") k) "type" = none →
      ((s.fromJson rootJ).configurations k).type = (s.configurations k).type) ∧
    (∀ k, k < NUM_CHANNELS →
      json_object_get (json_array_get (json_object_get rootJ "configurations") k) "loop" = none →
      ((s.fromJson rootJ).configurations k).loop = (s.configurations k).loop) ∧
    (∀ (init : Nat → Nat) (k : Nat), k < NUM_CHANNELS →
      json_object_get (json_array_get (json_object_get rootJ "configurations") k) "type" = none →
      (((s.onReset init).fromJson rootJ).configurations k).type = TYPE_RAMP) ∧
    (∀ (init : Nat → Nat) (k : Nat), k < NUM_CHANNELS →
      json_object_get (json_array_get (json_object_get rootJ "configurations") k) "loop" = none →
      (((s.onReset init).fromJson rootJ).configurations k).loop = false) := by
  have key : ∀ (t : Stages) (k : Nat), k < NUM_CHANNELS →
      (t.fromJson rootJ).configurations k =
        { type := ((json_object_get (json_array_get (json_object_get rootJ "configurations") k)
              "type").map (fun t => SegmentType.ofInt (json_integer_value t))).getD (t.configurations k).type,
          loop := ((json_object_get (json_array_get (json_object_get rootJ "configurations") k)
              "loop").map json_boolean_value).getD (t.configurations k).loop } := by
    intro t k hk
    unfold Stages.fromJson
    rw [fromJsonLoop_configurations, if_pos hk]
  have hreset : ∀ (init : Nat → Nat) (k : Nat), k < NUM_CHANNELS →
      (s.onReset init).configurations k = { type := TYPE_RAMP, loop := false } := by
    intro init k hk
    exact (onResetLoop_spec init NUM_CHANNELS { s with abLoop := false }).2.1 k hk
  refine ⟨?_, ?_, ?_, ?_, ?_, ?_⟩
  · intro k typeJ hk h
    have e : ((s.fromJson rootJ).configurations k).type.val =
        wrapInt32 (json_integer_value typeJ) := by
      rw [key s k hk, h]; rfl
    exact ⟨e, fun hr => by rw [e, wrapInt32_of_inRange _ hr]⟩
  · intro k loopJ hk h; rw [key s k hk, h]; rfl
  · intro k hk h; rw [key s k hk, h]; rfl
  · intro k hk h; rw [key s k hk, h]; rfl
  · intro init k hk h; rw [key _ k hk, h, hreset init k hk]; rfl
  · intro init k hk h; rw [key _ k hk, h, hreset init k hk]; rfl

/-- C12 as stated fails: channel 0 is HOLD with its loop flag on, the document
has no record at all, and after the load channel 0 is still HOLD (not RAMP)
with its loop flag on (not off). -/
theorem fromJson_keeps_prior :
    (json_object_get (json_array_get (json_object_get (some (Json.object []))
        "configurations") 0) "type").isNone = true ∧
    (json_object_get (json_array_get (json_object_get (some (Json.object []))
        "configurations") 0) "loop").isNone = true ∧
    ((holdAndLoop.fromJson (some (Json.object []))).configurations 0).type.val = 2 ∧
    ((holdAndLoop.fromJson (some (Json.object []))).configurations 0).loop = true :=
  ⟨by decide, by decide, by decide, by decide⟩

/-- Types outside the enum on load: -1 is stored as -1 and `2^32 + 1` as 1, and
a short press then gives 0 and 2. -/
theorem fromJson_out_of_enum :
    (((Stages.new (fun _ => 0)).fromJson (some outOfEnumDoc)).configurations 0).type.val = -1 ∧
    (((Stages.new (fun _ => 0)).fromJson (some outOfEnumDoc)).configurations 1).type.val = 1 ∧
    ((((Stages.new (fun _ => 0)).fromJson (some outOfEnumDoc)).toggleMode 0).configurations
      0).type.val = 0 ∧
    ((((Stages.new (fun _ => 0)).fromJson (some outOfEnumDoc)).toggleMode 1).configurations
      1).type.val = 2 := by
  decide

/-! ## The frame of toggleLoop -/

/-- `toggleLoop` never changes a segment type. -/
theorem toggleLoop_type (s : Stages) (i k : Nat) :
    ((s.toggleLoop i).configurations k).type = (s.configurations k).type := by
  cases hl : (s.configurations i).loop with
  | true =>
    rw [(toggleLoop_off s i hl).1, setAt_apply]
    split
    · rename_i e; rw [e]
    · rfl
  | false =>
    by_cases hc : countLoopsLoop
        (setAt s.configurations i ⟨(s.configurations i).type, true⟩)
        (s.groupOf i) (s.groupBuilder.groupSize (s.groupOf i)) ≤ if s.abLoop then 2 else 1
    · rw [(toggleLoop_on_keep s i hl hc).1, setAt_apply]
      split
      · rename_i e; rw [e]
      · rfl
    · rw [(toggleLoop_on_clear s i hl (by omega)).1, keepOnlyLoop_apply]
      split
      · simp only [setAt_apply]
        split
        · rename_i e; rw [e]
        · rfl
      · rw [setAt_apply]
        split
        · rename_i e; rw [e]
        · rfl

/-- `toggleLoop(i)` leaves the loop flag of channel `i` negated. -/
theorem toggleLoop_flag (s : Stages) (i : Nat) :
    ((s.toggleLoop i).configurations i).loop = !(s.configurations i).loop := by
  cases hl : (s.configurations i).loop with
  | true => rw [(toggleLoop_off s i hl).1, setAt_same]; rfl
  | false =>
    by_cases hc : countLoopsLoop
        (setAt s.configurations i ⟨(s.configurations i).type, true⟩)
        (s.groupOf i) (s.groupBuilder.groupSize (s.groupOf i)) ≤ if s.abLoop then 2 else 1
    · rw [(toggleLoop_on_keep s i hl hc).1, setAt_same]; rfl
    · rw [(toggleLoop_on_clear s i hl (by omega)).1, keepOnlyLoop_apply]
      split
      · simp
      · rw [setAt_same]; rfl

/-- C20 (frame of `toggleLoop`). On sizes stored by `buildGroups` and for
every channel `i`, `toggleLoop(i)` leaves the loop flag of `i` negated, sets
the dirty flag of `i` and no other, changes no segment type, and changes no
loop flag outside the run of the group of `i`. When it turns the flag off, or
when `i` stands alone unpatched (it leads its own group and its stored size is
0), it changes no other loop flag and leaves `abLoop` as it was. The builder
is not changed. -/
theorem toggleLoop_frame (gb : GroupBuilder) (inputs : Nat → Bool) (first : Nat)
    (s : Stages) (i : Nat)
    (hgs : s.groupBuilder = (gb.buildGroups inputs first NUM_CHANNELS).1)
    (hi : i < NUM_CHANNELS) :
    ((s.toggleLoop i).configurations i).loop = (!(s.configurations i).loop) ∧
    (s.toggleLoop i).configuration_changed i = true ∧
    (∀ k, k ≠ i → (s.toggleLoop i).configuration_changed k = s.configuration_changed k) ∧
    (∀ k, ((s.toggleLoop i).configurations k).type = (s.configurations k).type) ∧
    (∀ k, ¬ (s.groupOf i ≤ k ∧
        k < s.groupOf i + max 1 (s.groupBuilder.groupSize (s.groupOf i))) →
      ((s.toggleLoop i).configurations k).loop = (s.configurations k).loop) ∧
    ((s.configurations i).loop = true →
      (∀ k, k ≠ i → ((s.toggleLoop i).configurations k).loop = (s.configurations k).loop) ∧
        (s.toggleLoop i).abLoop = s.abLoop) ∧
    (s.groupOf i = i ∧ s.groupBuilder.groupSize i = 0 →
      (∀ k, k ≠ i → ((s.toggleLoop i).configurations k).loop = (s.configurations k).loop) ∧
        (s.toggleLoop i).abLoop = s.abLoop) ∧
    (s.toggleLoop i).groupBuilder = s.groupBuilder := by
  have hok : GroupsOK s.groupBuilder.groupSize := by
    rw [hgs]; exact buildGroups_groupsOK gb inputs first
  refine ⟨toggleLoop_flag s i, ?_, ?_, toggleLoop_type s i, ?_, ?_, ?_, toggleLoop_groupBuilder s i⟩
  · rw [toggleLoop_changed, setAt_same]
  · intro k hk
    rw [toggleLoop_changed, setAt_ne _ _ hk]
  · intro k hk
    rw [toggleLoop_outside s i hok hi k hk]
  · intro hl
    obtain ⟨h1, h2⟩ := toggleLoop_off s i hl
    refine ⟨?_, h2⟩
    intro k hk
    rw [h1, setAt_ne _ _ hk]
  · rintro ⟨hg, hz⟩
    cases hl : (s.configurations i).loop with
    | true =>
      obtain ⟨h1, h2⟩ := toggleLoop_off s i hl
      refine ⟨?_, h2⟩
      intro k hk
      rw [h1, setAt_ne _ _ hk]
    | false =>
      have hcnt : countLoopsLoop
          (setAt s.configurations i ⟨(s.configurations i).type, true⟩)
          (s.groupOf i) (s.groupBuilder.groupSize (s.groupOf i)) = 0 := by
        rw [hg, hz]; rfl
      have hc : countLoopsLoop
          (setAt s.configurations i ⟨(s.configurations i).type, true⟩)
          (s.groupOf i) (s.groupBuilder.groupSize (s.groupOf i)) ≤
            if s.abLoop then 2 else 1 := by
        rw [hcnt]; exact Nat.zero_le _
      obtain ⟨h1, h2⟩ := toggleLoop_on_keep s i hl hc
      refine ⟨?_, ?_⟩
      · intro k hk
        rw [h1, setAt_ne _ _ hk]
      · rw [h2, hcnt]; simp

/-- Witness for C20: in the chain of six with loop points 0 and 1, a long press
on channel 2 turns its flag on, clears that of channel 0 and changes no type. -/
theorem toggleLoop_frame_witness :
    (2 : Nat) < NUM_CHANNELS ∧
    (((chainOfSix.runActions armThenTwoLoops).toggleLoop 2).configurations 2).loop = true ∧
    (((chainOfSix.runActions armThenTwoLoops).toggleLoop 2).configurations 0).loop = false ∧
    (∀ k, (((chainOfSix.runActions armThenTwoLoops).toggleLoop 2).configurations k).type =
      ((chainOfSix.runActions armThenTwoLoops).configurations k).type) :=
  have h := toggleLoop_frame GroupBuilder.init
    (patternOf [true, false, false, false, false, false]) GATE_INPUTS
    (chainOfSix.runActions armThenTwoLoops) 2 rfl (by decide)
  ⟨by decide, by decide, by decide, h.2.2.2.1⟩

/-! ## stepBlock: output assembly and Configure calls of one pass -/

/-- The follower loop writes position `j` of the rows `i + 1, ..., i + m`. -/
theorem writeFollowersLoop_apply (i j : Nat) (o : Output) (buf : Nat → Nat → ℚ) :
    ∀ m x y, writeFollowersLoop i j o m buf x y =
      if y = j ∧ i < x ∧ x ≤ i + m then
        (if ((x - i : Nat) : Int) = o.segment then 1 - o.phase else 0)
      else buf x y := by
  intro m
  induction m with
  | zero => intro x y; rw [if_neg (by omega)]; rfl
  | succ m ih =>
    intro x y
    simp only [writeFollowersLoop]
    by_cases hx : x = i + (m + 1)
    · subst hx
      rw [setAt_same]
      by_cases hy : y = j
      · subst hy
        have e : i + (m + 1) - i = m + 1 := by omega
        have hc : y = y ∧ i < i + (m + 1) ∧ i + (m + 1) ≤ i + (m + 1) := ⟨rfl, by omega, by omega⟩
        rw [setAt_same, if_pos hc, e]
      · have hc : ¬ (y = j ∧ i < i + (m + 1) ∧ i + (m + 1) ≤ i + (m + 1)) := fun h => hy h.1
        have hc2 : ¬ (y = j ∧ i < i + (m + 1) ∧ i + (m + 1) ≤ i + m) := fun h => hy h.1
        rw [setAt_ne _ _ hy, ih, if_neg hc2, if_neg hc]
    · rw [setAt_ne _ _ hx, ih]
      by_cases h2 : y = j ∧ i < x ∧ x ≤ i + m
      · have hc : y = j ∧ i < x ∧ x ≤ i + (m + 1) := ⟨h2.1, h2.2.1, by omega⟩
        rw [if_pos h2, if_pos hc]
      · have hc : ¬ (y = j ∧ i < x ∧ x ≤ i + (m + 1)) := by
          intro h; apply h2; exact ⟨h.1, h.2.1, by omega⟩
        rw [if_neg h2, if_neg hc]

/-- The assembly loop writes the first `c` positions of the rows of the group:
the generator value in the row of the leader, the pseudo-envelope in the rows
of the other segments. -/
theorem writeBlockLoop_apply (i n : Nat) (out : Nat → Output) (buf : Nat → Nat → ℚ) :
    ∀ c x y, writeBlockLoop i n out c buf x y =
      if y < c then
        (if x = i then (out y).value
         else if i < x ∧ x ≤ i + (n - 1) then
           (if ((x - i : Nat) : Int) = (out y).segment then 1 - (out y).phase else 0)
         else buf x y)
      else buf x y := by
  intro c
  induction c with
  | zero => intro x y; rw [if_neg (by omega)]; rfl
  | succ c ih =>
    intro x y
    simp only [writeBlockLoop]
    by_cases hx : x = i
    · subst hx
      rw [setAt_same]
      by_cases hy : y = c
      · subst hy
        simp
      · have hf : ¬ (y = c ∧ x < x ∧ x ≤ x + (n - 1)) := fun h => hy h.1
        rw [setAt_ne _ _ hy, writeFollowersLoop_apply, if_neg hf, ih]
        by_cases h2 : y < c
        · have h3 : y < c + 1 := by omega
          simp [h2, h3]
        · have h3 : ¬ y < c + 1 := by omega
          simp [h2, h3]
    · rw [setAt_ne _ _ hx, writeFollowersLoop_apply, ih]
      by_cases hy : y = c
      · subst hy
        have h1 : ¬ y < y := by omega
        have h2 : y < y + 1 := by omega
        simp [h1, h2, hx]
      · have hf : ¬ (y = c ∧ i < x ∧ x ≤ i + (n - 1)) := fun h => hy h.1
        rw [if_neg hf]
        by_cases h2 : y < c
        · have h3 : y < c + 1 := by omega
          simp [h2, h3]
        · have h3 : ¬ y < c + 1 := by omega
          simp [h2, h3]

/-- The buffer after one pass is the assembly for the stride of that pass. -/
theorem stepBlockGroup_envelopeBuffer (ch : Bool) (out : Nat → Output) (s : Stages) (i : Nat) :
    (stepBlockGroup ch out s i).envelopeBuffer =
      writeBlockLoop i ((stepBlockGroup ch out s i).num_segments i) out BLOCK_SIZE
        s.envelopeBuffer := by
  have hf := scanGroupLoop_frame i ch s (max 1 (s.groupBuilder.groupSize i))
  unfold stepBlockGroup
  simp only
  split
  · split <;> simp only [Stages.Configure, hf.2.2.2.2.1]
  · simp only [hf.2.2.2.2.1]

/-- The calls of `Configure` after one pass: one more, for generator `i` with
the size of the run, exactly when `segment_changed` holds. -/
theorem stepBlockGroup_configureCalls (ch : Bool) (out : Nat → Output) (s : Stages) (i : Nat) :
    ((ch = true ∨ ∃ j, j < max 1 (s.groupBuilder.groupSize i) ∧
          s.configuration_changed (i + j) = true) →
      (stepBlockGroup ch out s i).configureCalls = s.configureCalls ++
        [{ generator := i, has_trigger := decide (s.groupBuilder.groupSize i > 0),
           configs := (List.range (max 1 (s.groupBuilder.groupSize i))).map
             (fun j => (stepBlockGroup ch out s i).configurations (i + j)),
           num_segments := max 1 (s.groupBuilder.groupSize i) }]) ∧
    (¬ (ch = true ∨ ∃ j, j < max 1 (s.groupBuilder.groupSize i) ∧
          s.configuration_changed (i + j) = true) →
      (stepBlockGroup ch out s i).configureCalls = s.configureCalls) := by
  have hf := scanGroupLoop_frame i ch s (max 1 (s.groupBuilder.groupSize i))
  have hflag := scanGroupLoop_flag i ch s (max 1 (s.groupBuilder.groupSize i))
  constructor
  · intro h
    have h1 := hflag.2 h
    unfold stepBlockGroup
    simp only [h1, if_true]
    split <;> simp only [Stages.Configure, hf.2.2.2.2.2, hf.2.2.1, hf.1]
  · intro h
    have h1 : ¬ (scanGroupLoop i ch s (max 1 (s.groupBuilder.groupSize i))).2.1 = true :=
      fun e => h (hflag.1 e)
    unfold stepBlockGroup
    simp only [h1, if_false]
    exact hf.2.2.2.2.2

/-! ## stepBlock: what the whole walk does -/

/-- The run of a leader below the leader `i` ends at or before `i`. -/
theorem GroupsOK.run_below {gs : Nat → Nat} (ok : GroupsOK gs) {g i : Nat}
    (hg : g < NUM_CHANNELS) (hlg : leaderOf gs g = g) (hi : i < NUM_CHANNELS)
    (hli : leaderOf gs i = i) (h : g < i) : g + max 1 (gs g) ≤ i := by
  by_contra hgt
  have e := ok.same g hg i hi (by rw [hlg]; omega) (by rw [hlg]; omega)
  rw [hli, hlg] at e
  omega

/-- The channels of the run of the leader `i` have the leader `i`. -/
theorem GroupsOK.leader_of_mem {gs : Nat → Nat} (ok : GroupsOK gs) {i x : Nat}
    (hi : i < NUM_CHANNELS) (hli : leaderOf gs i = i) (h1 : i ≤ x)
    (h2 : x < i + max 1 (gs i)) : x < NUM_CHANNELS ∧ leaderOf gs x = i := by
  have hfit := ok.fits i hi
  rw [hli] at hfit
  have hx : x < NUM_CHANNELS := by omega
  have e := ok.same i hi x hx (by rw [hli]; exact h1) (by rw [hli]; exact h2)
  rw [hli] at e
  exact ⟨hx, e⟩

/-- One pass at the group start `i` extends the description of the walk to the
channel after the run of `i`, and leaves the generator of `i` with the size of
the run. -/
theorem stepBlockGroup_spec (ch : Bool) (outs : Nat → Nat → Output) (s0 s : Stages) (i : Nat)
    (hok : GroupsOK s0.groupBuilder.groupSize)
    (hfresh : ∀ k, k < NUM_CHANNELS →
      segmentChanged ch s0 (leaderOf s0.groupBuilder.groupSize k) ∨
        s0.num_segments (leaderOf s0.groupBuilder.groupSize k) =
          max 1 (s0.groupBuilder.groupSize (leaderOf s0.groupBuilder.groupSize k)))
    (hi : i < NUM_CHANNELS) (hli : leaderOf s0.groupBuilder.groupSize i = i)
    (h : BlockSpec ch outs s0 i s) :
    (stepBlockGroup ch (outs i) s i).num_segments i = max 1 (s0.groupBuilder.groupSize i) ∧
      BlockSpec ch outs s0 (i + max 1 (s0.groupBuilder.groupSize i))
        (stepBlockGroup ch (outs i) s i) := by
  have hgb := (stepBlockGroup_groupBuilder ch (outs i) s i).1
  have hab := (stepBlockGroup_groupBuilder ch (outs i) s i).2
  have hcfg := stepBlockGroup_configurations ch (outs i) s i
  have hns := stepBlockGroup_num_segments ch (outs i) s i
  have hcc := stepBlockGroup_changed ch (outs i) s i
  have henv := stepBlockGroup_envelopeBuffer ch (outs i) s i
  have hcalls := stepBlockGroup_configureCalls ch (outs i) s i
  rw [h.gb] at hcfg hns hcc hcalls
  have hpos : 1 ≤ max 1 (s0.groupBuilder.groupSize i) := le_max_left _ _
  have hfit := hok.fits i hi
  rw [hli] at hfit
  have hmem : ∀ x, i ≤ x → x < i + max 1 (s0.groupBuilder.groupSize i) →
      x < NUM_CHANNELS ∧ leaderOf s0.groupBuilder.groupSize x = i :=
    fun x h1 h2 => hok.leader_of_mem hi hli h1 h2
  -- the pass sees the flags and the loop points that `s0` has on the run of `i`
  have hchg : (ch = true ∨ ∃ j, j < max 1 (s0.groupBuilder.groupSize i) ∧
      s.configuration_changed (i + j) = true) ↔ segmentChanged ch s0 i := by
    unfold segmentChanged
    constructor
    · rintro (hc | ⟨j, hj, hd⟩)
      · exact Or.inl hc
      · exact Or.inr ⟨j, hj, by rw [← h.dirty_keep (i + j) (by omega)]; exact hd⟩
    · rintro (hc | ⟨j, hj, hd⟩)
      · exact Or.inl hc
      · exact Or.inr ⟨j, hj, by rw [h.dirty_keep (i + j) (by omega)]; exact hd⟩
  have hcount : countLoopsLoop s.configurations i (max 1 (s0.groupBuilder.groupSize i)) =
      s0.loopsInGroup i :=
    countLoopsLoop_congr _ _ _ _ (fun j _ => h.loop_keep (i + j) (Or.inl (by omega)))
  rw [hcount] at hcfg
  have hcfg_out : ∀ x, ¬ (i ≤ x ∧ x < i + max 1 (s0.groupBuilder.groupSize i)) →
      (stepBlockGroup ch (outs i) s i).configurations x = s.configurations x := by
    intro x hx
    rw [hcfg]
    split
    · rw [clearLoopsLoop_apply, if_neg hx]
    · rfl
  have hcfg_type : ∀ x, ((stepBlockGroup ch (outs i) s i).configurations x).type =
      (s.configurations x).type := by
    intro x
    rw [hcfg]
    split
    · rw [clearLoopsLoop_apply]
      split <;> rfl
    · rfl
  have hcfg_clear : segmentChanged ch s0 i → 2 < s0.loopsInGroup i →
      ∀ x, i ≤ x → x < i + max 1 (s0.groupBuilder.groupSize i) →
        ((stepBlockGroup ch (outs i) s i).configurations x).loop = false := by
    intro hP hC x h1 h2
    rw [hcfg, if_pos ⟨hchg.2 hP, hC⟩, clearLoopsLoop_apply, if_pos ⟨h1, h2⟩]
  have hcfg_keep : (¬ segmentChanged ch s0 i ∨ s0.loopsInGroup i ≤ 2) →
      (stepBlockGroup ch (outs i) s i).configurations = s.configurations := by
    intro hn
    rw [hcfg, if_neg]
    rintro ⟨hP, hC⟩
    rcases hn with hn | hn
    · exact hn (hchg.1 hP)
    · omega
  have hns_other : ∀ g, g ≠ i →
      (stepBlockGroup ch (outs i) s i).num_segments g = s.num_segments g := by
    intro g hg
    rw [hns]
    split
    · rw [setAt_ne _ _ hg]
    · rfl
  have hnum : (stepBlockGroup ch (outs i) s i).num_segments i =
      max 1 (s0.groupBuilder.groupSize i) := by
    rw [hns]
    by_cases hP : segmentChanged ch s0 i
    · rw [if_pos (hchg.2 hP), setAt_same]
    · rw [if_neg (fun e => hP (hchg.1 e)), h.segs_keep i (Or.inl (le_refl _))]
      have := hfresh i hi
      rw [hli] at this
      rcases this with e | e
      · exact absurd e hP
      · exact e
  rw [hnum] at henv
  refine ⟨hnum, ?_⟩
  constructor
  · rw [hgb, h.gb]
  · rw [hab, h.ab]
  · intro x
    rw [hcfg_type, h.type]
  · -- loop_clear
    intro x hx hP hC
    by_cases hxi : x < i
    · rw [hcfg_out x (by omega)]
      exact h.loop_clear x hxi hP hC
    · obtain ⟨_, hlx⟩ := hmem x (by omega) hx
      rw [hlx] at hP hC
      exact hcfg_clear hP hC x (by omega) hx
  · -- loop_keep
    intro x hx
    by_cases hin : i ≤ x ∧ x < i + max 1 (s0.groupBuilder.groupSize i)
    · obtain ⟨_, hlx⟩ := hmem x hin.1 hin.2
      rw [hlx] at hx
      have hn : ¬ segmentChanged ch s0 i ∨ s0.loopsInGroup i ≤ 2 := by
        rcases hx with hx | hx | hx
        · omega
        · exact Or.inl hx
        · exact Or.inr hx
      rw [hcfg_keep hn]
      exact h.loop_keep x (Or.inl hin.1)
    · rw [hcfg_out x hin]
      apply h.loop_keep x
      rcases hx with hx | hx | hx
      · exact Or.inl (by omega)
      · exact Or.inr (Or.inl hx)
      · exact Or.inr (Or.inr hx)
  · -- dirty_done
    intro x hx
    rw [hcc]
    by_cases hin : i ≤ x ∧ x < i + max 1 (s0.groupBuilder.groupSize i)
    · rw [if_pos hin]
    · rw [if_neg hin]
      exact h.dirty_done x (by omega)
  · -- dirty_keep
    intro x hx
    rw [hcc, if_neg (by omega)]
    exact h.dirty_keep x (by omega)
  · -- segs_done
    intro g hg hlg
    by_cases hgi : g = i
    · rw [hgi]; exact hnum
    · rw [hns_other g hgi]
      apply h.segs_done g _ hlg
      by_contra hge
      obtain ⟨_, e⟩ := hmem g (by omega) hg
      omega
  · -- segs_keep
    intro g hg
    have hgi : g ≠ i := by
      rcases hg with hg | hg
      · omega
      · intro e; rw [e] at hg; exact hg hli
    rw [hns_other g hgi]
    apply h.segs_keep g
    rcases hg with hg | hg
    · exact Or.inl (by omega)
    · exact Or.inr hg
  · -- calls
    obtain ⟨added, hadd, hsorted, hmemq, hargs⟩ := h.calls
    have hold_cfg : ∀ c, c ∈ added → ∀ j, j < c.num_segments →
        (stepBlockGroup ch (outs i) s i).configurations (c.generator + j) =
          s.configurations (c.generator + j) := by
      intro c hc j hj
      have hg := (hmemq c.generator).1 (List.mem_map_of_mem _ hc)
      have hrun := hok.run_below (lt_trans hg.1 hi) hg.2.1 hi hli hg.1
      rw [(hargs c hc).1] at hj
      exact hcfg_out _ (by omega)
    have hold_args : ∀ c, c ∈ added →
        c.num_segments = max 1 (s0.groupBuilder.groupSize c.generator) ∧
        c.has_trigger = decide (0 < s0.groupBuilder.groupSize c.generator) ∧
        c.configs = (List.range c.num_segments).map
          (fun j => (stepBlockGroup ch (outs i) s i).configurations (c.generator + j)) := by
      intro c hc
      refine ⟨(hargs c hc).1, (hargs c hc).2.1, ?_⟩
      rw [(hargs c hc).2.2]
      apply List.map_congr_left
      intro j hj
      rw [hold_cfg c hc j (List.mem_range.1 hj)]
    by_cases hP : segmentChanged ch s0 i
    · refine ⟨added ++ [(⟨i, decide (s0.groupBuilder.groupSize i > 0),
          (List.range (max 1 (s0.groupBuilder.groupSize i))).map
            (fun j => (stepBlockGroup ch (outs i) s i).configurations (i + j)),
          max 1 (s0.groupBuilder.groupSize i)⟩ : ConfigureCall)], ?_, ?_, ?_, ?_⟩
      · rw [hcalls.1 (hchg.2 hP), hadd, List.append_assoc]
      · rw [List.map_append, List.pairwise_append]
        refine ⟨hsorted, List.pairwise_singleton _ _, ?_⟩
        intro a ha b hb
        simp only [List.map_cons, List.map_nil, List.mem_singleton] at hb
        rw [hb]
        exact ((hmemq a).1 ha).1
      · intro g
        rw [List.map_append, List.mem_append, hmemq g]
        simp only [List.map_cons, List.map_nil, List.mem_singleton]
        constructor
        · rintro (⟨h1, h2, h3⟩ | e)
          · exact ⟨by omega, h2, h3⟩
          · rw [e]; exact ⟨by omega, hli, hP⟩
        · rintro ⟨h1, h2, h3⟩
          by_cases hgi : g < i
          · exact Or.inl ⟨hgi, h2, h3⟩
          · right
            obtain ⟨_, e⟩ := hmem g (by omega) h1
            omega
      · intro c hc
        rw [List.mem_append, List.mem_singleton] at hc
        rcases hc with hc | hc
        · exact hold_args c hc
        · rw [hc]
          exact ⟨rfl, rfl, rfl⟩
    · refine ⟨added, ?_, hsorted, ?_, hold_args⟩
      · rw [hcalls.2 (fun e => hP (hchg.1 e)), hadd]
      · intro g
        rw [hmemq g]
        constructor
        · rintro ⟨h1, h2, h3⟩
          exact ⟨by omega, h2, h3⟩
        · rintro ⟨h1, h2, h3⟩
          refine ⟨?_, h2, h3⟩
          by_contra hge
          obtain ⟨_, e⟩ := hmem g (by omega) h1
          have : g = i := by omega
          rw [this] at h3
          exact hP h3
  · -- env_done
    intro x j hx hj
    rw [henv, writeBlockLoop_apply]
    simp only [hj, if_true]
    by_cases hxi : x = i
    · simp only [hxi, if_true, hli]
    · by_cases hlt : x < i
      · have hn : ¬ (i < x ∧ x ≤ i + (max 1 (s0.groupBuilder.groupSize i) - 1)) := by omega
        simp only [hxi, if_false, hn]
        exact h.env_done x j hlt hj
      · obtain ⟨_, hlx⟩ := hmem x (by omega) hx
        have hin : i < x ∧ x ≤ i + (max 1 (s0.groupBuilder.groupSize i) - 1) := by omega
        have hne : ¬ i = x := by omega
        rw [hlx]
        simp only [hxi, if_false, hin, and_self, if_true, hne]
  · -- env_keep
    intro x j hx
    rw [henv, writeBlockLoop_apply]
    rcases hx with hx | hx
    · have hxi : ¬ x = i := by omega
      have hn : ¬ (i < x ∧ x ≤ i + (max 1 (s0.groupBuilder.groupSize i) - 1)) := by omega
      simp only [hxi, if_false, hn, ite_self]
      exact h.env_keep x j (Or.inl (by omega))
    · have hj : ¬ j < BLOCK_SIZE := by omega
      simp only [hj, if_false]
      exact h.env_keep x j (Or.inr hx)

/-- Before the first pass nothing is done. -/
theorem blockSpec_start (ch : Bool) (outs : Nat → Nat → Output) (s0 : Stages) :
    BlockSpec ch outs s0 0 s0 := by
  constructor
  · rfl
  · rfl
  · intro x; rfl
  · intro x hx; omega
  · intro x _; rfl
  · intro x hx; omega
  · intro x _; rfl
  · intro g hg; omega
  · intro g _; rfl
  · refine ⟨[], by simp, List.Pairwise.nil, ?_, ?_⟩
    · intro g
      simp
    · intro c hc
      simp at hc
  · intro x j hx; omega
  · intro x j _; rfl

/-- The walk of `stepBlock` from a group start returns, with every group done
as `BlockSpec` says, and its passes are the group starts with the stride
`max(1, groupSize[i])`. -/
theorem stepBlockLoop_spec (ch : Bool) (outs : Nat → Nat → Output) (s0 : Stages)
    (hok : GroupsOK s0.groupBuilder.groupSize)
    (hfresh : ∀ k, k < NUM_CHANNELS →
      segmentChanged ch s0 (leaderOf s0.groupBuilder.groupSize k) ∨
        s0.num_segments (leaderOf s0.groupBuilder.groupSize k) =
          max 1 (s0.groupBuilder.groupSize (leaderOf s0.groupBuilder.groupSize k))) :
    ∀ (fuel i : Nat) (s : Stages), i ≤ NUM_CHANNELS →
      (i < NUM_CHANNELS → leaderOf s0.groupBuilder.groupSize i = i) →
      NUM_CHANNELS ≤ i + fuel → BlockSpec ch outs s0 i s →
      (∃ s2, stepBlockLoop ch outs fuel i s = some s2 ∧ BlockSpec ch outs s0 NUM_CHANNELS s2) ∧
        stepBlockStops ch outs fuel i s =
          (groupStartsLoop s0.groupBuilder.groupSize fuel i).map
            (fun g => (g, max 1 (s0.groupBuilder.groupSize g))) := by
  intro fuel
  induction fuel with
  | zero =>
    intro i s hle _ hfuel h
    have hi : i = NUM_CHANNELS := by omega
    subst hi
    exact ⟨⟨s, by simp [stepBlockLoop], h⟩, rfl⟩
  | succ fuel ih =>
    intro i s hle hlead hfuel h
    simp only [stepBlockLoop, stepBlockStops, groupStartsLoop]
    by_cases hi : i < NUM_CHANNELS
    · have hli := hlead hi
      obtain ⟨hnum, h2⟩ := stepBlockGroup_spec ch outs s0 s i hok hfresh hi hli h
      have hfit := hok.fits i hi
      rw [hli] at hfit
      have hpos : 1 ≤ max 1 (s0.groupBuilder.groupSize i) := le_max_left _ _
      have hnext := ih (i + max 1 (s0.groupBuilder.groupSize i))
        (stepBlockGroup ch (outs i) s i) hfit
        (fun hlt => hok.next_leader hi hli hlt) (by omega) h2
      simp only [hi, if_true, List.map_cons]
      rw [hnum]
      exact ⟨hnext.1, by rw [hnext.2]⟩
    · have hi6 : i = NUM_CHANNELS := by omega
      subst hi6
      simp only [hi, if_false, List.map_nil]
      exact ⟨⟨s, rfl, h⟩, trivial⟩

/-- The generator invariant only needs the builder, the generators and the
dirty flags that are set. -/
theorem genInv_congr {s s1 : Stages} (h : GenInv s)
    (hgb : s1.groupBuilder = s.groupBuilder)
    (hcc : ∀ x, s.configuration_changed x = true → s1.configuration_changed x = true)
    (hns : s1.num_segments = s.num_segments) : GenInv s1 := by
  unfold GenInv segmentChanged at h ⊢
  rw [hgb, hns]
  refine ⟨h.1, ?_⟩
  intro k hk
  rcases h.2 k hk with (hc | ⟨j, hj, hd⟩) | h1
  · exact Or.inl (Or.inl hc)
  · exact Or.inl (Or.inr ⟨j, hj, hcc _ hd⟩)
  · exact Or.inr h1

/-- The block invariant is the generator invariant with the bound on the loop
points. -/
theorem BlockInv.toGenInv {s : Stages} (h : BlockInv s) : GenInv s := by
  refine ⟨h.1, ?_⟩
  intro k hk
  rcases h.2 k hk with h1 | ⟨_, h1 | h1⟩
  · exact Bool.noConfusion h1
  · exact Or.inl (Or.inr h1)
  · exact Or.inr h1

/-- A block step from a state with the generator invariant returns; the state
it returns is described by `BlockSpec` at the end of the walk, and the passes
are the group starts of the new sizes. -/
theorem stepBlock_spec (s : Stages) (inputs : Nat → Bool) (outs : Nat → Nat → Output)
    (h : GenInv s) :
    (∃ s2, s.stepBlock inputs outs = some s2 ∧
      BlockSpec (s.groupBuilder.buildGroups inputs GATE_INPUTS NUM_CHANNELS).2 outs
        { s with groupBuilder := (s.groupBuilder.buildGroups inputs GATE_INPUTS NUM_CHANNELS).1 }
        NUM_CHANNELS s2) ∧
      stepBlockStops (s.groupBuilder.buildGroups inputs GATE_INPUTS NUM_CHANNELS).2 outs
          NUM_CHANNELS 0
          { s with
            groupBuilder := (s.groupBuilder.buildGroups inputs GATE_INPUTS NUM_CHANNELS).1 } =
        (groupStarts (s.groupBuilder.buildGroups inputs GATE_INPUTS NUM_CHANNELS).1.groupSize).map
          (fun g => (g, max 1
            ((s.groupBuilder.buildGroups inputs GATE_INPUTS NUM_CHANNELS).1.groupSize g))) := by
  have hok := buildGroups_groupsOK s.groupBuilder inputs GATE_INPUTS
  have hfresh : ∀ k, k < NUM_CHANNELS →
      segmentChanged (s.groupBuilder.buildGroups inputs GATE_INPUTS NUM_CHANNELS).2
          { s with
            groupBuilder := (s.groupBuilder.buildGroups inputs GATE_INPUTS NUM_CHANNELS).1 }
          (leaderOf (s.groupBuilder.buildGroups inputs GATE_INPUTS NUM_CHANNELS).1.groupSize k) ∨
        s.num_segments
            (leaderOf (s.groupBuilder.buildGroups inputs GATE_INPUTS NUM_CHANNELS).1.groupSize k) =
          max 1 ((s.groupBuilder.buildGroups inputs GATE_INPUTS NUM_CHANNELS).1.groupSize
            (leaderOf (s.groupBuilder.buildGroups inputs GATE_INPUTS NUM_CHANNELS).1.groupSize
              k)) := by
    intro k hk
    cases hch : (s.groupBuilder.buildGroups inputs GATE_INPUTS NUM_CHANNELS).2 with
    | true => exact Or.inl (Or.inl rfl)
    | false =>
      have hgs := buildGroups_unchanged s.groupBuilder inputs GATE_INPUTS hch
      have := h.2 k hk
      unfold segmentChanged at this ⊢
      simp only [hgs]
      exact this
  exact stepBlockLoop_spec _ outs
    { s with groupBuilder := (s.groupBuilder.buildGroups inputs GATE_INPUTS NUM_CHANNELS).1 }
    hok hfresh NUM_CHANNELS 0 _ (by decide) (fun _ => hok.leader_zero) (by omega)
    (blockSpec_start _ _ _)

/-- A block step keeps the generator invariant. -/
theorem stepBlock_genInv (s s2 : Stages) (inputs : Nat → Bool) (outs : Nat → Nat → Output)
    (h : GenInv s) (hrun : s.stepBlock inputs outs = some s2) : GenInv s2 := by
  obtain ⟨⟨s3, hrun3, hb⟩, _⟩ := stepBlock_spec s inputs outs h
  rw [hrun] at hrun3
  cases hrun3
  have hok := buildGroups_groupsOK s.groupBuilder inputs GATE_INPUTS
  have hgb := hb.gb
  simp only at hgb
  refine ⟨by rw [hgb]; exact hok, ?_⟩
  intro k hk
  right
  rw [hgb]
  exact hb.segs_done _ (hok.leader_lt hk) (hok.leader_idem hk)

/-- After `onReset` every channel is dirty, so the generator invariant holds. -/
theorem onReset_genInv (s : Stages) (init : Nat → Nat)
    (hok : GroupsOK s.groupBuilder.groupSize) : GenInv (s.onReset init) :=
  (onReset_blockInv s init hok).toGenInv

/-- Every state reachable with loads has the generator invariant. -/
theorem ReachableWithLoad.genInv {s : Stages} (h : ReachableWithLoad s) : GenInv s := by
  induction h with
  | new init => exact (new_blockInv init).toGenInv
  | onReset init _ ih => exact onReset_genInv _ init ih.1
  | toggleLoop i hi _ ih =>
    refine genInv_congr ih (toggleLoop_groupBuilder _ _) ?_ (toggleLoop_num_segments _ _)
    intro x hx
    rw [toggleLoop_changed, setAt_apply]
    split
    · rfl
    · exact hx
  | toggleMode i _ _ ih =>
    refine genInv_congr ih rfl ?_ rfl
    intro x hx
    simp only [Stages.toggleMode, setAt_apply]
    split
    · rfl
    · exact hx
  | setABLoop _ ih => exact genInv_congr ih rfl (fun _ hx => hx) rfl
  | fromJson rootJ _ ih =>
    obtain ⟨h1, h2, h3, _⟩ := fromJsonLoop_frame (json_object_get rootJ "configurations")
      NUM_CHANNELS _
    exact genInv_congr ih h3 (fun x hx => by rw [show (Stages.fromJson _ rootJ).configuration_changed = _ from h1]; exact hx) h2
  | stepBlock inputs outs _ hstep ih => exact stepBlock_genInv _ _ inputs outs ih hstep

/-- A reachable state is reachable with loads. -/
theorem Reachable.withLoad {s : Stages} (h : Reachable s) : ReachableWithLoad s := by
  induction h with
  | new init => exact ReachableWithLoad.new init
  | onReset init _ ih => exact ReachableWithLoad.onReset init ih
  | toggleLoop i hi _ ih => exact ReachableWithLoad.toggleLoop i hi ih
  | toggleMode i hi _ ih => exact ReachableWithLoad.toggleMode i hi ih
  | setABLoop _ ih => exact ReachableWithLoad.setABLoop ih
  | stepBlock inputs outs _ hstep ih => exact ReachableWithLoad.stepBlock inputs outs ih hstep

/-- Under the group structure the walk from a group start stops exactly at
the group starts from there on. -/
theorem GroupsOK.mem_groupStartsLoop {gs : Nat → Nat} (ok : GroupsOK gs) :
    ∀ (fuel i : Nat), i ≤ NUM_CHANNELS → (i < NUM_CHANNELS → leaderOf gs i = i) →
      NUM_CHANNELS ≤ i + fuel →
      ∀ g, g ∈ groupStartsLoop gs fuel i ↔ (i ≤ g ∧ g < NUM_CHANNELS ∧ leaderOf gs g = g) := by
  intro fuel
  induction fuel with
  | zero =>
    intro i hle _ hfuel g
    simp only [groupStartsLoop, List.not_mem_nil, false_iff]
    omega
  | succ fuel ih =>
    intro i hle hlead hfuel g
    simp only [groupStartsLoop]
    by_cases hi : i < NUM_CHANNELS
    · have hli := hlead hi
      have hfit := ok.fits i hi
      rw [hli] at hfit
      have hpos : 1 ≤ max 1 (gs i) := le_max_left _ _
      simp only [hi, if_true, List.mem_cons]
      rw [ih (i + max 1 (gs i)) hfit (fun hlt => ok.next_leader hi hli hlt) (by omega) g]
      constructor
      · rintro (e | ⟨h1, h2, h3⟩)
        · rw [e]; exact ⟨le_refl _, hi, hli⟩
        · exact ⟨by omega, h2, h3⟩
      · rintro ⟨h1, h2, h3⟩
        by_cases hgi : g = i
        · exact Or.inl hgi
        · exact Or.inr ⟨ok.run_below hi hli h2 h3 (by omega), h2, h3⟩
    · simp only [hi, if_false, List.not_mem_nil, false_iff]
      omega

/-- Under the group structure the group starts are the channels that lead
their own group. -/
theorem GroupsOK.mem_groupStarts {gs : Nat → Nat} (ok : GroupsOK gs) (g : Nat) :
    g ∈ groupStarts gs ↔ (g < NUM_CHANNELS ∧ leaderOf gs g = g) := by
  unfold groupStarts
  rw [ok.mem_groupStartsLoop NUM_CHANNELS 0 (by decide) (fun _ => ok.leader_zero) (by omega) g]
  constructor
  · rintro ⟨_, h2, h3⟩
    exact ⟨h2, h3⟩
  · rintro ⟨h2, h3⟩
    exact ⟨Nat.zero_le _, h2, h3⟩

/-- The first block step of a new module with every gate patched. -/
theorem sixSingles_eq :
    (Stages.new (fun _ => 0)).stepBlock
      (patternOf [true, true, true, true, true, true]) zeroOuts = some sixSingles := by
  obtain ⟨s2, hrun, _⟩ := stepBlock_blockInv (Stages.new (fun _ => 0))
    (patternOf [true, true, true, true, true, true]) zeroOuts (new_blockInv _)
  unfold sixSingles
  rw [hrun]
  rfl

/-- The example state is reachable. -/
theorem sixSingles_reachable : Reachable sixSingles :=
  Reachable.stepBlock _ _ (Reachable.new (fun _ => 0)) sixSingles_eq

/-- The second block step of the example returns `sixSinglesBlock`. -/
theorem sixSinglesBlock_eq :
    sixSingles.stepBlock (patternOf [true, true, true, true, true, false]) zeroOuts =
      some sixSinglesBlock := by
  obtain ⟨s2, hrun, _⟩ := stepBlock_blockInv sixSingles
    (patternOf [true, true, true, true, true, false]) zeroOuts sixSingles_reachable.blockInv
  unfold sixSinglesBlock
  rw [hrun]
  rfl

/-- The block step of the example returns `abUsedUpBlock`. -/
theorem abUsedUpBlock_eq :
    abUsedUp.stepBlock (patternOf [true, false, false, false, false, false]) zeroOuts =
      some abUsedUpBlock := by
  obtain ⟨s2, hrun, _⟩ := stepBlock_blockInv abUsedUp
    (patternOf [true, false, false, false, false, false]) zeroOuts abUsedUp_reachable.blockInv
  unfold abUsedUpBlock
  rw [hrun]
  rfl

/-- The stops of the walk from `i` are at or after `i`. -/
theorem groupStartsLoop_ge (gs : Nat → Nat) :
    ∀ (fuel i g : Nat), g ∈ groupStartsLoop gs fuel i → i ≤ g := by
  intro fuel
  induction fuel with
  | zero => intro i g h; simp [groupStartsLoop] at h
  | succ fuel ih =>
    intro i g h
    simp only [groupStartsLoop] at h
    split at h
    · rcases List.mem_cons.1 h with e | h2
      · omega
      · have := ih _ _ h2
        omega
    · simp at h

/-- The stops of the walk are in increasing order. -/
theorem groupStartsLoop_sorted (gs : Nat → Nat) :
    ∀ (fuel i : Nat), (groupStartsLoop gs fuel i).Pairwise (fun a b => a < b) := by
  intro fuel
  induction fuel with
  | zero => intro i; exact List.Pairwise.nil
  | succ fuel ih =>
    intro i
    simp only [groupStartsLoop]
    split
    · refine List.Pairwise.cons ?_ (ih _)
      intro g hg
      have := groupStartsLoop_ge gs _ _ g hg
      have hpos : 1 ≤ max 1 (gs i) := le_max_left _ _
      omega
    · exact List.Pairwise.nil

/-- Under the group structure every channel lies in the run of exactly one
group start. -/
theorem GroupsOK.unique_start {gs : Nat → Nat} (ok : GroupsOK gs) (k : Nat)
    (hk : k < NUM_CHANNELS) :
    ∃! g, g ∈ groupStarts gs ∧ g ≤ k ∧ k < g + max 1 (gs g) := by
  refine ⟨leaderOf gs k, ⟨(ok.mem_groupStarts _).2 ⟨ok.leader_lt hk, ok.leader_idem hk⟩,
    ok.le k hk, ok.lt k hk⟩, ?_⟩
  rintro g ⟨hg, h1, h2⟩
  obtain ⟨hg6, hlg⟩ := (ok.mem_groupStarts g).1 hg
  exact ((ok.leader_of_mem hg6 hlg h1 h2).2).symm

/-- What a block step from a state reachable with loads gives, in the terms
of the state before the step. -/
theorem stepBlock_summary (s : Stages) (inputs : Nat → Bool) (outs : Nat → Nat → Output)
    (h : GenInv s) :
    ∃ s2 added, s.stepBlock inputs outs = some s2 ∧
      s2.groupBuilder = (s.groupBuilder.buildGroups inputs GATE_INPUTS NUM_CHANNELS).1 ∧
      GroupsOK s2.groupBuilder.groupSize ∧
      s2.abLoop = s.abLoop ∧
      (∀ x, (s2.configurations x).type = (s.configurations x).type) ∧
      s2.configureCalls = s.configureCalls ++ added ∧
      (added.map ConfigureCall.generator).Pairwise (fun a b => a < b) ∧
      (∀ g, g ∈ added.map ConfigureCall.generator ↔
        (g ∈ groupStarts s2.groupBuilder.groupSize ∧
          ((∃ k, k < NUM_CHANNELS ∧ s2.groupBuilder.groupSize k ≠ s.groupBuilder.groupSize k) ∨
            ∃ j, j < max 1 (s2.groupBuilder.groupSize g) ∧
              s.configuration_changed (g + j) = true))) ∧
      (∀ g, g ∈ added.map ConfigureCall.generator →
        2 < countLoopsLoop s.configurations g (max 1 (s2.groupBuilder.groupSize g)) →
        ∀ j, j < max 1 (s2.groupBuilder.groupSize g) →
          (s2.configurations (g + j)).loop = false) ∧
      (∀ g, g ∈ groupStarts s2.groupBuilder.groupSize →
        (g ∉ added.map ConfigureCall.generator ∨
          countLoopsLoop s.configurations g (max 1 (s2.groupBuilder.groupSize g)) ≤ 2) →
        ∀ j, j < max 1 (s2.groupBuilder.groupSize g) →
          (s2.configurations (g + j)).loop = (s.configurations (g + j)).loop) ∧
      (∀ k, k < NUM_CHANNELS → s2.configuration_changed k = false) ∧
      (∀ g, g ∈ groupStarts s2.groupBuilder.groupSize →
        s2.num_segments g = max 1 (s2.groupBuilder.groupSize g)) ∧
      (∀ x j, x < NUM_CHANNELS → j < BLOCK_SIZE →
        s2.envelopeBuffer x j =
          if leaderOf s2.groupBuilder.groupSize x = x then (outs x j).value
          else if ((x - leaderOf s2.groupBuilder.groupSize x : Nat) : Int) =
              (outs (leaderOf s2.groupBuilder.groupSize x) j).segment then
            1 - (outs (leaderOf s2.groupBuilder.groupSize x) j).phase
          else 0) := by
  obtain ⟨⟨s2, hrun, hb⟩, _⟩ := stepBlock_spec s inputs outs h
  have hok := buildGroups_groupsOK s.groupBuilder inputs GATE_INPUTS
  have hgb := hb.gb
  simp only at hgb
  obtain ⟨added, hadd, hsorted, hmemq, _⟩ := hb.calls
  have hch : ∀ g, segmentChanged (s.groupBuilder.buildGroups inputs GATE_INPUTS NUM_CHANNELS).2
        { s with groupBuilder := (s.groupBuilder.buildGroups inputs GATE_INPUTS NUM_CHANNELS).1 }
        g ↔
      ((∃ k, k < NUM_CHANNELS ∧
          (s.groupBuilder.buildGroups inputs GATE_INPUTS NUM_CHANNELS).1.groupSize k ≠
            s.groupBuilder.groupSize k) ∨
        ∃ j, j < max 1 ((s.groupBuilder.buildGroups inputs GATE_INPUTS NUM_CHANNELS).1.groupSize g) ∧
          s.configuration_changed (g + j) = true) := by
    intro g
    unfold segmentChanged
    rw [buildGroups_changed_iff]
  have hmem2 : ∀ g, g ∈ added.map ConfigureCall.generator ↔
      (g ∈ groupStarts (s.groupBuilder.buildGroups inputs GATE_INPUTS NUM_CHANNELS).1.groupSize ∧
        segmentChanged (s.groupBuilder.buildGroups inputs GATE_INPUTS NUM_CHANNELS).2
        { s with groupBuilder := (s.groupBuilder.buildGroups inputs GATE_INPUTS NUM_CHANNELS).1 }
        g) := by
    intro g
    rw [hmemq g, hok.mem_groupStarts g]
    constructor
    · rintro ⟨h1, h2, h3⟩
      exact ⟨⟨h1, h2⟩, h3⟩
    · rintro ⟨⟨h1, h2⟩, h3⟩
      exact ⟨h1, h2, h3⟩
  refine ⟨s2, added, hrun, hgb, by rw [hgb]; exact hok, hb.ab, hb.type, hadd, hsorted, ?_, ?_, ?_,
    ?_, ?_, ?_⟩
  · intro g
    rw [hgb, hmem2 g, hch g]
  · intro g hg hcount j hj
    rw [hgb] at hcount hj
    obtain ⟨hg1, hg2⟩ := (hmem2 g).1 hg
    obtain ⟨hg6, hlg⟩ := (hok.mem_groupStarts g).1 hg1
    obtain ⟨hx6, hlx⟩ := hok.leader_of_mem hg6 hlg (Nat.le_add_right g j) (by omega)
    apply hb.loop_clear (g + j) hx6
    · rw [hlx]; exact hg2
    · rw [hlx]; exact hcount
  · intro g hg hcase j hj
    rw [hgb] at hg hcase hj
    obtain ⟨hg6, hlg⟩ := (hok.mem_groupStarts g).1 hg
    obtain ⟨hx6, hlx⟩ := hok.leader_of_mem hg6 hlg (Nat.le_add_right g j) (by omega)
    apply hb.loop_keep (g + j)
    right
    rw [hlx]
    rcases hcase with hc | hc
    · left
      intro hseg
      exact hc ((hmem2 g).2 ⟨hg, hseg⟩)
    · right
      exact hc
  · intro k hk
    exact hb.dirty_done k hk
  · intro g hg
    rw [hgb] at hg ⊢
    obtain ⟨hg6, hlg⟩ := (hok.mem_groupStarts g).1 hg
    exact hb.segs_done g hg6 hlg
  · intro x j hx hj
    rw [hgb]
    exact hb.env_done x j hx hj

/-! ## Claims on stepBlock -/

/-- The loaded example state is reachable with loads. -/
theorem loadedThreeLoops_reachable : ReachableWithLoad loadedThreeLoops :=
  ReachableWithLoad.toggleMode 0 (by decide)
    (ReachableWithLoad.fromJson _
      (ReachableWithLoad.stepBlock _ _ (ReachableWithLoad.new (fun _ => 0)) firstBlock_eq))

/-- The block step of the loaded example returns `loadedThreeLoopsBlock`. -/
theorem loadedThreeLoopsBlock_eq :
    loadedThreeLoops.stepBlock (patternOf [true, false, false, false, false, false])
      zeroOuts = some loadedThreeLoopsBlock := by
  obtain ⟨⟨s2, hrun, _⟩, _⟩ := stepBlock_spec loadedThreeLoops
    (patternOf [true, false, false, false, false, false]) zeroOuts
    loadedThreeLoops_reachable.genInv
  unfold loadedThreeLoopsBlock
  rw [hrun]
  rfl

/-- C13, as amended (reconfiguration). In every state reachable with loads a
block step returns, and the calls of `Configure` it makes are for group starts
of the new sizes, in increasing order and at most one per group. For every
group visited, `Configure` is called for that group if and only if
`buildGroups` reported a change, that is the stored size of at least one
channel, of this group or of any other, differs from the previous block, or
at least one member channel of the group had its dirty flag set. -/
theorem stepBlock_configure_iff (s : Stages) (inputs : Nat → Bool) (outs : Nat → Nat → Output)
    (h : ReachableWithLoad s) :
    ∃ s2 added, s.stepBlock inputs outs = some s2 ∧
      s2.groupBuilder = (s.groupBuilder.buildGroups inputs GATE_INPUTS NUM_CHANNELS).1 ∧
      s2.configureCalls = s.configureCalls ++ added ∧
      (added.map ConfigureCall.generator).Pairwise (fun a b => a < b) ∧
      (∀ g, g ∈ added.map ConfigureCall.generator → g ∈ groupStarts s2.groupBuilder.groupSize) ∧
      ∀ g, g ∈ groupStarts s2.groupBuilder.groupSize →
        (g ∈ added.map ConfigureCall.generator ↔
          ((∃ k, k < NUM_CHANNELS ∧ s2.groupBuilder.groupSize k ≠ s.groupBuilder.groupSize k) ∨
            ∃ j, j < max 1 (s2.groupBuilder.groupSize g) ∧
              s.configuration_changed (g + j) = true)) := by
  obtain ⟨s2, added, hrun, hgb, _, _, _, hadd, hsorted, hmem, _⟩ :=
    stepBlock_summary s inputs outs h.genInv
  refine ⟨s2, added, hrun, hgb, hadd, hsorted, fun g hg => ((hmem g).1 hg).1, ?_⟩
  intro g hg
  rw [hmem g]
  exact ⟨fun hh => hh.2, fun hh => ⟨hg, hh⟩⟩

/-- Witness for C13: the block step of the six single channels after the cable
of gate 5 is pulled. -/
theorem stepBlock_configure_iff_witness :
    ReachableWithLoad sixSingles ∧
    ∃ s2 added,
      sixSingles.stepBlock (patternOf [true, true, true, true, true, false]) zeroOuts = some s2 ∧
      s2.configureCalls = sixSingles.configureCalls ++ added ∧
      ∀ g, g ∈ groupStarts s2.groupBuilder.groupSize →
        (g ∈ added.map ConfigureCall.generator ↔
          ((∃ k, k < NUM_CHANNELS ∧
              s2.groupBuilder.groupSize k ≠ sixSingles.groupBuilder.groupSize k) ∨
            ∃ j, j < max 1 (s2.groupBuilder.groupSize g) ∧
              sixSingles.configuration_changed (g + j) = true)) :=
  have h := stepBlock_configure_iff sixSingles
    (patternOf [true, true, true, true, true, false]) zeroOuts sixSingles_reachable.withLoad
  ⟨sixSingles_reachable.withLoad,
    h.elim fun s2 h2 => h2.elim fun added h3 => ⟨s2, added, h3.1, h3.2.2.1, h3.2.2.2.2.2⟩⟩

/-- C13 as stated fails: six single channels, none dirty, and the cable of
gate 5 is pulled. Channel 0 leads a group of one member before and after the
block step, yet `Configure` is called for it (and for groups 1, 2 and 3, which
did not change either). -/
theorem stepBlock_configures_unchanged_group :
    Reachable sixSingles ∧
    sixSingles.stepBlock (patternOf [true, true, true, true, true, false]) zeroOuts =
      some sixSinglesBlock ∧
    (∀ k, k < NUM_CHANNELS → sixSingles.configuration_changed k = false) ∧
    leaderOf sixSingles.groupBuilder.groupSize 0 = 0 ∧
    max 1 (sixSingles.groupBuilder.groupSize 0) = 1 ∧
    leaderOf sixSinglesBlock.groupBuilder.groupSize 0 = 0 ∧
    max 1 (sixSinglesBlock.groupBuilder.groupSize 0) = 1 ∧
    sixSinglesBlock.configureCalls.map ConfigureCall.generator =
      sixSingles.configureCalls.map ConfigureCall.generator ++ [0, 1, 2, 3, 4] :=
  ⟨sixSingles_reachable, sixSinglesBlock_eq, by decide, by decide, by decide, by decide,
    by decide, by decide⟩

/-- C14, as amended (loop clamp at block time). In every state reachable with
loads a block step returns, and every group it reconfigures holds at most 2
loop-enabled channels afterwards, whether `abLoop` is true or false: when the
group held more than 2, every loop flag of the group is forced false and none
is left; when it held at most 2, the count is what it was. -/
theorem stepBlock_loop_bound (s : Stages) (inputs : Nat → Bool) (outs : Nat → Nat → Output)
    (h : ReachableWithLoad s) :
    ∃ s2 added, s.stepBlock inputs outs = some s2 ∧
      s2.configureCalls = s.configureCalls ++ added ∧
      ∀ g, g ∈ added.map ConfigureCall.generator →
        s2.loopsInGroup g ≤ 2 ∧
        (2 < countLoopsLoop s.configurations g (max 1 (s2.groupBuilder.groupSize g)) →
          s2.loopsInGroup g = 0 ∧
            ∀ j, j < max 1 (s2.groupBuilder.groupSize g) →
              (s2.configurations (g + j)).loop = false) ∧
        (countLoopsLoop s.configurations g (max 1 (s2.groupBuilder.groupSize g)) ≤ 2 →
          s2.loopsInGroup g =
            countLoopsLoop s.configurations g (max 1 (s2.groupBuilder.groupSize g))) := by
  obtain ⟨s2, added, hrun, hgb, _, _, _, hadd, _, hmem, hclear, hkeep, _⟩ :=
    stepBlock_summary s inputs outs h.genInv
  refine ⟨s2, added, hrun, hadd, ?_⟩
  intro g hg
  have hzero : 2 < countLoopsLoop s.configurations g (max 1 (s2.groupBuilder.groupSize g)) →
      s2.loopsInGroup g = 0 := by
    intro hc
    unfold Stages.loopsInGroup
    exact countLoopsLoop_zero _ _ _ (hclear g hg hc)
  have hsame : countLoopsLoop s.configurations g (max 1 (s2.groupBuilder.groupSize g)) ≤ 2 →
      s2.loopsInGroup g =
        countLoopsLoop s.configurations g (max 1 (s2.groupBuilder.groupSize g)) := by
    intro hc
    unfold Stages.loopsInGroup
    exact countLoopsLoop_congr _ _ _ _ (hkeep g ((hmem g).1 hg).1 (Or.inr hc))
  refine ⟨?_, fun hc => ⟨hzero hc, hclear g hg hc⟩, hsame⟩
  by_cases hc : 2 < countLoopsLoop s.configurations g (max 1 (s2.groupBuilder.groupSize g))
  · rw [hzero hc]; omega
  · rw [hsame (by omega)]; omega

/-- Witness for C14: the block step of the loaded chain with 3 loop points. -/
theorem stepBlock_loop_bound_witness :
    ReachableWithLoad loadedThreeLoops ∧ loadedThreeLoops.loopsInGroup 0 = 3 ∧
    ∃ s2 added,
      loadedThreeLoops.stepBlock (patternOf [true, false, false, false, false, false])
        zeroOuts = some s2 ∧
      s2.configureCalls = loadedThreeLoops.configureCalls ++ added ∧
      ∀ g, g ∈ added.map ConfigureCall.generator → s2.loopsInGroup g ≤ 2 :=
  have h := stepBlock_loop_bound loadedThreeLoops
    (patternOf [true, false, false, false, false, false]) zeroOuts loadedThreeLoops_reachable
  ⟨loadedThreeLoops_reachable, by decide,
    h.elim fun s2 h2 => h2.elim fun added h3 =>
      ⟨s2, added, h3.1, h3.2.1, fun g hg => (h3.2.2 g hg).1⟩⟩

/-- C14 as stated fails, in both of its parts. After arming A/B loop mode and
two long presses the chain of six is dirty, holds 2 loop points and `abLoop`
is false: the next block step reconfigures the group (one call of `Configure`,
for generator 0), and afterwards the group still holds 2 loop-enabled channels
with `abLoop` false. And the chain loaded with 3 loop points is reconfigured
by its next block step with no loop flag left, not one. -/
theorem stepBlock_two_loops_abLoop_off :
    (Reachable abUsedUp ∧
      abUsedUp.stepBlock (patternOf [true, false, false, false, false, false]) zeroOuts =
        some abUsedUpBlock ∧
      abUsedUpBlock.configureCalls.map ConfigureCall.generator =
        abUsedUp.configureCalls.map ConfigureCall.generator ++ [0] ∧
      abUsedUpBlock.abLoop = false ∧
      abUsedUpBlock.groupOf 0 = 0 ∧
      abUsedUpBlock.loopsInGroup 0 = 2) ∧
    (ReachableWithLoad loadedThreeLoops ∧
      loadedThreeLoops.loopsInGroup 0 = 3 ∧
      loadedThreeLoops.stepBlock (patternOf [true, false, false, false, false, false])
        zeroOuts = some loadedThreeLoopsBlock ∧
      loadedThreeLoopsBlock.configureCalls.map ConfigureCall.generator =
        loadedThreeLoops.configureCalls.map ConfigureCall.generator ++ [0] ∧
      loadedThreeLoopsBlock.groupOf 0 = 0 ∧
      loadedThreeLoopsBlock.loopsInGroup 0 = 0) :=
  ⟨⟨abUsedUp_reachable, abUsedUpBlock_eq, by decide, by decide, by decide, by decide⟩,
    ⟨loadedThreeLoops_reachable, by decide, loadedThreeLoopsBlock_eq, by decide, by decide,
      by decide⟩⟩

/-- C15 (block-time safety clamp). In every state reachable with loads a block
step returns. For every group it visits: the group is reconfigured exactly
when sizes changed or a member was dirty; a reconfigured group with more than
2 loop-enabled members has none afterwards, whatever `abLoop` is; a
reconfigured group with at most 2 keeps every loop flag; a group that is not
reconfigured keeps every loop flag. `abLoop` and every segment type are as
before the step. -/
theorem stepBlock_safety_clamp (s : Stages) (inputs : Nat → Bool) (outs : Nat → Nat → Output)
    (h : ReachableWithLoad s) :
    ∃ s2 added, s.stepBlock inputs outs = some s2 ∧
      s2.configureCalls = s.configureCalls ++ added ∧
      (∀ g, g ∈ groupStarts s2.groupBuilder.groupSize →
        (g ∈ added.map ConfigureCall.generator ↔
          ((∃ k, k < NUM_CHANNELS ∧ s2.groupBuilder.groupSize k ≠ s.groupBuilder.groupSize k) ∨
            ∃ j, j < max 1 (s2.groupBuilder.groupSize g) ∧
              s.configuration_changed (g + j) = true)) ∧
        (g ∈ added.map ConfigureCall.generator →
          2 < countLoopsLoop s.configurations g (max 1 (s2.groupBuilder.groupSize g)) →
          ∀ j, j < max 1 (s2.groupBuilder.groupSize g) →
            (s2.configurations (g + j)).loop = false) ∧
        (g ∈ added.map ConfigureCall.generator →
          countLoopsLoop s.configurations g (max 1 (s2.groupBuilder.groupSize g)) ≤ 2 →
          ∀ j, j < max 1 (s2.groupBuilder.groupSize g) →
            (s2.configurations (g + j)).loop = (s.configurations (g + j)).loop) ∧
        (g ∉ added.map ConfigureCall.generator →
          ∀ j, j < max 1 (s2.groupBuilder.groupSize g) →
            (s2.configurations (g + j)).loop = (s.configurations (g + j)).loop)) ∧
      s2.abLoop = s.abLoop ∧
      ∀ x, (s2.configurations x).type = (s.configurations x).type := by
  obtain ⟨s2, added, hrun, hgb, _, hab, htype, hadd, _, hmem, hclear, hkeep, _⟩ :=
    stepBlock_summary s inputs outs h.genInv
  refine ⟨s2, added, hrun, hadd, ?_, hab, htype⟩
  intro g hg
  refine ⟨?_, hclear g, fun _ hc => hkeep g hg (Or.inr hc), fun hn => hkeep g hg (Or.inl hn)⟩
  rw [hmem g]
  exact ⟨fun hh => hh.2, fun hh => ⟨hg, hh⟩⟩

/-- Witness for C15: the block step of the loaded chain with 3 loop points
keeps `abLoop` and the types. -/
theorem stepBlock_safety_clamp_witness :
    ReachableWithLoad loadedThreeLoops ∧ loadedThreeLoops.loopsInGroup 0 = 3 ∧
    ∃ s2,
      loadedThreeLoops.stepBlock (patternOf [true, false, false, false, false, false])
        zeroOuts = some s2 ∧
      s2.abLoop = loadedThreeLoops.abLoop ∧
      ∀ x, (s2.configurations x).type = (loadedThreeLoops.configurations x).type :=
  have h := stepBlock_safety_clamp loadedThreeLoops
    (patternOf [true, false, false, false, false, false]) zeroOuts loadedThreeLoops_reachable
  ⟨loadedThreeLoops_reachable, by decide,
    h.elim fun s2 h2 => h2.elim fun _ h3 => ⟨s2, h3.1, h3.2.2.2.1, h3.2.2.2.2⟩⟩

/-- C16 (dirty flags consumed once). A group pass reads and clears the dirty
flags of the run `[i, i + max(1, groupSize[i]))` and touches no other. In
every state reachable with loads (hence from reset, with `num_segments()` as
last configured) a block step returns; its passes are the group starts of the
new sizes in increasing order, each advancing by the length of the run it
scanned; every channel of `[0, 6)` lies in the run of exactly one pass; and
after the step every channel's dirty flag is false. -/
theorem stepBlock_dirty_consumed (s : Stages) (inputs : Nat → Bool)
    (outs : Nat → Nat → Output) (h : ReachableWithLoad s) :
    (∀ (ch : Bool) (out : Nat → Output) (t : Stages) (i x : Nat),
      (stepBlockGroup ch out t i).configuration_changed x =
        if i ≤ x ∧ x < i + max 1 (t.groupBuilder.groupSize i) then false
        else t.configuration_changed x) ∧
    ∃ s2, s.stepBlock inputs outs = some s2 ∧
      stepBlockStops (s.groupBuilder.buildGroups inputs GATE_INPUTS NUM_CHANNELS).2 outs
          NUM_CHANNELS 0
          { s with
            groupBuilder := (s.groupBuilder.buildGroups inputs GATE_INPUTS NUM_CHANNELS).1 } =
        (groupStarts s2.groupBuilder.groupSize).map
          (fun g => (g, max 1 (s2.groupBuilder.groupSize g))) ∧
      (groupStarts s2.groupBuilder.groupSize).Pairwise (fun a b => a < b) ∧
      (∀ k, k < NUM_CHANNELS →
        ∃! g, g ∈ groupStarts s2.groupBuilder.groupSize ∧
          g ≤ k ∧ k < g + max 1 (s2.groupBuilder.groupSize g)) ∧
      (∀ k, k < NUM_CHANNELS → s2.configuration_changed k = false) := by
  refine ⟨stepBlockGroup_changed, ?_⟩
  obtain ⟨⟨s2, hrun, hb⟩, hstops⟩ := stepBlock_spec s inputs outs h.genInv
  have hok := buildGroups_groupsOK s.groupBuilder inputs GATE_INPUTS
  have hgb := hb.gb
  simp only at hgb
  refine ⟨s2, hrun, ?_, ?_, ?_, fun k hk => hb.dirty_done k hk⟩
  · rw [hgb]; exact hstops
  · exact groupStartsLoop_sorted _ _ _
  · intro k hk
    rw [hgb]
    exact hok.unique_start k hk

/-- Witness for C16: the block step of the example state with two fresh loop
points, both dirty. -/
theorem stepBlock_dirty_consumed_witness :
    ReachableWithLoad abUsedUp ∧ abUsedUp.configuration_changed 0 = true ∧
    abUsedUp.configuration_changed 1 = true ∧
    ∃ s2, abUsedUp.stepBlock (patternOf [true, false, false, false, false, false])
        zeroOuts = some s2 ∧
      ∀ k, k < NUM_CHANNELS → s2.configuration_changed k = false :=
  have h := stepBlock_dirty_consumed abUsedUp
    (patternOf [true, false, false, false, false, false]) zeroOuts
    abUsedUp_reachable.withLoad
  ⟨abUsedUp_reachable.withLoad, by decide, by decide,
    h.2.elim fun s2 h2 => ⟨s2, h2.1, h2.2.2.2.2⟩⟩

/-- C17 (output assembly). One group pass at leader `i`, with `n` the
`num_segments()` of its generator and `out` the block it produced: for every
block position `j`, the buffer of `i` holds `out[j].value` and the buffer of
`i + k`, `1 ≤ k < n`, holds `1 - out[j].phase` if `out[j].segment = k` and 0
otherwise; no other channel's buffer is written. After a block step from a
state reachable with loads this holds of every group of the new sizes, with
`n = max(1, groupSize[i])`. With gates 2, 4 and 5 patched the sizes are
`[0, 0, 2, 0, 1, 1]`, channel 2 holds the generator value and channel 3 holds
`1 - phase` where segment 1 is active and 0 elsewhere. -/
theorem stepBlock_output_assembly :
    (∀ (ch : Bool) (out : Nat → Output) (s : Stages) (i j : Nat), j < BLOCK_SIZE →
      (stepBlockGroup ch out s i).envelopeBuffer i j = (out j).value ∧
      ∀ k, 1 ≤ k → k < (stepBlockGroup ch out s i).num_segments i →
        (stepBlockGroup ch out s i).envelopeBuffer (i + k) j =
          if ((k : Nat) : Int) = (out j).segment then 1 - (out j).phase else 0) ∧
    (∀ (ch : Bool) (out : Nat → Output) (s : Stages) (i x y : Nat),
      x ≠ i → ¬ (i < x ∧ x < i + (stepBlockGroup ch out s i).num_segments i) →
      (stepBlockGroup ch out s i).envelopeBuffer x y = s.envelopeBuffer x y) ∧
    (∀ (s : Stages) (inputs : Nat → Bool) (outs : Nat → Nat → Output), ReachableWithLoad s →
      ∃ s2, s.stepBlock inputs outs = some s2 ∧
        ∀ g, g ∈ groupStarts s2.groupBuilder.groupSize →
          s2.num_segments g = max 1 (s2.groupBuilder.groupSize g) ∧
          ∀ j, j < BLOCK_SIZE →
            s2.envelopeBuffer g j = (outs g j).value ∧
            ∀ k, 1 ≤ k → k < max 1 (s2.groupBuilder.groupSize g) →
              s2.envelopeBuffer (g + k) j =
                if ((k : Nat) : Int) = (outs g j).segment then 1 - (outs g j).phase else 0) ∧
    (∀ (s : Stages) (outs : Nat → Nat → Output), ReachableWithLoad s →
      ∃ s2, s.stepBlock (patternOf [false, false, true, false, true, true]) outs = some s2 ∧
        (List.range NUM_CHANNELS).map s2.groupBuilder.groupSize = [0, 0, 2, 0, 1, 1] ∧
        ∀ j, j < BLOCK_SIZE →
          s2.envelopeBuffer 2 j = (outs 2 j).value ∧
          s2.envelopeBuffer 3 j =
            if (outs 2 j).segment = 1 then 1 - (outs 2 j).phase else 0) := by
  refine ⟨?_, ?_, ?_, ?_⟩
  · intro ch out s i j hj
    rw [stepBlockGroup_envelopeBuffer]
    refine ⟨?_, ?_⟩
    · rw [writeBlockLoop_apply]
      simp only [hj, if_true]
    · intro k hk1 hk2
      rw [writeBlockLoop_apply]
      have hne : ¬ i + k = i := by omega
      have hin : i < i + k ∧ i + k ≤ i + ((stepBlockGroup ch out s i).num_segments i - 1) := by
        omega
      have e : i + k - i = k := by omega
      simp only [hj, if_true, hne, if_false, hin, and_self, e]
  · intro ch out s i x y hx hout
    rw [stepBlockGroup_envelopeBuffer, writeBlockLoop_apply]
    have hn : ¬ (i < x ∧ x ≤ i + ((stepBlockGroup ch out s i).num_segments i - 1)) := by omega
    simp only [hx, if_false, hn, ite_self]
  · intro s inputs outs h
    obtain ⟨s2, added, hrun, hgb, hok, _, _, _, _, _, _, _, _, hsegs, henv⟩ :=
      stepBlock_summary s inputs outs h.genInv
    refine ⟨s2, hrun, ?_⟩
    intro g hg
    obtain ⟨hg6, hlg⟩ := (hok.mem_groupStarts g).1 hg
    refine ⟨hsegs g hg, ?_⟩
    intro j hj
    refine ⟨?_, ?_⟩
    · rw [henv g j hg6 hj, if_pos hlg]
    · intro k hk1 hk2
      obtain ⟨hx6, hlx⟩ := hok.leader_of_mem hg6 hlg (Nat.le_add_right g k) (by omega)
      rw [henv (g + k) j hx6 hj, hlx, if_neg (by omega)]
      have e : g + k - g = k := by omega
      rw [e]
  · intro s outs h
    obtain ⟨s2, added, hrun, hgb, hok, _, _, _, _, _, _, _, _, hsegs, henv⟩ :=
      stepBlock_summary s (patternOf [false, false, true, false, true, true]) outs h.genInv
    have hsz : ∀ k, k < NUM_CHANNELS → s2.groupBuilder.groupSize k =
        sizesOf (bitsOf (patternOf [false, false, true, false, true, true]) GATE_INPUTS) k := by
      intro k hk
      rw [hgb]
      exact buildGroups_size_eq _ _ _ k hk
    have hl : ∀ x, leaderOf s2.groupBuilder.groupSize x =
        leaderOf (sizesOf (bitsOf (patternOf [false, false, true, false, true, true])
          GATE_INPUTS)) x := leaderOf_congr _ _ hsz
    refine ⟨s2, hrun, ?_, ?_⟩
    · simp only [NUM_CHANNELS, List.range_succ, List.range_zero, List.nil_append, List.map_cons,
        List.cons_append, List.map_nil]
      rw [hsz 0 (by decide), hsz 1 (by decide), hsz 2 (by decide), hsz 3 (by decide),
        hsz 4 (by decide), hsz 5 (by decide)]
      decide
    · intro j hj
      have h2 : leaderOf s2.groupBuilder.groupSize 2 = 2 := by rw [hl]; decide
      have h3 : leaderOf s2.groupBuilder.groupSize 3 = 2 := by rw [hl]; decide
      refine ⟨?_, ?_⟩
      · rw [henv 2 j (by decide) hj, if_pos h2]
      · rw [henv 3 j (by decide) hj, h3, if_neg (by decide)]
        have e : (((3 - 2 : Nat) : Nat) : Int) = 1 := by decide
        rw [e]
        by_cases hs : (outs 2 j).segment = 1
        · rw [if_pos hs, if_pos hs.symm]
        · rw [if_neg hs, if_neg (fun e2 => hs e2.symm)]

/-! ## step: buttons, cadence and indicator -/

/-- `toggleLoop` does not write the buffer. -/
theorem toggleLoop_envelopeBuffer (s : Stages) (i : Nat) :
    (s.toggleLoop i).envelopeBuffer = s.envelopeBuffer := by
  unfold Stages.toggleLoop
  simp only
  split
  · split <;> split <;> rfl
  · rfl

/-- The button loop changes only the buttons and, through `toggleMode` and
`toggleLoop`, the records, dirty flags and `abLoop`. -/
theorem stepButtonsLoop_frame (inp : StepInput) :
    ∀ (n : Nat) (m : Module),
      (stepButtonsLoop inp n m).blockIndex = m.blockIndex ∧
      (stepButtonsLoop inp n m).blocksRun = m.blocksRun ∧
      (stepButtonsLoop inp n m).oscillatorSteps = m.oscillatorSteps ∧
      (stepButtonsLoop inp n m).oscillator = m.oscillator ∧
      (stepButtonsLoop inp n m).outputs = m.outputs ∧
      (stepButtonsLoop inp n m).stages.envelopeBuffer = m.stages.envelopeBuffer ∧
      (n ≤ NUM_CHANNELS → ReachableWithLoad m.stages →
        ReachableWithLoad (stepButtonsLoop inp n m).stages) := by
  intro n
  induction n with
  | zero => intro m; exact ⟨rfl, rfl, rfl, rfl, rfl, rfl, fun _ h => h⟩
  | succ n ih =>
    intro m
    obtain ⟨h1, h2, h3, h4, h5, h6, h7⟩ := ih m
    simp only [stepButtonsLoop]
    split
    · exact ⟨h1, h2, h3, h4, h5, h6, fun hn h => h7 (by omega) h⟩
    · exact ⟨h1, h2, h3, h4, h5, h6,
        fun hn h => ReachableWithLoad.toggleMode n (by omega) (h7 (by omega) h)⟩
    · refine ⟨h1, h2, h3, h4, h5, ?_,
        fun hn h => ReachableWithLoad.toggleLoop n (by omega) (h7 (by omega) h)⟩
      simp only [toggleLoop_envelopeBuffer]
      exact h6


/-- The locals of the output loop at channel `n`, from those left by channel
`n - 1`: the group of `n` and the loop points counted in it before `n`. -/
theorem outputLoop_locals {gs : Nat → Nat} (ok : GroupsOK gs) (cfg : Nat → Configuration)
    (n : Nat) (hn : n < NUM_CHANNELS) (c l : Int)
    (h0 : n = 0 → c = 0 ∧ l = 0)
    (h1 : 0 < n →
      c = ((leaderOf gs (n - 1) + max 1 (gs (leaderOf gs (n - 1))) : Nat) : Int) - (n : Int) ∧
      l = ((countLoopsLoop cfg (leaderOf gs (n - 1)) (n - leaderOf gs (n - 1)) : Nat) : Int)) :
    (if c ≤ 0 then max 1 (gs n : Int) else c) =
        ((leaderOf gs n + max 1 (gs (leaderOf gs n)) : Nat) : Int) - (n : Int) ∧
      (if c ≤ 0 then 0 else l) =
        ((countLoopsLoop cfg (leaderOf gs n) (n - leaderOf gs n) : Nat) : Int) := by
  have hmax : max 1 (gs n : Int) = ((max 1 (gs n) : Nat) : Int) := by
    rw [Nat.cast_max]; rfl
  rcases Nat.eq_zero_or_pos n with hz | hpos
  · obtain ⟨hc, hl⟩ := h0 hz
    subst hz
    rw [hc, hl, ok.leader_zero]
    simp only [le_refl, if_true, hmax]
    refine ⟨by push_cast; omega, rfl⟩
  · obtain ⟨hc, hl⟩ := h1 hpos
    have hp : n - 1 < NUM_CHANNELS := by omega
    have hle := ok.le (n - 1) hp
    have hlt := ok.lt (n - 1) hp
    have hg6 := ok.leader_lt hp
    have hidem := ok.leader_idem hp
    by_cases hend : n = leaderOf gs (n - 1) + max 1 (gs (leaderOf gs (n - 1)))
    · have hnext := ok.next_leader hg6 hidem (by omega)
      rw [← hend] at hnext
      have hc0 : c ≤ 0 := by rw [hc]; omega
      rw [if_pos hc0, if_pos hc0, hnext, hmax, Nat.sub_self]
      exact ⟨by push_cast; omega, rfl⟩
    · have hsame := ok.same (n - 1) hp n hn (by omega) (by omega)
      have hc0 : ¬ c ≤ 0 := by rw [hc]; omega
      rw [if_neg hc0, if_neg hc0, hsame]
      exact ⟨hc, hl⟩

/-- The output loop after `n` channels: it writes `outputs[i]` from position
`blockIndex` of the buffer, steps each oscillator once with the offset of its
position in the group, and leaves the block state as it is. -/
theorem stepOutputLoop_spec (st : ℚ) (m : Module)
    (hok : GroupsOK m.stages.groupBuilder.groupSize) :
    ∀ n, n ≤ NUM_CHANNELS →
      (stepOutputLoop st n m).1.stages = m.stages ∧
      (stepOutputLoop st n m).1.blockIndex = m.blockIndex ∧
      (stepOutputLoop st n m).1.blocksRun = m.blocksRun ∧
      (stepOutputLoop st n m).1.typeButtons = m.typeButtons ∧
      (stepOutputLoop st n m).1.oscillatorSteps =
        m.oscillatorSteps ++ (List.range n).map (fun i => (i, indicatorOffset m.stages i)) ∧
      (∀ i, (stepOutputLoop st n m).1.outputs i =
        if i < n then m.stages.envelopeBuffer i m.blockIndex * 8 else m.outputs i) ∧
      (∀ i, (stepOutputLoop st n m).1.oscillator i =
        if i < n then ((m.oscillator i).step st (indicatorOffset m.stages i)).1
        else m.oscillator i) ∧
      (n = 0 → (stepOutputLoop st n m).2.1 = 0 ∧ (stepOutputLoop st n m).2.2 = 0) ∧
      (0 < n →
        (stepOutputLoop st n m).2.1 =
          ((leaderOf m.stages.groupBuilder.groupSize (n - 1) +
            max 1 (m.stages.groupBuilder.groupSize
              (leaderOf m.stages.groupBuilder.groupSize (n - 1))) : Nat) : Int) - (n : Int) ∧
        (stepOutputLoop st n m).2.2 =
          ((countLoopsLoop m.stages.configurations
            (leaderOf m.stages.groupBuilder.groupSize (n - 1))
            (n - leaderOf m.stages.groupBuilder.groupSize (n - 1)) : Nat) : Int)) := by
  intro n
  induction n with
  | zero =>
    intro _
    refine ⟨rfl, rfl, rfl, rfl, by simp [stepOutputLoop], fun i => by simp [stepOutputLoop],
      fun i => by simp [stepOutputLoop], fun _ => ⟨rfl, rfl⟩, fun h => absurd h (by omega)⟩
  | succ n ih =>
    intro hn
    have hn6 : n < NUM_CHANNELS := by omega
    obtain ⟨h1, h2, h3, h4, h5, h6, h7, h8, h9⟩ := ih (by omega)
    have hloc := outputLoop_locals hok m.stages.configurations n hn6 _ _ h8 h9
    have hle := hok.le n hn6
    simp only [stepOutputLoop, h1, h2, h3, h4, h5]
    rw [hloc.1, hloc.2]
    have hcount : countLoopsLoop m.stages.configurations
        (leaderOf m.stages.groupBuilder.groupSize n)
        (n + 1 - leaderOf m.stages.groupBuilder.groupSize n) =
        countLoopsLoop m.stages.configurations (leaderOf m.stages.groupBuilder.groupSize n)
          (n - leaderOf m.stages.groupBuilder.groupSize n) +
          (if (m.stages.configurations n).loop then 1 else 0) := by
      have e : n + 1 - leaderOf m.stages.groupBuilder.groupSize n =
          (n - leaderOf m.stages.groupBuilder.groupSize n) + 1 := by omega
      rw [e, countLoopsLoop]
      have e2 : leaderOf m.stages.groupBuilder.groupSize n +
          (n - leaderOf m.stages.groupBuilder.groupSize n) = n := by omega
      rw [e2]
    have hoff : (if (!(m.stages.configurations n).loop) = true then (0 : ℚ)
        else if ((m.stages.configurations n).loop &&
            decide (((countLoopsLoop m.stages.configurations
              (leaderOf m.stages.groupBuilder.groupSize n)
              (n - leaderOf m.stages.groupBuilder.groupSize n) : Nat) : Int) +
              (if (m.stages.configurations n).loop = true then 1 else 0) = 1)) = true then 0
        else 1 / 4) = indicatorOffset m.stages n := by
      unfold indicatorOffset
      cases hl : (m.stages.configurations n).loop with
      | false => simp
      | true =>
        simp only [Bool.not_true, Bool.false_eq_true, if_false, if_true, Bool.true_and,
          decide_eq_true_eq]
        by_cases hz : countLoopsLoop m.stages.configurations
            (leaderOf m.stages.groupBuilder.groupSize n)
            (n - leaderOf m.stages.groupBuilder.groupSize n) = 0
        · rw [hz]; simp
        · rw [if_neg hz, if_neg]
          omega
    rw [hoff]
    refine ⟨trivial, trivial, trivial, trivial, ?_, ?_, ?_, fun h => absurd h (by omega), ?_⟩
    · rw [List.range_succ, List.map_append, List.append_assoc]
      rfl
    · intro i
      rw [setAt_apply]
      by_cases hi : i = n
      · subst hi
        simp
      · rw [if_neg hi, h6 i]
        by_cases hlt : i < n
        · rw [if_pos hlt, if_pos (by omega)]
        · rw [if_neg hlt, if_neg (by omega)]
    · intro i
      rw [setAt_apply]
      by_cases hi : i = n
      · subst hi
        rw [if_pos rfl, if_pos (by omega), h7 i, if_neg (by omega)]
      · rw [if_neg hi, h7 i]
        by_cases hlt : i < n
        · rw [if_pos hlt, if_pos (by omega)]
        · rw [if_neg hlt, if_neg (by omega)]
    · intro _
      simp only [Nat.add_sub_cancel]
      refine ⟨by push_cast; omega, ?_⟩
      rw [hcount]
      push_cast
      split <;> rfl


/-- One call of `step` on a module whose block state is reachable with loads:
it returns; `stepBlock` runs exactly when the incremented `blockIndex` reaches
`BLOCK_SIZE`; the outputs are position `blockIndex` of the buffer; and every
oscillator is stepped once with the offset of its channel. -/
theorem step_spec (m : Module) (inp : StepInput) (h : ReachableWithLoad m.stages) :
    ∃ m2, m.step inp = some m2 ∧
      m2.blockIndex = (if m.blockIndex + 1 ≥ BLOCK_SIZE then 0 else m.blockIndex + 1) ∧
      (m.blockIndex + 1 ≥ BLOCK_SIZE →
        (stepButtonsLoop inp NUM_CHANNELS m).stages.stepBlock inp.active inp.outs =
            some m2.stages ∧
          m2.blocksRun = m.blocksRun + 1) ∧
      (m.blockIndex + 1 < BLOCK_SIZE →
        m2.stages = (stepButtonsLoop inp NUM_CHANNELS m).stages ∧
          m2.blocksRun = m.blocksRun ∧
          m2.stages.envelopeBuffer = m.stages.envelopeBuffer) ∧
      ReachableWithLoad m2.stages ∧
      (∀ i, i < NUM_CHANNELS →
        m2.outputs i = m2.stages.envelopeBuffer i m2.blockIndex * 8) ∧
      m2.oscillatorSteps = m.oscillatorSteps ++
        (List.range NUM_CHANNELS).map (fun i => (i, indicatorOffset m2.stages i)) ∧
      (∀ i, i < NUM_CHANNELS → m2.oscillator i =
        ((m.oscillator i).step (float32Value inp.sampleTime) (indicatorOffset m2.stages i)).1) := by
  obtain ⟨b1, b2, b3, b4, b5, b6, b7⟩ := stepButtonsLoop_frame inp NUM_CHANNELS m
  have hr1 := b7 (le_refl _) h
  unfold Module.step
  simp only [b1]
  by_cases hb : m.blockIndex + 1 ≥ BLOCK_SIZE
  · obtain ⟨⟨st, hrun, _⟩, _⟩ := stepBlock_spec (stepButtonsLoop inp NUM_CHANNELS m).stages
      inp.active inp.outs hr1.genInv
    have hr2 : ReachableWithLoad st := ReachableWithLoad.stepBlock _ _ hr1 hrun
    simp only [hb, if_true, hrun]
    obtain ⟨o1, o2, o3, _, o5, o6, o7, _⟩ := stepOutputLoop_spec (float32Value inp.sampleTime)
      { stepButtonsLoop inp NUM_CHANNELS m with
        blockIndex := 0, stages := st,
        blocksRun := (stepButtonsLoop inp NUM_CHANNELS m).blocksRun + 1 }
      hr2.genInv.1 NUM_CHANNELS (le_refl _)
    refine ⟨_, rfl, o2, fun _ => ⟨by rw [o1], by rw [o3, b2]⟩, fun hlt => absurd hlt (by omega),
      by rw [o1]; exact hr2, ?_, ?_, ?_⟩
    · intro i hi
      rw [o6 i, if_pos hi, o1, o2]
    · rw [o5, o1, b3]
    · intro i hi
      rw [o7 i, if_pos hi, o1, b4]
  · simp only [hb, if_false]
    obtain ⟨o1, o2, o3, _, o5, o6, o7, _⟩ := stepOutputLoop_spec (float32Value inp.sampleTime)
      { stepButtonsLoop inp NUM_CHANNELS m with blockIndex := m.blockIndex + 1 }
      hr1.genInv.1 NUM_CHANNELS (le_refl _)
    refine ⟨_, rfl, o2, fun hge => False.elim hge,
      fun _ => ⟨by rw [o1], by rw [o3, b2], by rw [o1]; exact b6⟩,
      by rw [o1]; exact hr1, ?_, ?_, ?_⟩
    · intro i hi
      rw [o6 i, if_pos hi, o1, o2]
    · rw [o5, o1, b3]
    · intro i hi
      rw [o7 i, if_pos hi, o1, b4]

/-- Running two lists of samples one after the other. -/
theorem Module.run_concat :
    ∀ (a b : List StepInput) (m m1 : Module), m.run a = some m1 →
      m.run (a ++ b) = m1.run b := by
  intro a
  induction a with
  | nil =>
    intro b m m1 h
    simp only [Module.run] at h
    cases h
    rfl
  | cons inp rest ih =>
    intro b m m1 h
    simp only [Module.run, List.cons_append] at h ⊢
    cases hs : m.step inp with
    | none => rw [hs] at h; cases h
    | some m3 =>
      rw [hs] at h
      simp only at h ⊢
      exact ih b m3 m1 h

/-- Calls of `step` from any position of the block: they all return, and
`blockIndex` and the number of `stepBlock` calls follow the sample count. -/
theorem run_cadence :
    ∀ (inps : List StepInput) (m : Module), ReachableWithLoad m.stages →
      m.blockIndex < BLOCK_SIZE →
      ∃ m2, m.run inps = some m2 ∧ ReachableWithLoad m2.stages ∧
        m2.blockIndex = (m.blockIndex + inps.length) % BLOCK_SIZE ∧
        m2.blocksRun = m.blocksRun + (m.blockIndex + inps.length) / BLOCK_SIZE ∧
        (inps ≠ [] → ∀ i, i < NUM_CHANNELS →
          m2.outputs i = m2.stages.envelopeBuffer i m2.blockIndex * 8) := by
  intro inps
  induction inps with
  | nil =>
    intro m h hb
    refine ⟨m, rfl, h, ?_, ?_, fun hne => absurd rfl hne⟩
    · simp only [List.length_nil, Nat.add_zero]
      exact (Nat.mod_eq_of_lt hb).symm
    · simp only [List.length_nil, Nat.add_zero]
      rw [Nat.div_eq_of_lt hb]
      rfl
  | cons inp rest ih =>
    intro m h hb
    obtain ⟨m1, hstep, hidx, hblock, hkeep, hr1, hout, _⟩ := step_spec m inp h
    have hb1 : m1.blockIndex < BLOCK_SIZE := by
      rw [hidx]
      split
      · decide
      · omega
    obtain ⟨m2, hrun, hr2, hidx2, hcnt2, hout2⟩ := ih m1 hr1 hb1
    refine ⟨m2, by simp only [Module.run, hstep]; exact hrun, hr2, ?_, ?_, ?_⟩
    · rw [hidx2, hidx]
      simp only [List.length_cons, BLOCK_SIZE] at hb ⊢
      split <;> omega
    · rw [hcnt2, hidx]
      simp only [List.length_cons, BLOCK_SIZE] at hb ⊢
      by_cases hge : m.blockIndex + 1 ≥ 8
      · rw [if_pos hge, (hblock hge).2]
        omega
      · rw [if_neg hge, (hkeep (by simp only [BLOCK_SIZE]; omega)).2.1]
        omega
    · intro _ i hi
      by_cases hrest : rest = []
      · subst hrest
        simp only [Module.run] at hrun
        cases hrun
        exact hout i hi
      · exact hout2 hrest i hi

/-- Calls of `step` that stay inside one block: the buffer is not recomputed
and `blockIndex` counts the calls. -/
theorem run_within_block :
    ∀ (inps : List StepInput) (m : Module), ReachableWithLoad m.stages →
      m.blockIndex + inps.length < BLOCK_SIZE →
      ∃ m2, m.run inps = some m2 ∧
        m2.blockIndex = m.blockIndex + inps.length ∧
        m2.blocksRun = m.blocksRun ∧
        m2.stages.envelopeBuffer = m.stages.envelopeBuffer ∧
        ((∀ i, i < NUM_CHANNELS → m.outputs i = m.stages.envelopeBuffer i m.blockIndex * 8) →
          ∀ i, i < NUM_CHANNELS →
            m2.outputs i = m2.stages.envelopeBuffer i m2.blockIndex * 8) := by
  intro inps
  induction inps with
  | nil =>
    intro m h hb
    exact ⟨m, rfl, rfl, rfl, rfl, fun ho => ho⟩
  | cons inp rest ih =>
    intro m h hb
    simp only [List.length_cons] at hb
    obtain ⟨m1, hstep, hidx, _, hkeep, hr1, hout, _⟩ := step_spec m inp h
    have hlt : m.blockIndex + 1 < BLOCK_SIZE := by omega
    rw [if_neg (by omega)] at hidx
    obtain ⟨_, hcnt, henv⟩ := hkeep hlt
    obtain ⟨m2, hrun, hidx2, hcnt2, henv2, hout2⟩ := ih m1 hr1 (by rw [hidx]; omega)
    refine ⟨m2, by simp only [Module.run, hstep]; exact hrun, ?_, ?_, ?_, fun _ => hout2 hout⟩
    · rw [hidx2, hidx, List.length_cons]; omega
    · rw [hcnt2, hcnt]
    · rw [henv2, henv]

/-- The count is 0 exactly when no channel of the range has its loop flag on. -/
theorem countLoopsLoop_eq_zero_iff (c : Nat → Configuration) (g : Nat) :
    ∀ n, countLoopsLoop c g n = 0 ↔ ∀ j, j < n → (c (g + j)).loop = false := by
  intro n
  refine ⟨?_, countLoopsLoop_zero c g n⟩
  induction n with
  | zero => intro _ j hj; omega
  | succ n ih =>
    intro h j hj
    simp only [countLoopsLoop] at h
    have h1 : countLoopsLoop c g n = 0 := by omega
    by_cases hjn : j = n
    · subst hjn
      cases hl : (c (g + j)).loop with
      | false => rfl
      | true => rw [hl] at h; simp at h
    · exact ih h1 j (by omega)

/-- C18 (block cadence). From a module with `blockIndex = 0` whose block state
is reachable with loads, every sequence of calls of `step` returns; after `k`
calls `blockIndex = k mod 8`, which is in `[0, 7]`, and `stepBlock` has run
`k / 8` times. The call number `k = |inps| + 1` runs `stepBlock` exactly when
8 divides `k` (otherwise the block state is only what the buttons made of it
and the buffer is not written), and it emits `8 * envelopeBuffer[i][blockIndex]`
at the `blockIndex` after its increment. So when the call that ends `inps1`
computed a block, it and the next 7 calls emit positions 0, 1, ..., 7 of that
block, in that order. -/
theorem step_block_cadence (m : Module) (hr : ReachableWithLoad m.stages)
    (hb : m.blockIndex = 0) :
    (∀ inps : List StepInput, ∃ m2, m.run inps = some m2 ∧
      m2.blockIndex = inps.length % BLOCK_SIZE ∧ m2.blockIndex < BLOCK_SIZE ∧
      m2.blocksRun = m.blocksRun + inps.length / BLOCK_SIZE) ∧
    (∀ (inps : List StepInput) (inp : StepInput), ∃ m1 m2,
      m.run inps = some m1 ∧ m1.step inp = some m2 ∧ m.run (inps ++ [inp]) = some m2 ∧
      (BLOCK_SIZE ∣ inps.length + 1 →
        (stepButtonsLoop inp NUM_CHANNELS m1).stages.stepBlock inp.active inp.outs =
            some m2.stages ∧
          m2.blocksRun = m1.blocksRun + 1) ∧
      (¬ BLOCK_SIZE ∣ inps.length + 1 →
        m2.stages = (stepButtonsLoop inp NUM_CHANNELS m1).stages ∧
          m2.blocksRun = m1.blocksRun ∧
          m2.stages.envelopeBuffer = m1.stages.envelopeBuffer) ∧
      m2.blockIndex = (inps.length + 1) % BLOCK_SIZE ∧
      ∀ i, i < NUM_CHANNELS → m2.outputs i = m2.stages.envelopeBuffer i m2.blockIndex * 8) ∧
    (∀ inps1 inps2 : List StepInput, inps1 ≠ [] → BLOCK_SIZE ∣ inps1.length →
      inps2.length < BLOCK_SIZE →
      ∃ m1 m2, m.run inps1 = some m1 ∧ m1.run inps2 = some m2 ∧
        m.run (inps1 ++ inps2) = some m2 ∧
        m2.blockIndex = inps2.length ∧
        m2.stages.envelopeBuffer = m1.stages.envelopeBuffer ∧
        ∀ i, i < NUM_CHANNELS →
          m2.outputs i = m1.stages.envelopeBuffer i inps2.length * 8) := by
  have hb8 : m.blockIndex < BLOCK_SIZE := by rw [hb]; decide
  refine ⟨?_, ?_, ?_⟩
  · intro inps
    obtain ⟨m2, hrun, _, hidx, hcnt, _⟩ := run_cadence inps m hr hb8
    rw [hb, Nat.zero_add] at hidx hcnt
    exact ⟨m2, hrun, hidx, by rw [hidx]; exact Nat.mod_lt _ (by decide), hcnt⟩
  · intro inps inp
    obtain ⟨m1, hrun, hr1, hidx, _, _⟩ := run_cadence inps m hr hb8
    rw [hb, Nat.zero_add] at hidx
    obtain ⟨m2, hstep, hidx2, hblock, hkeep, _, hout, _⟩ := step_spec m1 inp hr1
    have happ : m.run (inps ++ [inp]) = some m2 := by
      rw [Module.run_concat inps [inp] m m1 hrun]
      simp only [Module.run, hstep]
    refine ⟨m1, m2, hrun, hstep, happ, ?_, ?_, ?_, hout⟩
    · intro hdvd
      apply hblock
      rw [hidx]
      simp only [BLOCK_SIZE] at hdvd ⊢
      omega
    · intro hdvd
      apply hkeep
      rw [hidx]
      simp only [BLOCK_SIZE] at hdvd ⊢
      omega
    · rw [hidx2, hidx]
      simp only [BLOCK_SIZE]
      split <;> omega
  · intro inps1 inps2 hne hdvd hlen
    obtain ⟨m1, hrun, hr1, hidx, _, hout⟩ := run_cadence inps1 m hr hb8
    rw [hb, Nat.zero_add] at hidx
    have hz : m1.blockIndex = 0 := by
      rw [hidx]
      exact Nat.mod_eq_zero_of_dvd hdvd
    obtain ⟨m2, hrun2, hidx2, _, henv, hout2⟩ :=
      run_within_block inps2 m1 hr1 (by rw [hz]; omega)
    rw [hz, Nat.zero_add] at hidx2
    refine ⟨m1, m2, hrun, hrun2, ?_, hidx2, henv, ?_⟩
    · rw [Module.run_concat inps1 inps2 m m1 hrun]
      exact hrun2
    · intro i hi
      rw [hout2 (hout hne) i hi, henv, hidx2]

/-- Witness for C18: a new module. -/
theorem step_block_cadence_witness :
    ReachableWithLoad (Module.new (fun _ => 0)).stages ∧
    (Module.new (fun _ => 0)).blockIndex = 0 ∧
    ∀ inps : List StepInput, ∃ m2, (Module.new (fun _ => 0)).run inps = some m2 ∧
      m2.blockIndex = inps.length % BLOCK_SIZE ∧ m2.blockIndex < BLOCK_SIZE ∧
      m2.blocksRun = (Module.new (fun _ => 0)).blocksRun + inps.length / BLOCK_SIZE :=
  ⟨ReachableWithLoad.new _, rfl,
    (step_block_cadence (Module.new (fun _ => 0)) (ReachableWithLoad.new _) rfl).1⟩

/-- C19 (indicator offset). A call of `step` on a module whose block state is
reachable with loads returns, and its oscillator calls are one per channel, in
channel order: `oscillator[i].step(offset)` once for each `i` in `[0, 6)`. For
a channel `i` in the run of the group start `g` (runs of stride
`max(1, groupSize[g])`), the offset is 0 if the loop flag of `i` is off, 0 if
it is on and no channel of the group before `i` has its loop flag on, and 0.25
if it is on and some channel of the group before `i` has its loop flag on.
The counter `loopcount` restarts at each group start: after the pass of the
output loop at channel `i` it is the number of loop-enabled channels from `g`
through `i`. -/
theorem step_indicator_offset (m : Module) (inp : StepInput)
    (hr : ReachableWithLoad m.stages) :
    ∃ m2, m.step inp = some m2 ∧
      m2.oscillatorSteps = m.oscillatorSteps ++
        (List.range NUM_CHANNELS).map (fun i => (i, indicatorOffset m2.stages i)) ∧
      (∀ i, i < NUM_CHANNELS → m2.oscillator i =
        ((m.oscillator i).step (float32Value inp.sampleTime) (indicatorOffset m2.stages i)).1) ∧
      (∀ g, g ∈ groupStarts m2.stages.groupBuilder.groupSize →
        ∀ i, g ≤ i → i < g + max 1 (m2.stages.groupBuilder.groupSize g) →
          ((m2.stages.configurations i).loop = false → indicatorOffset m2.stages i = 0) ∧
          ((m2.stages.configurations i).loop = true →
            (∀ x, g ≤ x → x < i → (m2.stages.configurations x).loop = false) →
            indicatorOffset m2.stages i = 0) ∧
          ((m2.stages.configurations i).loop = true →
            (∃ x, g ≤ x ∧ x < i ∧ (m2.stages.configurations x).loop = true) →
            indicatorOffset m2.stages i = 1 / 4) ∧
          ∀ (st : ℚ) (m3 : Module), m3.stages = m2.stages →
            (stepOutputLoop st (i + 1) m3).2.2 =
              ((countLoopsLoop m2.stages.configurations g (i + 1 - g) : Nat) : Int)) := by
  obtain ⟨m2, hstep, _, _, _, hr2, _, hlog, hosc⟩ := step_spec m inp hr
  refine ⟨m2, hstep, hlog, hosc, ?_⟩
  have hok := hr2.genInv.1
  intro g hg i h1 h2
  obtain ⟨hg6, hlg⟩ := (hok.mem_groupStarts g).1 hg
  obtain ⟨hi6, hli⟩ := hok.leader_of_mem hg6 hlg h1 h2
  refine ⟨?_, ?_, ?_, ?_⟩
  · intro hl
    unfold indicatorOffset
    rw [hl]
    rfl
  · intro hl hnone
    unfold indicatorOffset
    rw [hl, hli, if_pos rfl, if_pos]
    apply countLoopsLoop_zero
    intro j hj
    exact hnone (g + j) (by omega) (by omega)
  · rintro hl ⟨x, hx1, hx2, hxl⟩
    unfold indicatorOffset
    rw [hl, hli, if_pos rfl, if_neg]
    intro hz
    have := (countLoopsLoop_eq_zero_iff _ g _).1 hz (x - g) (by omega)
    have e : g + (x - g) = x := by omega
    rw [e, hxl] at this
    exact Bool.noConfusion this
  · intro st m3 hm3
    have hok3 : GroupsOK m3.stages.groupBuilder.groupSize := by rw [hm3]; exact hok
    obtain ⟨_, _, _, _, _, _, _, _, o9⟩ :=
      stepOutputLoop_spec st m3 hok3 (i + 1) (by omega)
    rw [(o9 (by omega)).2, hm3]
    simp only [Nat.add_sub_cancel]
    rw [hli]

/-- Witness for C19: one quiet sample on the module with loop points on
channels 0 and 1 of the chain of six. -/
theorem step_indicator_offset_witness :
    ReachableWithLoad abUsedUpModule.stages ∧
    ∃ m2, abUsedUpModule.step quietInput = some m2 ∧
      m2.oscillatorSteps = abUsedUpModule.oscillatorSteps ++
        (List.range NUM_CHANNELS).map (fun i => (i, indicatorOffset m2.stages i)) :=
  have h := step_indicator_offset abUsedUpModule quietInput abUsedUp_reachable.withLoad
  ⟨abUsedUp_reachable.withLoad, h.elim fun m2 h2 => ⟨m2, h2.1, h2.2.1⟩⟩

end AudibleInstruments
